import Mathlib

/-!
# RawSpeed: the uncompressed decoders of `RawDecoder.cpp`

A shallow embedding of `src/librawspeed/decoders/RawDecoder.cpp` and theorems
about it.

Conventions of the embedding.

* `uint32` values are natural numbers; every product, sum or difference that the
  source computes in 32 bits is reduced `% U32` where it can wrap.
* A C++ exception is a value of `Exc`.  The third constructor, `Exc.Fault`, marks
  an execution that leaves defined behaviour (a read through a raw pointer outside
  the stream, an integer division by zero); no `catch` clause of the source
  intercepts it.
* A function of the source that mutates the stream and the image returns an
  `Outcome`: the pending exception (if any) together with the stream and the image
  as they are when the function is left, so that effects performed before a
  `throw` stay visible.
* Pixel storage is a table indexed by row and by 16-bit cell within the row: the
  row pointer `&data[y*pitch]` of the source is row `y`, and `dest[x] = v` stores
  `v` truncated to 16 bits in cell `x` of that row.  The table has no bounds: the
  embedding does not follow the extent of the allocation, and rows do not alias
  (the pitch of an allocated image is at least the width in bytes).
* Bytes of the input are natural numbers; theorems about sample values assume them
  below 256.
-/

namespace RawSpeed

/-- Modulus of the `uint32` arithmetic of the source. -/
def U32 : Nat := 4294967296

/-- The exceptions thrown by the source (`ThrowIOE`, `ThrowRDE`) and the marker of
an execution without defined behaviour. -/
inductive Exc where
  | IOException (what : String)
  | RawDecoderException (what : String)
  | Fault (what : String)
deriving DecidableEq, Repr

/-- Modelled from the spec: the ByteCursor of sections 3 and 4.1 (class `ByteStream`,
declared in `io/ByteStream.h`, which is not among the sources).  The cursor is
represented by the bytes that remain in front of its position.  The source keeps
sizes in `uint32`: a stream holds fewer than `2^32` bytes, which the theorems that
depend on it take as a hypothesis. -/
structure ByteStream where
  rest : List Nat
deriving DecidableEq, Repr

/-- Modelled from the spec: `remaining()`. -/
def ByteStream.getRemainSize (s : ByteStream) : Nat := s.rest.length

/-- Modelled from the spec: `consume(n)`, which fails `Truncated` if `n > remaining`
and otherwise hands out a view and advances by `n`.  The view is the raw pointer
`const uchar8*` of the source: it addresses the remaining bytes from the old
position on, and nothing stops the caller from indexing it beyond `n`. -/
def ByteStream.getData (s : ByteStream) (n : Nat) : Except Exc (List Nat × ByteStream) :=
  if n ≤ s.rest.length then .ok (s.rest, ⟨s.rest.drop n⟩)
  else .error (.IOException "Out of bounds access in ByteStream")

/-- Modelled from the spec: `peek(n)`, identical to `consume(n)` but without advance. -/
def ByteStream.peekData (s : ByteStream) (n : Nat) : Except Exc (List Nat) :=
  if n ≤ s.rest.length then .ok s.rest
  else .error (.IOException "Out of bounds access in ByteStream")

/-- Modelled from the spec: `skip(n)`, `Truncated` if `n > remaining`. -/
def ByteStream.skipBytes (s : ByteStream) (n : Nat) : Except Exc ByteStream :=
  if n ≤ s.rest.length then .ok ⟨s.rest.drop n⟩
  else .error (.IOException "Out of bounds access in ByteStream")

/-- The pixel table: row, then 16-bit cell within the row. -/
abbrev Pixels := Nat → Nat → Nat

/-- The store `dest[x] = v` through the `ushort16*` pointer of row `y`. -/
def store (d : Pixels) (y x v : Nat) : Pixels :=
  fun r c => if r = y ∧ c = x then v % 65536 else d r c

/-- Modelled from the spec: the ImageBuffer of sections 3 and 4.3 (class
`RawImageData`, declared in `common/RawImage.h`, which is not among the sources).
`dimx`, `dimy` are the `int` fields of `dim`; `isFloat` says whether the sample type
is `TYPE_FLOAT32` rather than `TYPE_USHORT16`; `lookUp` is the camera table behind
`setWithLookUp`, taking the sample and the random state to the stored value and the
next random state. -/
structure RawImage where
  dimx : Int
  dimy : Int
  pitch : Nat
  cpp : Nat
  isFloat : Bool
  whitePoint : Int
  lookUp : Nat → Nat → Nat × Nat
  data : Pixels
  errors : List String

/-- Modelled from the spec: `set_error(msg)` appends a message; it never throws. -/
def RawImage.setError (m : RawImage) (msg : String) : RawImage :=
  { m with errors := m.errors ++ [msg] }

/-- What a function of the decoder leaves behind: the exception in flight, the input
stream and the image. -/
structure Outcome where
  exc : Option Exc
  input : ByteStream
  mRaw : RawImage

/-! ## The truncation preamble and the row loops -/

/-- The message recorded when a decoder shortens the image. -/
def imageTruncated : String := "Image truncated (file is too short)"

/-- The preamble that the fixed decoders repeat verbatim:
`if (remain < total) { if (remain > perline) { h = remain / perline - 1; setError(..); } else ThrowIOE(what); }`
with `perline` and `total` the 32-bit values of the two size expressions. -/
def checkLines (remain perline total h : Nat) (what : String) (mRaw : RawImage) :
    Except Exc (Nat × RawImage) :=
  if remain < total then
    if remain > perline then
      if perline = 0 then .error (.Fault "division by zero")
      else .ok ((remain / perline + U32 - 1) % U32, mRaw.setError imageTruncated)
    else .error (.IOException what)
  else .ok (h, mRaw)

/-- The statements that follow the preamble in every fixed decoder: `getData(total)`
with the (possibly reduced) `h`, then the row loops over the pointer obtained. -/
def fixedDecode (perline : Nat) (total : Nat → Nat) (what : String)
    (rows : List Nat → Nat → Pixels → Option Pixels)
    (input : ByteStream) (h : Nat) (mRaw : RawImage) : Outcome :=
  match checkLines input.getRemainSize perline (total h) h what mRaw with
  | .error e => ⟨some e, input, mRaw⟩
  | .ok (h1, mRaw1) =>
    match input.getData (total h1) with
    | .error e => ⟨some e, input, mRaw1⟩
    | .ok (inp, input1) =>
      match rows inp h1 mRaw1.data with
      | none => ⟨some (.Fault "read outside the input stream"), input1, mRaw1⟩
      | some d => ⟨none, input1, { mRaw1 with data := d }⟩

/-- The inner loop `for (x = 0; x < w; x += 2) { g1 = *in++; g2 = *in++; dest[x] = ..;
g3 = *in++; dest[x+1] = ..; }` with `n` iterations left, the column `x` and the
offset `o` of `in` within the view; `rule g1 g2 g3` is the pair of expressions
stored.  `none` is a read outside the stream. -/
def pairCols (rule : Nat → Nat → Nat → Nat × Nat) (inp : List Nat) (y : Nat) :
    Nat → Nat → Nat → Pixels → Option (Nat × Pixels)
  | 0, _, o, d => some (o, d)
  | n + 1, x, o, d =>
    match inp[o]?, inp[o + 1]?, inp[o + 2]? with
    | some g1, some g2, some g3 =>
      pairCols rule inp y n (x + 2) (o + 3)
        (store (store d y x (rule g1 g2 g3).1) y (x + 1) (rule g1 g2 g3).2)
    | _, _, _ => none

/-- The outer loop `for (y = 0; y < h; y++)` around `pairCols`; the inner loop runs
for `x = 0, 2, 4, ..` below `w`, that is `(w + 1) / 2` times. -/
def pairRows (rule : Nat → Nat → Nat → Nat × Nat) (inp : List Nat) (w : Nat) :
    Nat → Nat → Nat → Pixels → Option (Nat × Pixels)
  | 0, _, o, d => some (o, d)
  | n + 1, y, o, d =>
    match pairCols rule inp y ((w + 1) / 2) 0 o d with
    | none => none
    | some (o1, d1) => pairRows rule inp w n (y + 1) o1 d1

/-- The inner loop `for (x = 0; x < w; x += 1) { g1 = *in++; g2 = *in++; dest[x] = ..; }`. -/
def wordCols (rule : Nat → Nat → Nat) (inp : List Nat) (y : Nat) :
    Nat → Nat → Nat → Pixels → Option (Nat × Pixels)
  | 0, _, o, d => some (o, d)
  | n + 1, x, o, d =>
    match inp[o]?, inp[o + 1]? with
    | some g1, some g2 => wordCols rule inp y n (x + 1) (o + 2) (store d y x (rule g1 g2))
    | _, _ => none

/-- The outer loop `for (y = 0; y < h; y++)` around `wordCols`. -/
def wordRows (rule : Nat → Nat → Nat) (inp : List Nat) (w : Nat) :
    Nat → Nat → Nat → Pixels → Option (Nat × Pixels)
  | 0, _, o, d => some (o, d)
  | n + 1, y, o, d =>
    match wordCols rule inp y w 0 o d with
    | none => none
    | some (o1, d1) => wordRows rule inp w n (y + 1) o1 d1

/-- The inner loop of `Decode8BitRaw`: one byte per sample, stored directly when
`uncorrectedRawValues` is set and through `setWithLookUp` otherwise; `rnd` is the
local `uint32 random`. -/
def byteCols (uncorrectedRawValues : Bool) (lookUp : Nat → Nat → Nat × Nat)
    (inp : List Nat) (y : Nat) :
    Nat → Nat → Nat → Nat → Pixels → Option (Nat × Nat × Pixels)
  | 0, _, o, rnd, d => some (o, rnd, d)
  | n + 1, x, o, rnd, d =>
    match inp[o]? with
    | some g =>
      if uncorrectedRawValues then
        byteCols uncorrectedRawValues lookUp inp y n (x + 1) (o + 1) rnd (store d y x g)
      else
        byteCols uncorrectedRawValues lookUp inp y n (x + 1) (o + 1) (lookUp g rnd).2
          (store d y x (lookUp g rnd).1)
    | none => none

/-- The outer loop of `Decode8BitRaw`. -/
def byteRows (uncorrectedRawValues : Bool) (lookUp : Nat → Nat → Nat × Nat)
    (inp : List Nat) (w : Nat) :
    Nat → Nat → Nat → Nat → Pixels → Option (Nat × Nat × Pixels)
  | 0, _, o, rnd, d => some (o, rnd, d)
  | n + 1, y, o, rnd, d =>
    match byteCols uncorrectedRawValues lookUp inp y w 0 o rnd d with
    | none => none
    | some (o1, rnd1, d1) => byteRows uncorrectedRawValues lookUp inp w n (y + 1) o1 rnd1 d1

/-! ## The fixed decoders -/

/-- The message of the `ThrowIOE` in the preamble of all fixed decoders but the 8-bit one. -/
def notEnoughData : String :=
  "readUncompressedRaw: Not enough data to decode a single line. Image file truncated."

/-- The message of the `w < 2` guard of the packed 12-bit decoders. -/
def tooNarrow : String := "Are you mad? 1 pixel wide raw images are no fun"

/-- `RawDecoder::Decode8BitRaw`. -/
def Decode8BitRaw (uncorrectedRawValues : Bool) (input : ByteStream) (w h : Nat)
    (mRaw : RawImage) : Outcome :=
  fixedDecode w (fun h => (w * h) % U32)
    "Decode8BitRaw: Not enough data to decode a single line. Image file truncated."
    (fun inp h d =>
      (byteRows uncorrectedRawValues mRaw.lookUp inp w h 0 0 0 d).map (fun r => r.2.2))
    input h mRaw

/-- The two stores of the little-endian packed 12-bit loops. -/
def rule12LE (g1 g2 g3 : Nat) : Nat × Nat :=
  (g1 ||| ((g2 &&& 0xf) <<< 8), (g2 >>> 4) ||| (g3 <<< 4))

/-- The two stores of the big-endian packed 12-bit loops. -/
def rule12BE (g1 g2 g3 : Nat) : Nat × Nat :=
  ((g1 <<< 4) ||| (g2 >>> 4), ((g2 &&& 0x0f) <<< 8) ||| g3)

/-- `RawDecoder::Decode12BitRaw`. -/
def Decode12BitRaw (input : ByteStream) (w h : Nat) (mRaw : RawImage) : Outcome :=
  if w < 2 then ⟨some (.IOException tooNarrow), input, mRaw⟩
  else
    fixedDecode (w * 12 % U32 / 8) (fun h => (w * 12 % U32 / 8 * h) % U32) notEnoughData
      (fun inp h d => (pairRows rule12LE inp w h 0 0 d).map (fun r => r.2))
      input h mRaw

/-- `RawDecoder::Decode12BitRawBE`. -/
def Decode12BitRawBE (input : ByteStream) (w h : Nat) (mRaw : RawImage) : Outcome :=
  if w < 2 then ⟨some (.IOException tooNarrow), input, mRaw⟩
  else
    fixedDecode (w * 12 % U32 / 8) (fun h => (w * 12 % U32 / 8 * h) % U32) notEnoughData
      (fun inp h d => (pairRows rule12BE inp w h 0 0 d).map (fun r => r.2))
      input h mRaw

/-- The common shape of the six unpacked 16-bit-per-sample decoders, which differ in
the expression stored only: preamble on `w*h*2` and `w*2`, `getData(w*h*2)`, loops. -/
def decodeUnpacked (rule : Nat → Nat → Nat) (input : ByteStream) (w h : Nat)
    (mRaw : RawImage) : Outcome :=
  fixedDecode (w * 2 % U32) (fun h => (w * h * 2) % U32) notEnoughData
    (fun inp h d => (wordRows rule inp w h 0 0 d).map (fun r => r.2))
    input h mRaw

/-- `RawDecoder::Decode12BitRawBEunpacked`. -/
def Decode12BitRawBEunpacked (input : ByteStream) (w h : Nat) (mRaw : RawImage) : Outcome :=
  decodeUnpacked (fun g1 g2 => ((g1 &&& 0x0f) <<< 8) ||| g2) input w h mRaw

/-- `RawDecoder::Decode12BitRawBEunpackedLeftAligned`. -/
def Decode12BitRawBEunpackedLeftAligned (input : ByteStream) (w h : Nat)
    (mRaw : RawImage) : Outcome :=
  decodeUnpacked (fun g1 g2 => ((g1 <<< 8) ||| (g2 &&& 0xf0)) >>> 4) input w h mRaw

/-- `RawDecoder::Decode14BitRawBEunpacked`. -/
def Decode14BitRawBEunpacked (input : ByteStream) (w h : Nat) (mRaw : RawImage) : Outcome :=
  decodeUnpacked (fun g1 g2 => ((g1 &&& 0x3f) <<< 8) ||| g2) input w h mRaw

/-- `RawDecoder::Decode16BitRawUnpacked`. -/
def Decode16BitRawUnpacked (input : ByteStream) (w h : Nat) (mRaw : RawImage) : Outcome :=
  decodeUnpacked (fun g1 g2 => (g2 <<< 8) ||| g1) input w h mRaw

/-- `RawDecoder::Decode16BitRawBEunpacked`. -/
def Decode16BitRawBEunpacked (input : ByteStream) (w h : Nat) (mRaw : RawImage) : Outcome :=
  decodeUnpacked (fun g1 g2 => (g1 <<< 8) ||| g2) input w h mRaw

/-- `RawDecoder::Decode12BitRawUnpacked`. -/
def Decode12BitRawUnpacked (input : ByteStream) (w h : Nat) (mRaw : RawImage) : Outcome :=
  decodeUnpacked (fun g1 g2 => ((g2 <<< 8) ||| g1) >>> 4) input w h mRaw

/-- An allocated, zeroed image with no error recorded, for the concrete scenarios. -/
def blankImage : RawImage :=
  { dimx := 0, dimy := 0, pitch := 0, cpp := 1, isFloat := false, whitePoint := 65536,
    lookUp := fun g rnd => (g, rnd), data := fun _ _ => 0, errors := [] }

/-- The behaviour of a decoder `D` (its width `w` already fixed) that expects `p`
bytes per row, on an input of `L` remaining bytes and a declared height `h`;
`pix inp y x` is the sample that a decode of row `y`, column `x` from the bytes `inp`
stores.
* `L >= p*h`: no exception, no error recorded, `p*h` bytes consumed, every sample of
  the rows `0 .. h-1` stored, the rest of the image untouched;
* `p < L < p*h`: with `k = L/p - 1`, no exception, exactly the one message
  `imageTruncated` appended, `p*k` bytes consumed, every sample of the rows
  `0 .. k-1` stored (the pixels are those of a complete decode of `k` rows), the rest
  of the image, the rows from `k` on among it, untouched;
* `L < p*h` and `L <= p`: an `IOException`, the image and the stream as they were. -/
def RowPolicy (D : ByteStream → Nat → RawImage → Outcome) (p w : Nat)
    (pix : List Nat → Nat → Nat → Nat) (input : ByteStream) (h : Nat) (mRaw : RawImage) :
    Prop :=
  (p * h ≤ input.getRemainSize →
    (D input h mRaw).exc = none ∧
    (D input h mRaw).input.rest = input.rest.drop (p * h) ∧
    (D input h mRaw).mRaw.errors = mRaw.errors ∧
    (∀ y x, y < h → x < w → (D input h mRaw).mRaw.data y x = pix input.rest y x) ∧
    ∀ r c, (h ≤ r ∨ w ≤ c) → (D input h mRaw).mRaw.data r c = mRaw.data r c) ∧
  (p < input.getRemainSize → input.getRemainSize < p * h →
    (D input h mRaw).exc = none ∧
    (D input h mRaw).input.rest = input.rest.drop (p * (input.getRemainSize / p - 1)) ∧
    (D input h mRaw).mRaw.errors = mRaw.errors ++ [imageTruncated] ∧
    (∀ y x, y < input.getRemainSize / p - 1 → x < w →
      (D input h mRaw).mRaw.data y x = pix input.rest y x) ∧
    (D input h mRaw).mRaw.data = (D input (input.getRemainSize / p - 1) mRaw).mRaw.data ∧
    ∀ r c, (input.getRemainSize / p - 1 ≤ r ∨ w ≤ c) →
      (D input h mRaw).mRaw.data r c = mRaw.data r c) ∧
  (input.getRemainSize < p * h → input.getRemainSize ≤ p →
    (∃ what, (D input h mRaw).exc = some (.IOException what)) ∧
    (D input h mRaw).mRaw = mRaw ∧ (D input h mRaw).input = input)

/-! ## Integer conversions -/

/-- Modulus of the `uint64` arithmetic of the source. -/
def U64 : Nat := 18446744073709551616

/-- The `int` with the bit pattern of a `uint32` (conversion `uint32` to `int`). -/
def toInt32 (n : Nat) : Int :=
  if n % U32 < 2147483648 then ((n % U32 : Nat) : Int) else ((n % U32 : Nat) : Int) - 4294967296

/-- Conversion of an `int` to `uint64` (sign extension, then the bit pattern). -/
def toU64 (i : Int) : Nat := (i % 18446744073709551616).toNat

/-- Conversion of an `int` to `uint32`. -/
def toU32 (i : Int) : Nat := (i % 4294967296).toNat

/-! ## Bit pumps and block copy -/

/-- The `BitOrder` enumeration. -/
inductive BitOrder where
  | BitOrder_Plain
  | BitOrder_Jpeg
  | BitOrder_Jpeg16
  | BitOrder_Jpeg32
deriving DecidableEq, Repr

/-- The bits of a byte, most significant first. -/
def byteBitsMSB (b : Nat) : List Bool := (List.range 8).map (fun k => b.testBit (7 - k))

/-- The bits of a byte, least significant first. -/
def byteBitsLSB (b : Nat) : List Bool := (List.range 8).map (fun k => b.testBit k)

/-- Modelled from the spec: the BitPump of sections 3 and 4.2 (classes `BitPumpMSB`,
`BitPumpMSB16`, `BitPumpMSB32`, `BitPumpPlain`, none of them among the sources).  A
pump is the logical bit stream it still has to deliver; `msb` tells whether
`get_bits` assembles its result most significant bit first. -/
structure BitPump where
  msb : Bool
  bits : List Bool
deriving DecidableEq, Repr

/-- Modelled from the spec: the pump a bit order selects over a cursor.  `MSB8` and
`PlainLSB` refill byte by byte; `MSB16` and `MSB32` refill big-endian words of two
and four bytes, so that a trailing partial word is never delivered. -/
def BitPump.create (order : BitOrder) (input : ByteStream) : BitPump :=
  match order with
  | .BitOrder_Plain => ⟨false, input.rest.flatMap byteBitsLSB⟩
  | .BitOrder_Jpeg => ⟨true, input.rest.flatMap byteBitsMSB⟩
  | .BitOrder_Jpeg16 =>
    ⟨true, (input.rest.take (2 * (input.rest.length / 2))).flatMap byteBitsMSB⟩
  | .BitOrder_Jpeg32 =>
    ⟨true, (input.rest.take (4 * (input.rest.length / 4))).flatMap byteBitsMSB⟩

/-- The number a run of bits denotes, first bit most significant. -/
def bitsValueMSB (bs : List Bool) : Nat := bs.foldl (fun acc b => 2 * acc + b.toNat) 0

/-- The number a run of bits denotes, first bit least significant. -/
def bitsValueLSB (bs : List Bool) : Nat := bs.foldr (fun b acc => b.toNat + 2 * acc) 0

/-- Modelled from the spec: `get_bits(n)` returns the next `n` bits as an unsigned
number and consumes exactly `n` bits; the pump never reads past its cursor, and
exhaustion is the `Truncated` failure (an `IOException`). -/
def BitPump.getBits (p : BitPump) (n : Nat) : Except Exc (Nat × BitPump) :=
  if n ≤ p.bits.length then
    .ok ((if p.msb then bitsValueMSB (p.bits.take n) else bitsValueLSB (p.bits.take n)) % U32,
         ⟨p.msb, p.bits.drop n⟩)
  else .error (.IOException "Out of buffer read")

/-- Modelled from the spec: `skip_bits(n)` advances without producing output, with
the same failure on exhaustion. -/
def BitPump.skipBits (p : BitPump) (n : Nat) : Except Exc BitPump :=
  if n ≤ p.bits.length then .ok ⟨p.msb, p.bits.drop n⟩
  else .error (.IOException "Out of buffer read")

/-- The inner loop `for (x = 0; x < w; x++) { b = bits.getBits(bitPerPixel); dest[x] = b; }`
of the bit pump paths, with `n` iterations left and `c` the cell `dest + x`.  An
exception leaves the cells already stored in place. -/
def pumpCols (nbits y : Nat) : Nat → Nat → BitPump → Pixels → Option Exc × BitPump × Pixels
  | 0, _, bits, d => (none, bits, d)
  | n + 1, c, bits, d =>
    match bits.getBits nbits with
    | .error e => (some e, bits, d)
    | .ok (b, bits1) => pumpCols nbits y n (c + 1) bits1 (store d y c b)

/-- The outer loop `for (; y < h; y++) { dest = ..; bits.checkPos(); ..; bits.skipBits(skipBits); }`
with `n` rows left; `checkPos` is the no-op hook of the spec. -/
def pumpRows (nbits skipBits cells base : Nat) : Nat → Nat → BitPump → Pixels → Option Exc × Pixels
  | 0, _, _, d => (none, d)
  | n + 1, y, bits, d =>
    match pumpCols nbits y cells base bits d with
    | (some e, _, d1) => (some e, d1)
    | (none, bits1, d1) =>
      match bits1.skipBits skipBits with
      | .error e => (some e, d1)
      | .ok bits2 => pumpRows nbits skipBits cells base n (y + 1) bits2 d1

/-- Modelled from the spec: `BitBlt`, the bulk copy of `height` rows of `rowSize`
bytes each, the source rows `srcPitch` bytes apart, into the rows from `y` on at cell
`c0`; on the little-endian host two bytes make one cell.  A negative size or a read
outside the view has no defined behaviour. -/
def BitBlt (src : List Nat) (srcPitch rowSize : Int) (c0 : Nat) :
    Nat → Nat → Nat → Pixels → Option Pixels
  | 0, _, _, d => some d
  | n + 1, y, o, d =>
    if rowSize < 0 ∨ srcPitch < 0 then none
    else
      match wordCols (fun g1 g2 => (g2 <<< 8) ||| g1) src y (rowSize.toNat / 2) c0 o d with
      | none => none
      | some (_, d1) => BitBlt src srcPitch rowSize c0 n (y + 1) (o + srcPitch.toNat) d1

/-! ## `readUncompressedRaw` and `decodeUncompressed` -/

/-- The `ThrowRDE` messages of `readUncompressedRaw`. -/
def unsupportedBitDepth : String := "readUncompressedRaw: Unsupported bit depth"

/-- The message of the `oy` check. -/
def invalidYOffset : String := "readUncompressedRaw: Invalid y offset"

/-- The message of the `ox` check. -/
def invalidXOffset : String := "readUncompressedRaw: Invalid x offset"

/-- The message of the float check. -/
def onlyFloat32 : String := "readUncompressedRaw: Only 32 bit float point supported"

/-- The bit pump branches of `readUncompressedRaw`, which differ in the pump and in
the cell `base` the row pointer starts at: `w *= cpp`, then the two loops over rows
`y .. h-1`.  The counter `x` is a `uint32`: for `w*cpp >= 2^32` it never reaches the
bound and the stores of a row leave the row; with no row to decode (`h <= y`) the
loops do nothing. -/
def pumpBranch (order : BitOrder) (input : ByteStream) (w cpp nbits skipBits base y h : Nat)
    (mRaw : RawImage) : Outcome :=
  if h ≤ y ∨ (w * cpp) % U64 < U32 then
    match pumpRows nbits skipBits ((w * cpp) % U64) base (h - y) y
        (BitPump.create order input) mRaw.data with
    | (e, d) => ⟨e, input, { mRaw with data := d }⟩
  else ⟨some (.Fault "store outside the image"), input, mRaw⟩

/-- The two `BitBlt` exits of `readUncompressedRaw`:
`BitBlt(&data[..], outPitch, input.getData(inputPitch*(h-y)), inputPitch, w*getBpp(), h - y)`
with the `uint64` arguments narrowed to the `uint32` and `int` parameters. -/
def blitBranch (input : ByteStream) (inputPitch : Int) (w bpp base y h : Nat)
    (mRaw : RawImage) : Outcome :=
  match input.getData ((toU64 inputPitch * ((h + U64 - y) % U64)) % U64 % U32) with
  | .error e => ⟨some e, input, mRaw⟩
  | .ok (src, input1) =>
    if toInt32 ((h + U64 - y) % U64) < 0 then
      ⟨some (.Fault "negative height in BitBlt"), input1, mRaw⟩
    else
      match BitBlt src inputPitch (toInt32 ((w * bpp) % U64)) base
          (toInt32 ((h + U64 - y) % U64)).toNat y 0 mRaw.data with
      | none => ⟨some (.Fault "read outside the input stream"), input1, mRaw⟩
      | some d => ⟨none, input1, { mRaw with data := d }⟩

/-- The preamble of `readUncompressedRaw`:
`if (remain < inputPitch*h) { if ((int)remain > inputPitch) { h = remain / inputPitch - 1; setError(..); } else ThrowIOE(..); }`
with `h` a `uint64`, `inputPitch` an `int`, the product taken in 64 bits and the
quotient in 32 bits. -/
def checkPitch (remain : Nat) (inputPitch : Int) (h : Nat) (mRaw : RawImage) :
    Except Exc (Nat × RawImage) :=
  if remain < (toU64 inputPitch * h) % U64 then
    if toInt32 remain > inputPitch then
      if toU32 inputPitch = 0 then .error (.Fault "division by zero")
      else .ok ((remain / toU32 inputPitch + U32 - 1) % U32, mRaw.setError imageTruncated)
    else .error (.IOException
      "readUncompressedRaw: Not enough data to decode a single line. Image file truncated.")
  else .ok (h, mRaw)

/-- `RawDecoder::readUncompressedRaw`; `hostLittle` is `getHostEndianness() == little`. -/
def readUncompressedRaw (hostLittle : Bool) (input : ByteStream) (size offset : Int × Int)
    (inputPitch bitPerPixel : Int) (order : BitOrder) (mRaw : RawImage) : Outcome :=
  let w := toU64 size.1
  let cpp := mRaw.cpp
  let ox := toU64 offset.1
  let oy := toU64 offset.2
  match checkPitch input.getRemainSize inputPitch (toU64 size.2) mRaw with
  | .error e => ⟨some e, input, mRaw⟩
  | .ok (h0, mRaw) =>
    if bitPerPixel > 16 ∧ mRaw.isFloat = false then
      ⟨some (.RawDecoderException unsupportedBitDepth), input, mRaw⟩
    else
      let skipBits :=
        (toU64 inputPitch + U64 - ((w * cpp) % U64 * toU64 bitPerPixel) % U64 / 8) % U64 % U32
      if oy > toU64 mRaw.dimy then
        ⟨some (.RawDecoderException invalidYOffset), input, mRaw⟩
      else if (ox + toU64 size.1) % U64 > toU64 mRaw.dimx then
        ⟨some (.RawDecoderException invalidXOffset), input, mRaw⟩
      else
        let y := oy
        let h := min ((h0 + oy) % U64) (toU32 mRaw.dimy)
        if mRaw.isFloat then
          if bitPerPixel ≠ 32 then ⟨some (.RawDecoderException onlyFloat32), input, mRaw⟩
          else blitBranch input inputPitch w (4 * cpp) (ox * 2 * cpp) y h mRaw
        else
          match order with
          | .BitOrder_Jpeg =>
            pumpBranch order input w cpp (toU32 bitPerPixel) skipBits (ox * cpp) y h mRaw
          | .BitOrder_Jpeg16 =>
            pumpBranch order input w cpp (toU32 bitPerPixel) skipBits (ox * cpp) y h mRaw
          | .BitOrder_Jpeg32 =>
            pumpBranch order input w cpp (toU32 bitPerPixel) skipBits (ox * cpp) y h mRaw
          | .BitOrder_Plain =>
            if bitPerPixel = 16 ∧ hostLittle = true then
              blitBranch input inputPitch w (2 * cpp) (ox * cpp) y h mRaw
            else if bitPerPixel = 12 ∧ toInt32 w = Int.tdiv (inputPitch * 8) 12
                ∧ hostLittle = true then
              Decode12BitRaw input (w % U32) (h % U32) mRaw
            else
              pumpBranch order input w cpp (toU32 bitPerPixel) skipBits ox y h mRaw

/-- Modelled from the spec: the ByteRange of section 3 (class `FileMap`, not among the
sources), the bytes of the mapped file. -/
structure FileMap where
  data : List Nat
deriving DecidableEq, Repr

/-- Modelled from the spec: `is_valid(off, len)`, true iff `off + len <= length`
with no overflow. -/
def FileMap.isValid (f : FileMap) (offset count : Nat) : Bool :=
  decide (offset + count ≤ f.data.length)

/-- The `RawSlice` record of the source. -/
structure RawSlice where
  h : Nat
  offset : Nat
  count : Nat
deriving DecidableEq, Repr

/-- What `decodeUncompressed` leaves behind: the exception in flight and the image. -/
structure Result where
  exc : Option Exc
  mRaw : RawImage

/-- The first loop of `decodeUncompressed` over the strip table (the pairs
`offsets->getInt(s)`, `counts->getInt(s)`), from the running `offY` and the slices
pushed so far to the final ones. -/
def collectSlices (mFile : FileMap) (yPerSlice height : Nat) :
    List (Nat × Nat) → Nat → List RawSlice → List RawSlice × Nat
  | [], offY, slices => (slices, offY)
  | (offset, count) :: rest, offY, slices =>
    collectSlices mFile yPerSlice height rest ((offY + yPerSlice) % U32)
      (if mFile.isValid offset count then
        slices ++ [⟨if (offY + yPerSlice) % U32 > height then (height + U32 - offY) % U32
                    else yPerSlice, offset, count⟩]
      else slices)

/-- The message of the `ThrowRDE` for an empty slice list. -/
def noValidSlices : String := "RAW Decoder: No valid slices found. File probably truncated."

/-- The text put in front of the message of an `IOException` of the first slice. -/
def ioInFirstSlice : String :=
  "RAW decoder: IO error occurred in first slice, unable to decode more. Error is: "

/-- The call in the `try` block of the second loop, for a slice whose divisor
`slice.h * width` is not zero: the stream over the slice, `bitPerPixel` recomputed
from the byte count, and `readUncompressedRaw(in, size, pos, width*bitPerPixel/8,
bitPerPixel, order)` with `size = (width, slice.h)` and `pos = (0, offY)`. -/
def readSlice (hostLittle : Bool) (mFile : FileMap) (width : Nat) (order : BitOrder)
    (slice : RawSlice) (offY : Nat) (mRaw : RawImage) : Outcome :=
  readUncompressedRaw hostLittle ⟨(mFile.data.drop slice.offset).take slice.count⟩
    (toInt32 width, toInt32 slice.h) (0, toInt32 offY)
    (toInt32 ((width * ((slice.count * 8 / ((slice.h * width) % U32)) % U32)) % U32 / 8))
    (toInt32 ((slice.count * 8 / ((slice.h * width) % U32)) % U32)) order mRaw

/-- The second loop of `decodeUncompressed`, from index `i` and row `offY` on.  The
stream constructor (which rejects a window outside the file) and the division are
outside the `try` block. -/
def decodeSlices (hostLittle : Bool) (mFile : FileMap) (width : Nat) (order : BitOrder) :
    List RawSlice → Nat → Nat → RawImage → Result
  | [], _, _, mRaw => ⟨none, mRaw⟩
  | slice :: rest, i, offY, mRaw =>
    if mFile.isValid slice.offset slice.count = false then
      ⟨some (.IOException "Out of bounds access in ByteStream"), mRaw⟩
    else if (slice.h * width) % U32 = 0 then
      ⟨some (.Fault "division by zero"), mRaw⟩
    else
      match (readSlice hostLittle mFile width order slice offY mRaw).exc with
      | none =>
        decodeSlices hostLittle mFile width order rest (i + 1) ((offY + slice.h) % U32)
          (readSlice hostLittle mFile width order slice offY mRaw).mRaw
      | some (.RawDecoderException what) =>
        if i > 0 then
          decodeSlices hostLittle mFile width order rest (i + 1) ((offY + slice.h) % U32)
            ((readSlice hostLittle mFile width order slice offY mRaw).mRaw.setError what)
        else
          ⟨some (.RawDecoderException what),
            (readSlice hostLittle mFile width order slice offY mRaw).mRaw⟩
      | some (.IOException what) =>
        if i > 0 then
          decodeSlices hostLittle mFile width order rest (i + 1) ((offY + slice.h) % U32)
            ((readSlice hostLittle mFile width order slice offY mRaw).mRaw.setError what)
        else
          ⟨some (.RawDecoderException (ioInFirstSlice ++ what)),
            (readSlice hostLittle mFile width order slice offY mRaw).mRaw⟩
      | some (.Fault what) =>
        ⟨some (.Fault what), (readSlice hostLittle mFile width order slice offY mRaw).mRaw⟩

/-- The row at which the slice after the slices `l` starts: the sum of their row
counts, in 32 bits. -/
def rowsOf (l : List RawSlice) : Nat := (l.map (fun s => s.h)).sum % U32

/-- Modelled from the spec: `create_data()`, after which the buffer is writable and
zeroed. -/
def RawImage.createData (m : RawImage) : RawImage :=
  { m with data := fun _ _ => 0 }

/-- The image after the three statements between the loops of `decodeUncompressed`:
`mRaw->dim = iPoint2D(width, offY); mRaw->createData(); mRaw->whitePoint = (1<<bitPerPixel)-1;`. -/
def allocated (mRaw : RawImage) (width offY bitPerPixel : Nat) : RawImage :=
  { ({ mRaw with dimx := toInt32 width, dimy := toInt32 offY }).createData with
    whitePoint := (1 <<< bitPerPixel : Nat) - 1 }

/-- `RawDecoder::decodeUncompressed`, on the strip table and the tag values read from
the IFD (`ROWSPERSTRIP`, `IMAGEWIDTH`, `IMAGELENGTH`, `BITSPERSAMPLE`).  The shift
`1 << bitPerPixel` of an `int` has no defined result from 31 bits on. -/
def decodeUncompressed (hostLittle : Bool) (mFile : FileMap) (strips : List (Nat × Nat))
    (yPerSlice width height bitPerPixel : Nat) (order : BitOrder) (mRaw : RawImage) : Result :=
  let slices := (collectSlices mFile yPerSlice height strips 0 []).1
  let offY := (collectSlices mFile yPerSlice height strips 0 []).2
  if slices.length = 0 then ⟨some (.RawDecoderException noValidSlices), mRaw⟩
  else if bitPerPixel ≥ 31 then
    ⟨some (.Fault "shift out of range"),
      ({ mRaw with dimx := toInt32 width, dimy := toInt32 offY }).createData⟩
  else
    decodeSlices hostLittle mFile width order slices 0 0 (allocated mRaw width offY bitPerPixel)

/-! ## `startThreads` -/

/-- The `RawDecoderThread` record: the band `[start_y, end_y)` of a worker and its
task number (which the constructor sets to `-1`, as a `uint32`). -/
structure RawDecoderThread where
  start_y : Nat
  end_y : Nat
  taskNo : Nat
deriving DecidableEq, Repr

/-- `RawDecoderDecodeThread`: the body of a worker.  `decodeThreaded` is the virtual
method a decoder class overrides; a decode error or an IO error it throws is caught
and appended to the error list of the image. -/
def RawDecoderDecodeThread (decodeThreaded : RawDecoderThread → RawImage → Result)
    (me : RawDecoderThread) (mRaw : RawImage) : Result :=
  match (decodeThreaded me mRaw).exc with
  | none => ⟨none, (decodeThreaded me mRaw).mRaw⟩
  | some (.RawDecoderException what) => ⟨none, (decodeThreaded me mRaw).mRaw.setError what⟩
  | some (.IOException what) => ⟨none, (decodeThreaded me mRaw).mRaw.setError what⟩
  | some (.Fault what) => ⟨some (.Fault what), (decodeThreaded me mRaw).mRaw⟩

/-- The variables of `startThreads` while the creation loop runs: the records of the
array `t` initialised so far, `threads`, `y_offset`, `fail`, and the image the workers
share, with the exception of a worker that left defined behaviour. -/
structure Spawned where
  t : List RawDecoderThread
  threads : Nat
  y_offset : Int
  fail : Bool
  exc : Option Exc
  mRaw : RawImage

/-- The creation loop `for (i = 0; i < threads; i++)` of `startThreads`, from index
`i` on, over an array of `count` records; `created i` says whether `pthread_create`
succeeds for thread `i`.  The workers run concurrently in the source, on disjoint
bands and with an atomic append to the error list; here each runs to completion when
it is created, which is one of the interleavings.  The `int` sum
`y_offset + y_per_thread` wraps as on a two's complement machine.  The first
argument bounds the number of iterations: `count + 1` is never exhausted, because the
iteration at `i = count` either ends the loop or indexes outside the array. -/
def spawnThreads (decodeThreaded : RawDecoderThread → RawImage → Result)
    (created : Nat → Bool) (dimy y_per_thread : Int) (count : Nat) :
    Nat → Nat → Spawned → Spawned
  | 0, _, st => st
  | fuel + 1, i, st =>
    if i < st.threads then
      if count ≤ i then
        { st with exc := some (.Fault "thread record outside the array") }
      else if created i = true then
        spawnThreads decodeThreaded created dimy y_per_thread count fuel (i + 1)
          { st with
            t := st.t ++ [⟨toU32 st.y_offset,
              toU32 (min (toInt32 (toU32 (st.y_offset + y_per_thread))) dimy), 4294967295⟩]
            y_offset := toInt32 (toU32 (min (toInt32 (toU32 (st.y_offset + y_per_thread))) dimy))
            exc := if st.exc.isSome then st.exc else
              (RawDecoderDecodeThread decodeThreaded
                ⟨toU32 st.y_offset,
                  toU32 (min (toInt32 (toU32 (st.y_offset + y_per_thread))) dimy), 4294967295⟩
                st.mRaw).exc
            mRaw := (RawDecoderDecodeThread decodeThreaded
                ⟨toU32 st.y_offset,
                  toU32 (min (toInt32 (toU32 (st.y_offset + y_per_thread))) dimy), 4294967295⟩
                st.mRaw).mRaw }
      else
        spawnThreads decodeThreaded created dimy y_per_thread count fuel (i + 1)
          { st with
            t := st.t ++ [⟨toU32 st.y_offset,
              toU32 (min (toInt32 (toU32 (st.y_offset + y_per_thread))) dimy), 4294967295⟩]
            y_offset := toInt32 (toU32 (min (toInt32 (toU32 (st.y_offset + y_per_thread))) dimy))
            threads := (i + U32 - 1) % U32
            fail := true }
    else st

/-- The message of the `ThrowRDE` after a failed `pthread_create`. -/
def unableToStart : String := "RawDecoder::startThreads: Unable to start threads"

/-- The message of the final `ThrowRDE` of `startThreads`. -/
def allThreadsFailed : String :=
  "RawDecoder::startThreads: All threads reported errors. Cannot load image."

/-- The number of threads `startThreads` sets out to create,
`MIN(mRaw->dim.y, getThreadCount())`, compared as `uint32`. -/
def threadsOf (mRaw : RawImage) (threadCount : Nat) : Nat := min (toU32 mRaw.dimy) threadCount

/-- The state in which the creation loop of `startThreads` (pthread build) ends;
`threadCount` is `getThreadCount()`.  `y_per_thread` is
`(mRaw->dim.y + threads - 1) / threads` in `uint32`, then an `int`. -/
def startThreadsLoop (decodeThreaded : RawDecoderThread → RawImage → Result)
    (created : Nat → Bool) (threadCount : Nat) (mRaw : RawImage) : Spawned :=
  spawnThreads decodeThreaded created mRaw.dimy
    (toInt32 (((toU32 mRaw.dimy + threadsOf mRaw threadCount + U32 - 1) % U32)
      / threadsOf mRaw threadCount))
    (threadsOf mRaw threadCount) (threadsOf mRaw threadCount + 1) 0
    ⟨[], threadsOf mRaw threadCount, 0, false, none, mRaw⟩

/-- `RawDecoder::startThreads` (pthread build): the division, the creation loop, the
joins, then the two `ThrowRDE`. -/
def startThreads (decodeThreaded : RawDecoderThread → RawImage → Result)
    (created : Nat → Bool) (threadCount : Nat) (mRaw : RawImage) : Result :=
  if threadsOf mRaw threadCount = 0 then ⟨some (.Fault "division by zero"), mRaw⟩
  else
    match (startThreadsLoop decodeThreaded created threadCount mRaw).exc with
    | some e => ⟨some e, (startThreadsLoop decodeThreaded created threadCount mRaw).mRaw⟩
    | none =>
      if (startThreadsLoop decodeThreaded created threadCount mRaw).fail = true then
        ⟨some (.RawDecoderException unableToStart),
          (startThreadsLoop decodeThreaded created threadCount mRaw).mRaw⟩
      else if (startThreadsLoop decodeThreaded created threadCount mRaw).mRaw.errors.length
          ≥ (startThreadsLoop decodeThreaded created threadCount mRaw).threads then
        ⟨some (.RawDecoderException allThreadsFailed),
          (startThreadsLoop decodeThreaded created threadCount mRaw).mRaw⟩
      else ⟨none, (startThreadsLoop decodeThreaded created threadCount mRaw).mRaw⟩

/-- A worker that fails with a decode error on the band starting at row 0 and
succeeds on every other band. -/
def firstBandFails (t : RawDecoderThread) (m : RawImage) : Result :=
  if t.start_y = 0 then ⟨some (.RawDecoderException "band failed"), m⟩ else ⟨none, m⟩

/-- A worker that shortens its band: it records the non-fatal error of a truncated
input and returns normally. -/
def truncatingWorker (_t : RawDecoderThread) (m : RawImage) : Result :=
  ⟨none, m.setError imageTruncated⟩

/-- A file of six bytes holding two strips of one row each, of two and of four
bytes: for a width of one pixel the second strip comes out at 32 bits per pixel. -/
def twoStripFile : FileMap := ⟨[0x34, 0x12, 1, 2, 3, 4]⟩

/-- The image after the first strip of `twoStripFile` is decoded. -/
def afterFirstStrip : RawImage :=
  (decodeSlices false twoStripFile 1 .BitOrder_Jpeg [⟨1, 0, 2⟩] 0 0
    (allocated blankImage 1 2 16)).mRaw

/-! ## The decoders with control bytes and the interlaced decoder -/

/-- The message of the `ThrowIOE` in the preamble of both decoders with control
bytes (the little-endian one carries the name of the big-endian one). -/
def notEnoughDataCtrl : String :=
  "Decode12BitRawBEWithControl: Not enough data to decode a single line. Image file truncated."

/-- The local `perline` of the decoders with control bytes:
`perline = (w*12/8); perline += ((w + 2) / 10);` in `uint32`. -/
def perlineCtrl (w : Nat) : Nat := (w * 12 % U32 / 8 + (w + 2) % U32 / 10) % U32

/-- The preamble of the decoders with control bytes:
`if (remain <= perline) ThrowIOE(..); else if (remain < perline*h) { h = remain / perline - 1; setError(..); }`. -/
def checkLinesCtrl (remain perline total h : Nat) (mRaw : RawImage) :
    Except Exc (Nat × RawImage) :=
  if remain ≤ perline then .error (.IOException notEnoughDataCtrl)
  else if remain < total then
    if perline = 0 then .error (.Fault "division by zero")
    else .ok ((remain / perline + U32 - 1) % U32, mRaw.setError imageTruncated)
  else .ok (h, mRaw)

/-- The inner loop of the decoders with control bytes: the pair loop with
`if ((x % 10) == 8) in++;` at the end of its body. -/
def ctrlCols (rule : Nat → Nat → Nat → Nat × Nat) (inp : List Nat) (y : Nat) :
    Nat → Nat → Nat → Pixels → Option (Nat × Pixels)
  | 0, _, o, d => some (o, d)
  | n + 1, x, o, d =>
    match inp[o]?, inp[o + 1]?, inp[o + 2]? with
    | some g1, some g2, some g3 =>
      ctrlCols rule inp y n (x + 2) (if x % 10 = 8 then o + 4 else o + 3)
        (store (store d y x (rule g1 g2 g3).1) y (x + 1) (rule g1 g2 g3).2)
    | _, _, _ => none

/-- The outer loop `for (y = 0; y < h; y++)` around `ctrlCols`. -/
def ctrlRows (rule : Nat → Nat → Nat → Nat × Nat) (inp : List Nat) (w : Nat) :
    Nat → Nat → Nat → Pixels → Option (Nat × Pixels)
  | 0, _, o, d => some (o, d)
  | n + 1, y, o, d =>
    match ctrlCols rule inp y ((w + 1) / 2) 0 o d with
    | none => none
    | some (o1, d1) => ctrlRows rule inp w n (y + 1) o1 d1

/-- The common shape of `Decode12BitRawWithControl` and `Decode12BitRawBEWithControl`,
which differ in the two expressions stored only. -/
def decodeWithControl (rule : Nat → Nat → Nat → Nat × Nat) (input : ByteStream) (w h : Nat)
    (mRaw : RawImage) : Outcome :=
  if w < 2 then ⟨some (.IOException tooNarrow), input, mRaw⟩
  else
    match checkLinesCtrl input.getRemainSize (perlineCtrl w) ((perlineCtrl w * h) % U32) h
        mRaw with
    | .error e => ⟨some e, input, mRaw⟩
    | .ok (h1, mRaw1) =>
      match input.getData ((perlineCtrl w * h1) % U32) with
      | .error e => ⟨some e, input, mRaw1⟩
      | .ok (inp, input1) =>
        match ctrlRows rule inp w h1 0 0 mRaw1.data with
        | none => ⟨some (.Fault "read outside the input stream"), input1, mRaw1⟩
        | some r => ⟨none, input1, { mRaw1 with data := r.2 }⟩

/-- `RawDecoder::Decode12BitRawWithControl`. -/
def Decode12BitRawWithControl (input : ByteStream) (w h : Nat) (mRaw : RawImage) : Outcome :=
  decodeWithControl rule12LE input w h mRaw

/-- `RawDecoder::Decode12BitRawBEWithControl`. -/
def Decode12BitRawBEWithControl (input : ByteStream) (w h : Nat) (mRaw : RawImage) : Outcome :=
  decodeWithControl rule12BE input w h mRaw

/-- The row `y = row % half * 2 + row / half` in which `Decode12BitRawBEInterlaced`
stores the stored row `row`, in `uint32`. -/
def interlacedRow (half row : Nat) : Nat := ((row % half * 2) % U32 + row / half) % U32

/-- The local `half = (h+1) >> 1` of `Decode12BitRawBEInterlaced`. -/
def halfOf (h : Nat) : Nat := ((h + 1) % U32) >>> 1

/-- The local `offset = ((half*w*3/2 >> 11) + 1) << 11` of
`Decode12BitRawBEInterlaced`, in `uint32`. -/
def secondFieldOffset (half w : Nat) : Nat :=
  ((((((half * w % U32 * 3 % U32) / 2) >>> 11) + 1) % U32) <<< 11) % U32

/-- The text put in front of the offset in the `ThrowIOE` of the jump. -/
def invalidJump : String := "Decode12BitSplitRaw: Trying to jump to invalid offset "

/-- The row loop of `Decode12BitRawBEInterlaced`, with `n` rows left, the stored row
`row` and the offset `o` of `in` within the view `inp`; `remain` is
`input.getRemainSize()`, which the loop does not change.  An exception leaves the
rows already stored in place.  `row % half` has no defined result for `half = 0`. -/
def interlacedRows (inp : List Nat) (w half remain : Nat) :
    Nat → Nat → Nat → Pixels → Option Exc × Pixels
  | 0, _, _, d => (none, d)
  | n + 1, row, o, d =>
    if half = 0 then (some (.Fault "division by zero"), d)
    else if interlacedRow half row = 1 then
      if secondFieldOffset half w > remain then
        (some (.IOException (invalidJump ++ toString (toInt32 (secondFieldOffset half w)))), d)
      else
        match pairCols rule12BE inp (interlacedRow half row) ((w + 1) / 2) 0
            (secondFieldOffset half w) d with
        | none => (some (.Fault "read outside the input stream"), d)
        | some (o1, d1) => interlacedRows inp w half remain n (row + 1) o1 d1
    else
      match pairCols rule12BE inp (interlacedRow half row) ((w + 1) / 2) 0 o d with
      | none => (some (.Fault "read outside the input stream"), d)
      | some (o1, d1) => interlacedRows inp w half remain n (row + 1) o1 d1

/-- `RawDecoder::Decode12BitRawBEInterlaced`: guard, preamble, `peekData`, the row
loop, and `input.skipBytes(input.getRemainSize())`. -/
def Decode12BitRawBEInterlaced (input : ByteStream) (w h : Nat) (mRaw : RawImage) : Outcome :=
  if w < 2 then ⟨some (.IOException tooNarrow), input, mRaw⟩
  else
    match checkLines input.getRemainSize (w * 12 % U32 / 8) ((w * 12 % U32 / 8 * h) % U32) h
        notEnoughData mRaw with
    | .error e => ⟨some e, input, mRaw⟩
    | .ok (h1, mRaw1) =>
      match input.peekData ((w * 12 % U32 / 8 * h1) % U32) with
      | .error e => ⟨some e, input, mRaw1⟩
      | .ok inp =>
        match interlacedRows inp w (halfOf h1) input.getRemainSize h1 0 0 mRaw1.data with
        | (some e, d) => ⟨some e, input, { mRaw1 with data := d }⟩
        | (none, d) => ⟨none, ⟨[]⟩, { mRaw1 with data := d }⟩

/-! ## `startTasks` -/

/-- The loop `while ((uint32)ctask < tasks)` of the `threads == 1` path of
`startTasks`, from the counter `ctask` on: `t[0].taskNo = ctask++`, then
`decodeThreaded(&t[0])` inside a `try` with the two handlers of
`RawDecoderDecodeThread`.  `startTasks` sets neither `start_y` nor `end_y` of a
record; they are taken as 0.  The `int` counter wraps as on a two's complement
machine, so that `(uint32)ctask` is the counter modulo `2^32`.  The first argument
bounds the number of iterations: `tasks + 1` is never exhausted. -/
def tasksInline (decodeThreaded : RawDecoderThread → RawImage → Result) (tasks : Nat) :
    Nat → Nat → RawImage → Result
  | 0, _, mRaw => ⟨none, mRaw⟩
  | fuel + 1, ctask, mRaw =>
    if ctask % U32 < tasks then
      match (RawDecoderDecodeThread decodeThreaded ⟨0, 0, ctask % U32⟩ mRaw).exc with
      | none =>
        tasksInline decodeThreaded tasks fuel (ctask + 1)
          (RawDecoderDecodeThread decodeThreaded ⟨0, 0, ctask % U32⟩ mRaw).mRaw
      | some e => ⟨some e, (RawDecoderDecodeThread decodeThreaded ⟨0, 0, ctask % U32⟩ mRaw).mRaw⟩
    else ⟨none, mRaw⟩

/-- The creation loop `for (i = 0; i < threads && (uint32)ctask < tasks; i++)` of one
round of `startTasks`, with `n` records left; the result carries the counter `ctask`.
`created k` says whether `pthread_create` succeeds for task `k` (its result is not
looked at by the source: a task whose thread is not created is not run).  As in
`spawnThreads` each worker runs to completion when it is created: of the
interleavings of the source this is the one in which the errors are appended in the
order of the task numbers.  The joins that follow the loop, those of records whose
thread was joined in an earlier round among them, are taken to change nothing. -/
def taskRound (decodeThreaded : RawDecoderThread → RawImage → Result)
    (created : Nat → Bool) (tasks : Nat) : Nat → Nat → RawImage → Nat × Result
  | 0, ctask, mRaw => (ctask, ⟨none, mRaw⟩)
  | n + 1, ctask, mRaw =>
    if ctask % U32 < tasks then
      if created (ctask % U32) = true then
        match (RawDecoderDecodeThread decodeThreaded ⟨0, 0, ctask % U32⟩ mRaw).exc with
        | none =>
          taskRound decodeThreaded created tasks n (ctask + 1)
            (RawDecoderDecodeThread decodeThreaded ⟨0, 0, ctask % U32⟩ mRaw).mRaw
        | some e =>
          (ctask + 1,
            ⟨some e, (RawDecoderDecodeThread decodeThreaded ⟨0, 0, ctask % U32⟩ mRaw).mRaw⟩)
      else taskRound decodeThreaded created tasks n (ctask + 1) mRaw
    else (ctask, ⟨none, mRaw⟩)

/-- The loop `while ((uint32)ctask < tasks)` of the pthread path of `startTasks`: one
round of at most `threads` tasks after the other.  With `threads = 0` a round starts
nothing and the loop makes no progress.  The first argument bounds the number of
rounds: with `threads >= 1` every round starts a task and `tasks + 1` is never
exhausted. -/
def tasksThreaded (decodeThreaded : RawDecoderThread → RawImage → Result)
    (created : Nat → Bool) (tasks threads : Nat) : Nat → Nat → RawImage → Result
  | 0, _, mRaw => ⟨none, mRaw⟩
  | fuel + 1, ctask, mRaw =>
    if ctask % U32 < tasks then
      if threads = 0 then ⟨some (.Fault "loop without progress"), mRaw⟩
      else
        match (taskRound decodeThreaded created tasks threads ctask mRaw).2.exc with
        | none =>
          tasksThreaded decodeThreaded created tasks threads fuel
            (taskRound decodeThreaded created tasks threads ctask mRaw).1
            (taskRound decodeThreaded created tasks threads ctask mRaw).2.mRaw
        | some e => ⟨some e, (taskRound decodeThreaded created tasks threads ctask mRaw).2.mRaw⟩
    else ⟨none, mRaw⟩

/-- `RawDecoder::startTasks` (pthread build); `threadCount` is `getThreadCount()`.
With `threads == 1` the tasks run in the calling thread and the function returns;
otherwise the rounds of threads run and the error list is compared with `tasks`. -/
def startTasks (decodeThreaded : RawDecoderThread → RawImage → Result)
    (created : Nat → Bool) (threadCount tasks : Nat) (mRaw : RawImage) : Result :=
  if min tasks threadCount = 1 then tasksInline decodeThreaded tasks (tasks + 1) 0 mRaw
  else
    match (tasksThreaded decodeThreaded created tasks (min tasks threadCount) (tasks + 1) 0
        mRaw).exc with
    | some e =>
      ⟨some e, (tasksThreaded decodeThreaded created tasks (min tasks threadCount) (tasks + 1)
        0 mRaw).mRaw⟩
    | none =>
      if (tasksThreaded decodeThreaded created tasks (min tasks threadCount) (tasks + 1) 0
          mRaw).mRaw.errors.length ≥ tasks then
        ⟨some (.RawDecoderException allThreadsFailed),
          (tasksThreaded decodeThreaded created tasks (min tasks threadCount) (tasks + 1) 0
            mRaw).mRaw⟩
      else
        ⟨none, (tasksThreaded decodeThreaded created tasks (min tasks threadCount) (tasks + 1)
          0 mRaw).mRaw⟩

/-- A worker whose every task fails with a decode error that names the task. -/
def everyTaskFails (t : RawDecoderThread) (m : RawImage) : Result :=
  ⟨some (.RawDecoderException ("task " ++ toString t.taskNo ++ " failed")), m⟩

/-- A worker whose tasks fail with a decode error except for task 0, which returns
normally. -/
def laterTasksFail (t : RawDecoderThread) (m : RawImage) : Result :=
  if t.taskNo = 0 then ⟨none, m⟩
  else ⟨some (.RawDecoderException ("task " ++ toString t.taskNo ++ " failed")), m⟩

/-! ## Auxiliary notions of the proofs -/

/-- An exception, if any, is not a `RawDecoderException`. -/
def NoRDE (e : Option Exc) : Prop := ∀ what, e ≠ some (.RawDecoderException what)

/-- The band of thread `i` when every band is `q` rows high and the image has `h`
rows. -/
def bandOf (q h i : Nat) : RawDecoderThread :=
  ⟨min (i * q) h, min ((i + 1) * q) h, 4294967295⟩

/-- The sample of row `y`, column `x` of an unpacked decoder of width `w`: the
expression `rule` of the decoder on the two bytes at offset `2*(y*w + x)`, as a
16-bit value. -/
def unpackedPixel (rule : Nat → Nat → Nat) (w : Nat) (inp : List Nat) (y x : Nat) : Nat :=
  rule (inp.getD (2 * (y * w + x)) 0) (inp.getD (2 * (y * w + x) + 1) 0) % 65536

/-- The sample of row `y`, column `x` of a packed 12-bit decoder of even width `w`:
the first or the second expression of `rule` on the three bytes at offset
`y*(w*12/8) + 3*(x div 2)`, as a 16-bit value. -/
def packedPixel (rule : Nat → Nat → Nat → Nat × Nat) (w : Nat) (inp : List Nat)
    (y x : Nat) : Nat :=
  if x % 2 = 0 then
    (rule (inp.getD (y * (w * 12 / 8) + 3 * (x / 2)) 0)
      (inp.getD (y * (w * 12 / 8) + 3 * (x / 2) + 1) 0)
      (inp.getD (y * (w * 12 / 8) + 3 * (x / 2) + 2) 0)).1 % 65536
  else
    (rule (inp.getD (y * (w * 12 / 8) + 3 * (x / 2)) 0)
      (inp.getD (y * (w * 12 / 8) + 3 * (x / 2) + 1) 0)
      (inp.getD (y * (w * 12 / 8) + 3 * (x / 2) + 2) 0)).2 % 65536

/-- The random state of `Decode8BitRaw` after `n` samples went through the table:
it starts at 0 and every `setWithLookUp` replaces it. -/
def randomAfter (lookUp : Nat → Nat → Nat × Nat) (inp : List Nat) : Nat → Nat
  | 0 => 0
  | n + 1 => (lookUp (inp.getD n 0) (randomAfter lookUp inp n)).2

/-- The sample of row `y`, column `x` of `Decode8BitRaw` for width `w`: the byte at
offset `y*w + x`, stored as it is with `uncorrectedRawValues` and through the table,
with the random state reached there, otherwise. -/
def bytePixel (uncorrectedRawValues : Bool) (lookUp : Nat → Nat → Nat × Nat) (w : Nat)
    (inp : List Nat) (y x : Nat) : Nat :=
  if uncorrectedRawValues then inp.getD (y * w + x) 0 % 65536
  else (lookUp (inp.getD (y * w + x) 0) (randomAfter lookUp inp (y * w + x))).1 % 65536

/-! ## Lemmas on the stores and the row loops -/

theorem store_same (d : Pixels) (y x v : Nat) : store d y x v y x = v % 65536 := by
  simp [store]

theorem store_other (d : Pixels) (y x v r c : Nat) (h : r ≠ y ∨ c ≠ x) :
    store d y x v r c = d r c := by
  unfold store
  rw [if_neg]
  rintro ⟨h1, h2⟩
  rcases h with h | h
  · exact h h1
  · exact h h2

theorem getElem?_getD_of_lt (inp : List Nat) (o : Nat) (h : o < inp.length) :
    inp[o]? = some (inp.getD o 0) := by
  rw [List.getD_eq_getElem?_getD, List.getElem?_eq_getElem h]
  rfl

theorem pairCols_spec (rule : Nat → Nat → Nat → Nat × Nat) (inp : List Nat) (y : Nat) :
    ∀ (n x o : Nat) (d : Pixels), o + 3 * n ≤ inp.length →
      ∃ d1, pairCols rule inp y n x o d = some (o + 3 * n, d1) ∧
        (∀ r c, (r ≠ y ∨ c < x ∨ x + 2 * n ≤ c) → d1 r c = d r c) ∧
        (∀ k, k < n →
          d1 y (x + 2 * k) =
            (rule (inp.getD (o + 3 * k) 0) (inp.getD (o + 3 * k + 1) 0)
              (inp.getD (o + 3 * k + 2) 0)).1 % 65536 ∧
          d1 y (x + 2 * k + 1) =
            (rule (inp.getD (o + 3 * k) 0) (inp.getD (o + 3 * k + 1) 0)
              (inp.getD (o + 3 * k + 2) 0)).2 % 65536) := by
  intro n
  induction n with
  | zero =>
    intro x o d _
    exact ⟨d, by simp [pairCols], fun _ _ _ => rfl, fun k hk => absurd hk (Nat.not_lt_zero k)⟩
  | succ n ih =>
    intro x o d hlen
    have h0 : inp[o]? = some (inp.getD o 0) := getElem?_getD_of_lt inp o (by omega)
    have h1 : inp[o + 1]? = some (inp.getD (o + 1) 0) := getElem?_getD_of_lt inp _ (by omega)
    have h2 : inp[o + 2]? = some (inp.getD (o + 2) 0) := getElem?_getD_of_lt inp _ (by omega)
    obtain ⟨d1, hd1, hframe, hwr⟩ := ih (x + 2) (o + 3)
      (store (store d y x (rule (inp.getD o 0) (inp.getD (o + 1) 0) (inp.getD (o + 2) 0)).1)
        y (x + 1) (rule (inp.getD o 0) (inp.getD (o + 1) 0) (inp.getD (o + 2) 0)).2)
      (by omega)
    refine ⟨d1, ?_, ?_, ?_⟩
    · simp only [pairCols, h0, h1, h2]
      rw [hd1]
      congr 2
      omega
    · intro r c hrc
      rw [hframe r c (by omega), store_other _ _ _ _ _ _ (by omega),
        store_other _ _ _ _ _ _ (by omega)]
    · intro k hk
      cases k with
      | zero =>
        constructor
        · rw [hframe y (x + 2 * 0) (by omega)]
          rw [store_other _ _ _ _ _ _ (by omega)]
          exact store_same _ _ _ _
        · rw [hframe y (x + 2 * 0 + 1) (by omega)]
          exact store_same _ _ _ _
      | succ k =>
        have hk1 := hwr k (by omega)
        have e1 : x + 2 * (k + 1) = x + 2 + 2 * k := by omega
        have e2 : o + 3 * (k + 1) = o + 3 + 3 * k := by omega
        rw [e1, e2]
        exact hk1

theorem pairRows_spec (rule : Nat → Nat → Nat → Nat × Nat) (inp : List Nat) (w : Nat) :
    ∀ (n y o : Nat) (d : Pixels), o + 3 * ((w + 1) / 2) * n ≤ inp.length →
      ∃ d1, pairRows rule inp w n y o d = some (o + 3 * ((w + 1) / 2) * n, d1) ∧
        (∀ r c, (r < y ∨ y + n ≤ r ∨ 2 * ((w + 1) / 2) ≤ c) → d1 r c = d r c) ∧
        (∀ j k, j < n → k < (w + 1) / 2 →
          d1 (y + j) (2 * k) =
            (rule (inp.getD (o + 3 * ((w + 1) / 2) * j + 3 * k) 0)
              (inp.getD (o + 3 * ((w + 1) / 2) * j + 3 * k + 1) 0)
              (inp.getD (o + 3 * ((w + 1) / 2) * j + 3 * k + 2) 0)).1 % 65536 ∧
          d1 (y + j) (2 * k + 1) =
            (rule (inp.getD (o + 3 * ((w + 1) / 2) * j + 3 * k) 0)
              (inp.getD (o + 3 * ((w + 1) / 2) * j + 3 * k + 1) 0)
              (inp.getD (o + 3 * ((w + 1) / 2) * j + 3 * k + 2) 0)).2 % 65536) := by
  intro n
  induction n with
  | zero =>
    intro y o d _
    exact ⟨d, by simp [pairRows], fun _ _ _ => rfl, fun j k hj => absurd hj (Nat.not_lt_zero j)⟩
  | succ n ih =>
    intro y o d hlen
    generalize hK : (w + 1) / 2 = K at *
    have hmul : 3 * K * (n + 1) = 3 * K + 3 * K * n := by ring
    obtain ⟨d1, hd1, hframe1, hwr1⟩ := pairCols_spec rule inp y K 0 o d (by omega)
    obtain ⟨d2, hd2, hframe2, hwr2⟩ := ih (y + 1) (o + 3 * K) d1 (by omega)
    refine ⟨d2, ?_, ?_, ?_⟩
    · simp only [pairRows, hK, hd1]
      rw [hd2]
      congr 2
      omega
    · intro r c hrc
      rw [hframe2 r c (by omega), hframe1 r c (by omega)]
    · intro j k hj hk
      cases j with
      | zero =>
        have := hwr1 k hk
        simp only [Nat.zero_add, Nat.add_zero, Nat.mul_zero] at this ⊢
        rw [hframe2 y (2 * k) (by omega), hframe2 y (2 * k + 1) (by omega)]
        exact this
      | succ j =>
        have := hwr2 j k (by omega) hk
        have e1 : y + (j + 1) = y + 1 + j := by omega
        have e2 : o + 3 * K * (j + 1) = o + 3 * K + 3 * K * j := by
          have : 3 * K * (j + 1) = 3 * K + 3 * K * j := by ring
          omega
        rw [e1, e2]
        exact this

theorem wordCols_spec (rule : Nat → Nat → Nat) (inp : List Nat) (y : Nat) :
    ∀ (n x o : Nat) (d : Pixels), o + 2 * n ≤ inp.length →
      ∃ d1, wordCols rule inp y n x o d = some (o + 2 * n, d1) ∧
        (∀ r c, (r ≠ y ∨ c < x ∨ x + n ≤ c) → d1 r c = d r c) ∧
        (∀ k, k < n →
          d1 y (x + k) =
            rule (inp.getD (o + 2 * k) 0) (inp.getD (o + 2 * k + 1) 0) % 65536) := by
  intro n
  induction n with
  | zero =>
    intro x o d _
    exact ⟨d, by simp [wordCols], fun _ _ _ => rfl, fun k hk => absurd hk (Nat.not_lt_zero k)⟩
  | succ n ih =>
    intro x o d hlen
    have h0 : inp[o]? = some (inp.getD o 0) := getElem?_getD_of_lt inp o (by omega)
    have h1 : inp[o + 1]? = some (inp.getD (o + 1) 0) := getElem?_getD_of_lt inp _ (by omega)
    obtain ⟨d1, hd1, hframe, hwr⟩ := ih (x + 1) (o + 2)
      (store d y x (rule (inp.getD o 0) (inp.getD (o + 1) 0))) (by omega)
    refine ⟨d1, ?_, ?_, ?_⟩
    · simp only [wordCols, h0, h1]
      rw [hd1]
      congr 2
      omega
    · intro r c hrc
      rw [hframe r c (by omega), store_other _ _ _ _ _ _ (by omega)]
    · intro k hk
      cases k with
      | zero =>
        rw [hframe y (x + 0) (by omega)]
        exact store_same _ _ _ _
      | succ k =>
        have hk1 := hwr k (by omega)
        have e1 : x + (k + 1) = x + 1 + k := by omega
        have e2 : o + 2 * (k + 1) = o + 2 + 2 * k := by omega
        rw [e1, e2]
        exact hk1

theorem wordRows_spec (rule : Nat → Nat → Nat) (inp : List Nat) (w : Nat) :
    ∀ (n y o : Nat) (d : Pixels), o + 2 * w * n ≤ inp.length →
      ∃ d1, wordRows rule inp w n y o d = some (o + 2 * w * n, d1) ∧
        (∀ r c, (r < y ∨ y + n ≤ r ∨ w ≤ c) → d1 r c = d r c) ∧
        (∀ j k, j < n → k < w →
          d1 (y + j) k =
            rule (inp.getD (o + 2 * w * j + 2 * k) 0)
              (inp.getD (o + 2 * w * j + 2 * k + 1) 0) % 65536) := by
  intro n
  induction n with
  | zero =>
    intro y o d _
    exact ⟨d, by simp [wordRows], fun _ _ _ => rfl, fun j k hj => absurd hj (Nat.not_lt_zero j)⟩
  | succ n ih =>
    intro y o d hlen
    have hmul : 2 * w * (n + 1) = 2 * w + 2 * w * n := by ring
    obtain ⟨d1, hd1, hframe1, hwr1⟩ := wordCols_spec rule inp y w 0 o d (by omega)
    obtain ⟨d2, hd2, hframe2, hwr2⟩ := ih (y + 1) (o + 2 * w) d1 (by omega)
    refine ⟨d2, ?_, ?_, ?_⟩
    · simp only [wordRows, hd1]
      rw [hd2]
      congr 2
      omega
    · intro r c hrc
      rw [hframe2 r c (by omega), hframe1 r c (by omega)]
    · intro j k hj hk
      cases j with
      | zero =>
        have := hwr1 k hk
        simp only [Nat.zero_add, Nat.add_zero, Nat.mul_zero] at this ⊢
        rw [hframe2 y k (by omega)]
        exact this
      | succ j =>
        have := hwr2 j k (by omega) hk
        have e1 : y + (j + 1) = y + 1 + j := by omega
        have e2 : o + 2 * w * (j + 1) = o + 2 * w + 2 * w * j := by
          have : 2 * w * (j + 1) = 2 * w + 2 * w * j := by ring
          omega
        rw [e1, e2]
        exact this

theorem byteCols_spec (raw : Bool) (lookUp : Nat → Nat → Nat × Nat) (inp : List Nat)
    (y : Nat) :
    ∀ (n x o rnd : Nat) (d : Pixels), o + n ≤ inp.length →
      ∃ rnd1 d1, byteCols raw lookUp inp y n x o rnd d = some (o + n, rnd1, d1) ∧
        (∀ r c, (r ≠ y ∨ c < x ∨ x + n ≤ c) → d1 r c = d r c) ∧
        (raw = true → ∀ k, k < n → d1 y (x + k) = inp.getD (o + k) 0 % 65536) := by
  intro n
  induction n with
  | zero =>
    intro x o rnd d _
    exact ⟨rnd, d, by simp [byteCols], fun _ _ _ => rfl,
      fun _ k hk => absurd hk (Nat.not_lt_zero k)⟩
  | succ n ih =>
    intro x o rnd d hlen
    have h0 : inp[o]? = some (inp.getD o 0) := getElem?_getD_of_lt inp o (by omega)
    cases raw with
    | true =>
      obtain ⟨rnd1, d1, hd1, hframe, hwr⟩ := ih (x + 1) (o + 1) rnd
        (store d y x (inp.getD o 0)) (by omega)
      refine ⟨rnd1, d1, ?_, ?_, ?_⟩
      · simp only [byteCols, h0, if_true]
        rw [hd1]
        congr 2
        omega
      · intro r c hrc
        rw [hframe r c (by omega), store_other _ _ _ _ _ _ (by omega)]
      · intro _ k hk
        cases k with
        | zero =>
          rw [hframe y (x + 0) (by omega)]
          exact store_same _ _ _ _
        | succ k =>
          have hk1 := hwr rfl k (by omega)
          have e1 : x + (k + 1) = x + 1 + k := by omega
          have e2 : o + (k + 1) = o + 1 + k := by omega
          rw [e1, e2]
          exact hk1
    | false =>
      obtain ⟨rnd1, d1, hd1, hframe, _⟩ := ih (x + 1) (o + 1) (lookUp (inp.getD o 0) rnd).2
        (store d y x (lookUp (inp.getD o 0) rnd).1) (by omega)
      refine ⟨rnd1, d1, ?_, ?_, ?_⟩
      · simp only [byteCols, h0]
        simp only [Bool.false_eq_true, if_false]
        rw [hd1]
        congr 2
        omega
      · intro r c hrc
        rw [hframe r c (by omega), store_other _ _ _ _ _ _ (by omega)]
      · intro hf
        exact absurd hf (by decide)

theorem byteRows_spec (raw : Bool) (lookUp : Nat → Nat → Nat × Nat) (inp : List Nat)
    (w : Nat) :
    ∀ (n y o rnd : Nat) (d : Pixels), o + w * n ≤ inp.length →
      ∃ rnd1 d1, byteRows raw lookUp inp w n y o rnd d = some (o + w * n, rnd1, d1) ∧
        (∀ r c, (r < y ∨ y + n ≤ r ∨ w ≤ c) → d1 r c = d r c) ∧
        (raw = true → ∀ j k, j < n → k < w →
          d1 (y + j) k = inp.getD (o + w * j + k) 0 % 65536) := by
  intro n
  induction n with
  | zero =>
    intro y o rnd d _
    exact ⟨rnd, d, by simp [byteRows], fun _ _ _ => rfl,
      fun _ j k hj => absurd hj (Nat.not_lt_zero j)⟩
  | succ n ih =>
    intro y o rnd d hlen
    have hmul : w * (n + 1) = w + w * n := by ring
    obtain ⟨rnd1, d1, hd1, hframe1, hwr1⟩ := byteCols_spec raw lookUp inp y w 0 o rnd d (by omega)
    obtain ⟨rnd2, d2, hd2, hframe2, hwr2⟩ := ih (y + 1) (o + w) rnd1 d1 (by omega)
    refine ⟨rnd2, d2, ?_, ?_, ?_⟩
    · simp only [byteRows, hd1]
      rw [hd2]
      congr 2
      omega
    · intro r c hrc
      rw [hframe2 r c (by omega), hframe1 r c (by omega)]
    · intro hraw j k hj hk
      cases j with
      | zero =>
        have := hwr1 hraw k hk
        simp only [Nat.zero_add, Nat.add_zero, Nat.mul_zero] at this ⊢
        rw [hframe2 y k (by omega)]
        exact this
      | succ j =>
        have := hwr2 hraw j k (by omega) hk
        have e1 : y + (j + 1) = y + 1 + j := by omega
        have e2 : o + w * (j + 1) = o + w + w * j := by
          have : w * (j + 1) = w + w * j := by ring
          omega
        rw [e1, e2]
        exact this

/-! ## Arithmetic of the packing rules -/

theorem and15 (g : Nat) : g &&& 15 = g % 16 := Nat.and_pow_two_sub_one_eq_mod g 4

theorem and63 (g : Nat) : g &&& 63 = g % 64 := Nat.and_pow_two_sub_one_eq_mod g 6

theorem lor_shift4 (a b : Nat) (hb : b < 16) : (a <<< 4) ||| b = a * 16 + b := by
  rw [Nat.shiftLeft_eq, Nat.mul_comm]
  exact (Nat.mul_add_lt_is_or (i := 4) hb a).symm

theorem lor_shift8 (a b : Nat) (hb : b < 256) : (a <<< 8) ||| b = a * 256 + b := by
  rw [Nat.shiftLeft_eq, Nat.mul_comm]
  exact (Nat.mul_add_lt_is_or (i := 8) hb a).symm

theorem rule12BE_arith (g1 g2 g3 : Nat) (h2 : g2 < 256) (h3 : g3 < 256) :
    (rule12BE g1 g2 g3).1 = g1 * 16 + g2 / 16 ∧
    (rule12BE g1 g2 g3).2 = g2 % 16 * 256 + g3 := by
  unfold rule12BE
  constructor
  · show (g1 <<< 4) ||| (g2 >>> 4) = _
    rw [lor_shift4 _ _ (by rw [Nat.shiftRight_eq_div_pow]; omega), Nat.shiftRight_eq_div_pow]
  · show ((g2 &&& 15) <<< 8) ||| g3 = _
    rw [lor_shift8 _ _ h3, and15]

theorem rule12LE_arith (g1 g2 g3 : Nat) (h1 : g1 < 256) (h2 : g2 < 256) :
    (rule12LE g1 g2 g3).1 = g2 % 16 * 256 + g1 ∧
    (rule12LE g1 g2 g3).2 = g3 * 16 + g2 / 16 := by
  unfold rule12LE
  constructor
  · show g1 ||| ((g2 &&& 15) <<< 8) = _
    rw [Nat.lor_comm, lor_shift8 _ _ h1, and15]
  · show (g2 >>> 4) ||| (g3 <<< 4) = _
    rw [Nat.lor_comm, lor_shift4 _ _ (by rw [Nat.shiftRight_eq_div_pow]; omega),
      Nat.shiftRight_eq_div_pow]

theorem getD_lt_of_bytes (inp : List Nat) (hb : ∀ b ∈ inp, b < 256) (o : Nat) :
    inp.getD o 0 < 256 := by
  by_cases h : o < inp.length
  · rw [List.getD_eq_getElem _ _ h]
    exact hb _ (List.getElem_mem h)
  · rw [List.getD_eq_default _ _ (by omega)]
    decide

/-! ## The fixed decoders on a complete input -/

theorem fixedDecode_full (perline : Nat) (total : Nat → Nat) (what : String)
    (rows : List Nat → Nat → Pixels → Option Pixels) (input : ByteStream) (h : Nat)
    (mRaw : RawImage) (hlen : total h ≤ input.rest.length) :
    fixedDecode perline total what rows input h mRaw =
      match rows input.rest h mRaw.data with
      | none => ⟨some (.Fault "read outside the input stream"),
                 ⟨input.rest.drop (total h)⟩, mRaw⟩
      | some d => ⟨none, ⟨input.rest.drop (total h)⟩, { mRaw with data := d }⟩ := by
  unfold fixedDecode checkLines ByteStream.getData ByteStream.getRemainSize
  simp [not_lt.mpr hlen, hlen]

theorem packed_perline_le (w : Nat) : w * 12 % U32 / 8 ≤ w * 12 / 8 :=
  Nat.div_le_div_right (Nat.mod_le _ _)

theorem packed_total_le (w h L : Nat) (hlen : w * 12 / 8 * h ≤ L) :
    (w * 12 % U32 / 8 * h) % U32 ≤ L :=
  le_trans (Nat.mod_le _ _) (le_trans (Nat.mul_le_mul_right h (packed_perline_le w)) hlen)

theorem even_pairs (w : Nat) (hev : w % 2 = 0) : 3 * ((w + 1) / 2) = w * 12 / 8 := by
  omega

/-- What the packed 12-bit decoders leave behind when the input holds every row: no
exception, the error list as it was, the stream advanced over the bytes obtained,
and each pair of cells holding the two values of the packing rule. -/
theorem packed_full (rule : Nat → Nat → Nat → Nat × Nat) (input : ByteStream) (w h : Nat)
    (mRaw : RawImage) (hev : w % 2 = 0) (hlen : w * 12 / 8 * h ≤ input.rest.length) :
    ∃ d, fixedDecode (w * 12 % U32 / 8) (fun h => (w * 12 % U32 / 8 * h) % U32) notEnoughData
        (fun inp h d => (pairRows rule inp w h 0 0 d).map (fun r => r.2)) input h mRaw =
        ⟨none, ⟨input.rest.drop ((w * 12 % U32 / 8 * h) % U32)⟩, { mRaw with data := d }⟩ ∧
      (∀ r c, (h ≤ r ∨ w ≤ c) → d r c = mRaw.data r c) ∧
      (∀ y x, y < h → x < w → x % 2 = 0 →
        d y x = (rule (input.rest.getD (y * (w * 12 / 8) + 3 * (x / 2)) 0)
            (input.rest.getD (y * (w * 12 / 8) + 3 * (x / 2) + 1) 0)
            (input.rest.getD (y * (w * 12 / 8) + 3 * (x / 2) + 2) 0)).1 % 65536 ∧
        d y (x + 1) = (rule (input.rest.getD (y * (w * 12 / 8) + 3 * (x / 2)) 0)
            (input.rest.getD (y * (w * 12 / 8) + 3 * (x / 2) + 1) 0)
            (input.rest.getD (y * (w * 12 / 8) + 3 * (x / 2) + 2) 0)).2 % 65536) := by
  have hK := even_pairs w hev
  obtain ⟨d, hd, hframe, hwr⟩ := pairRows_spec rule input.rest w h 0 0 mRaw.data
    (by rw [hK]; omega)
  refine ⟨d, ?_, ?_, ?_⟩
  · have hfull := fixedDecode_full (w * 12 % U32 / 8) (fun h => (w * 12 % U32 / 8 * h) % U32)
      notEnoughData (fun inp h d => (pairRows rule inp w h 0 0 d).map (fun r => r.2))
      input h mRaw (packed_total_le w h _ hlen)
    rw [hfull]
    simp only [hd, Option.map_some']
  · intro r c hrc
    exact hframe r c (by omega)
  · intro y x hy hx hx2
    have := hwr y (x / 2) hy (by omega)
    rw [hK] at this
    have e1 : 2 * (x / 2) = x := by omega
    have e2 : 0 + w * 12 / 8 * y + 3 * (x / 2) = y * (w * 12 / 8) + 3 * (x / 2) := by
      rw [Nat.mul_comm y]; omega
    rw [e1, e2, Nat.zero_add] at this
    exact this

/-! ## The packed 12-bit decoders -/

/-- C1: for even `w >= 2` and an input holding at least `(w*12/8)*h` bytes,
`Decode12BitRawBE` does not fail and stores, for each row `y < h` and each even
`x < w`, `dest[x] = (G1<<4)|(G2>>4)` and `dest[x+1] = ((G2&0x0F)<<8)|G3`, where
`G1, G2, G3` are the input bytes at offset `y*(w*12/8) + 3*(x/2)` (which lie inside the
input); equivalently `dest[x]*4096 + dest[x+1] = G1*65536 + G2*256 + G3` with both
samples below 4096.  For `w = 4`, `h = 1` and the input `12 34 56 78 9A BC` (hex) the
row is `123 456 789 ABC`. -/
theorem Decode12BitRawBE_pairs (input : ByteStream) (w h : Nat) (mRaw : RawImage)
    (hw : 2 ≤ w) (hev : w % 2 = 0) (hbytes : ∀ b ∈ input.rest, b < 256)
    (hlen : w * 12 / 8 * h ≤ input.getRemainSize) :
    ((Decode12BitRawBE input w h mRaw).exc = none ∧
      ∀ y x, y < h → x < w → x % 2 = 0 →
        ∀ G1 G2 G3, G1 = input.rest.getD (y * (w * 12 / 8) + 3 * (x / 2)) 0 →
          G2 = input.rest.getD (y * (w * 12 / 8) + 3 * (x / 2) + 1) 0 →
          G3 = input.rest.getD (y * (w * 12 / 8) + 3 * (x / 2) + 2) 0 →
          y * (w * 12 / 8) + 3 * (x / 2) + 2 < input.rest.length ∧
          (Decode12BitRawBE input w h mRaw).mRaw.data y x = (G1 <<< 4) ||| (G2 >>> 4) ∧
          (Decode12BitRawBE input w h mRaw).mRaw.data y (x + 1) = ((G2 &&& 0x0F) <<< 8) ||| G3 ∧
          (Decode12BitRawBE input w h mRaw).mRaw.data y x * 4096
              + (Decode12BitRawBE input w h mRaw).mRaw.data y (x + 1)
            = G1 * 65536 + G2 * 256 + G3 ∧
          (Decode12BitRawBE input w h mRaw).mRaw.data y x < 4096 ∧
          (Decode12BitRawBE input w h mRaw).mRaw.data y (x + 1) < 4096) ∧
    (∀ m : RawImage,
      List.map ((Decode12BitRawBE ⟨[0x12, 0x34, 0x56, 0x78, 0x9A, 0xBC]⟩ 4 1 m).mRaw.data 0)
        [0, 1, 2, 3] = [0x123, 0x456, 0x789, 0xABC]) := by
  refine ⟨?_, fun m => rfl⟩
  obtain ⟨d, hd, _, hwr⟩ := packed_full rule12BE input w h mRaw hev hlen
  have hdec : Decode12BitRawBE input w h mRaw =
      ⟨none, ⟨input.rest.drop ((w * 12 % U32 / 8 * h) % U32)⟩, { mRaw with data := d }⟩ := by
    unfold Decode12BitRawBE
    rw [if_neg (by omega), hd]
  rw [hdec]
  refine ⟨rfl, ?_⟩
  intro y x hy hx hx2 G1 G2 G3 e1 e2 e3
  obtain ⟨ha, hb⟩ := hwr y x hy hx hx2
  have b1 := getD_lt_of_bytes input.rest hbytes (y * (w * 12 / 8) + 3 * (x / 2))
  have b2 := getD_lt_of_bytes input.rest hbytes (y * (w * 12 / 8) + 3 * (x / 2) + 1)
  have b3 := getD_lt_of_bytes input.rest hbytes (y * (w * 12 / 8) + 3 * (x / 2) + 2)
  rw [← e1, ← e2, ← e3] at ha hb
  rw [← e1] at b1
  rw [← e2] at b2
  rw [← e3] at b3
  obtain ⟨r1, r2⟩ := rule12BE_arith G1 G2 G3 b2 b3
  have s1 : (rule12BE G1 G2 G3).1 = (G1 <<< 4) ||| (G2 >>> 4) := rfl
  have s2 : (rule12BE G1 G2 G3).2 = ((G2 &&& 0x0F) <<< 8) ||| G3 := rfl
  have hin : y * (w * 12 / 8) + 3 * (x / 2) + 2 < input.rest.length := by
    have h1 : (y + 1) * (w * 12 / 8) ≤ w * 12 / 8 * h := by
      rw [Nat.mul_comm (w * 12 / 8) h]
      exact Nat.mul_le_mul_right _ hy
    have h2 : (y + 1) * (w * 12 / 8) = y * (w * 12 / 8) + w * 12 / 8 := by ring
    have h3 : input.getRemainSize = input.rest.length := rfl
    omega
  simp only
  rw [ha, hb, ← s1, ← s2, r1, r2]
  refine ⟨hin, ?_, ?_, ?_, ?_, ?_⟩ <;> omega

/-- Witness of C1 on the scenario of the spec. -/
theorem Decode12BitRawBE_pairs_witness :
    (2 ≤ 4 ∧ 4 % 2 = 0 ∧ (∀ b ∈ [0x12, 0x34, 0x56, 0x78, 0x9A, 0xBC], b < 256) ∧
      4 * 12 / 8 * 1 ≤ ByteStream.getRemainSize ⟨[0x12, 0x34, 0x56, 0x78, 0x9A, 0xBC]⟩) ∧
    (Decode12BitRawBE ⟨[0x12, 0x34, 0x56, 0x78, 0x9A, 0xBC]⟩ 4 1 blankImage).exc = none :=
  ⟨by decide,
   (Decode12BitRawBE_pairs ⟨[0x12, 0x34, 0x56, 0x78, 0x9A, 0xBC]⟩ 4 1 blankImage
      (by decide) (by decide) (by decide) (by decide)).1.1⟩

/-- C2: for even `w >= 2` and an input holding at least `(w*12/8)*h` bytes,
`Decode12BitRaw` does not fail and stores, for each row `y < h` and each even `x < w`,
`dest[x] = G1 | ((G2&0xF)<<8)` and `dest[x+1] = (G2>>4) | (G3<<4)`, where `G1, G2, G3`
are the input bytes at offset `y*(w*12/8) + 3*(x/2)` (which lie inside the input);
equivalently `dest[x] + 4096*dest[x+1] = G1 + 256*G2 + 65536*G3` with both samples
below 4096. -/
theorem Decode12BitRaw_pairs (input : ByteStream) (w h : Nat) (mRaw : RawImage)
    (hw : 2 ≤ w) (hev : w % 2 = 0) (hbytes : ∀ b ∈ input.rest, b < 256)
    (hlen : w * 12 / 8 * h ≤ input.getRemainSize) :
    (Decode12BitRaw input w h mRaw).exc = none ∧
      ∀ y x, y < h → x < w → x % 2 = 0 →
        ∀ G1 G2 G3, G1 = input.rest.getD (y * (w * 12 / 8) + 3 * (x / 2)) 0 →
          G2 = input.rest.getD (y * (w * 12 / 8) + 3 * (x / 2) + 1) 0 →
          G3 = input.rest.getD (y * (w * 12 / 8) + 3 * (x / 2) + 2) 0 →
          y * (w * 12 / 8) + 3 * (x / 2) + 2 < input.rest.length ∧
          (Decode12BitRaw input w h mRaw).mRaw.data y x = G1 ||| ((G2 &&& 0xF) <<< 8) ∧
          (Decode12BitRaw input w h mRaw).mRaw.data y (x + 1) = (G2 >>> 4) ||| (G3 <<< 4) ∧
          (Decode12BitRaw input w h mRaw).mRaw.data y x
              + 4096 * (Decode12BitRaw input w h mRaw).mRaw.data y (x + 1)
            = G1 + 256 * G2 + 65536 * G3 ∧
          (Decode12BitRaw input w h mRaw).mRaw.data y x < 4096 ∧
          (Decode12BitRaw input w h mRaw).mRaw.data y (x + 1) < 4096 := by
  obtain ⟨d, hd, _, hwr⟩ := packed_full rule12LE input w h mRaw hev hlen
  have hdec : Decode12BitRaw input w h mRaw =
      ⟨none, ⟨input.rest.drop ((w * 12 % U32 / 8 * h) % U32)⟩, { mRaw with data := d }⟩ := by
    unfold Decode12BitRaw
    rw [if_neg (by omega), hd]
  rw [hdec]
  refine ⟨rfl, ?_⟩
  intro y x hy hx hx2 G1 G2 G3 e1 e2 e3
  obtain ⟨ha, hb⟩ := hwr y x hy hx hx2
  have b1 := getD_lt_of_bytes input.rest hbytes (y * (w * 12 / 8) + 3 * (x / 2))
  have b2 := getD_lt_of_bytes input.rest hbytes (y * (w * 12 / 8) + 3 * (x / 2) + 1)
  have b3 := getD_lt_of_bytes input.rest hbytes (y * (w * 12 / 8) + 3 * (x / 2) + 2)
  rw [← e1, ← e2, ← e3] at ha hb
  rw [← e1] at b1
  rw [← e2] at b2
  rw [← e3] at b3
  obtain ⟨r1, r2⟩ := rule12LE_arith G1 G2 G3 b1 b2
  have s1 : (rule12LE G1 G2 G3).1 = G1 ||| ((G2 &&& 0xF) <<< 8) := rfl
  have s2 : (rule12LE G1 G2 G3).2 = (G2 >>> 4) ||| (G3 <<< 4) := rfl
  have hin : y * (w * 12 / 8) + 3 * (x / 2) + 2 < input.rest.length := by
    have h1 : (y + 1) * (w * 12 / 8) ≤ w * 12 / 8 * h := by
      rw [Nat.mul_comm (w * 12 / 8) h]
      exact Nat.mul_le_mul_right _ hy
    have h2 : (y + 1) * (w * 12 / 8) = y * (w * 12 / 8) + w * 12 / 8 := by ring
    have h3 : input.getRemainSize = input.rest.length := rfl
    omega
  simp only
  rw [ha, hb, ← s1, ← s2, r1, r2]
  refine ⟨hin, ?_, ?_, ?_, ?_, ?_⟩ <;> omega

/-- Witness of C2 on a one-row input of four samples. -/
theorem Decode12BitRaw_pairs_witness :
    (2 ≤ 4 ∧ 4 % 2 = 0 ∧ (∀ b ∈ [0x21, 0x43, 0x65, 0x87, 0xA9, 0xCB], b < 256) ∧
      4 * 12 / 8 * 1 ≤ ByteStream.getRemainSize ⟨[0x21, 0x43, 0x65, 0x87, 0xA9, 0xCB]⟩) ∧
    (Decode12BitRaw ⟨[0x21, 0x43, 0x65, 0x87, 0xA9, 0xCB]⟩ 4 1 blankImage).exc = none :=
  ⟨by decide,
   (Decode12BitRaw_pairs ⟨[0x21, 0x43, 0x65, 0x87, 0xA9, 0xCB]⟩ 4 1 blankImage
      (by decide) (by decide) (by decide) (by decide)).1⟩

/-- C3, as the spec states it, fails: on `w = 4`, `h = 1` and the six input bytes
`21 43 65 87 A9 CB` (hex) the row written by `Decode12BitRaw` is not
`321 654 9A8 CBC`. -/
theorem Decode12BitRaw_scenario_differs :
    List.map ((Decode12BitRaw ⟨[0x21, 0x43, 0x65, 0x87, 0xA9, 0xCB]⟩ 4 1 blankImage).mRaw.data 0)
      [0, 1, 2, 3] ≠ [0x321, 0x654, 0x9A8, 0xCBC] := by
  decide

/-- C3, amended: on `w = 4`, `h = 1` and the six input bytes `21 43 65 87 A9 CB` (hex)
`Decode12BitRaw` does not fail, records no error and writes the row
`321 654 987 CBA`, whatever the image held before. -/
theorem Decode12BitRaw_scenario (m : RawImage) :
    (Decode12BitRaw ⟨[0x21, 0x43, 0x65, 0x87, 0xA9, 0xCB]⟩ 4 1 m).exc = none ∧
    (Decode12BitRaw ⟨[0x21, 0x43, 0x65, 0x87, 0xA9, 0xCB]⟩ 4 1 m).mRaw.errors = m.errors ∧
    List.map ((Decode12BitRaw ⟨[0x21, 0x43, 0x65, 0x87, 0xA9, 0xCB]⟩ 4 1 m).mRaw.data 0)
      [0, 1, 2, 3] = [0x321, 0x654, 0x987, 0xCBA] :=
  ⟨rfl, rfl, rfl⟩

/-! ## The unpacked big-endian decoders -/

/-- What the unpacked decoders leave behind when the input holds every row. -/
theorem unpacked_full (rule : Nat → Nat → Nat) (input : ByteStream) (w h : Nat)
    (mRaw : RawImage) (hlen : 2 * w * h ≤ input.rest.length) :
    ∃ d, decodeUnpacked rule input w h mRaw =
        ⟨none, ⟨input.rest.drop ((w * h * 2) % U32)⟩, { mRaw with data := d }⟩ ∧
      (∀ r c, (h ≤ r ∨ w ≤ c) → d r c = mRaw.data r c) ∧
      (∀ y x, y < h → x < w →
        2 * (y * w + x) + 1 < input.rest.length ∧
        d y x = rule (input.rest.getD (2 * (y * w + x)) 0)
          (input.rest.getD (2 * (y * w + x) + 1) 0) % 65536) := by
  obtain ⟨d, hd, hframe, hwr⟩ := wordRows_spec rule input.rest w h 0 0 mRaw.data (by omega)
  have htot : (w * h * 2) % U32 ≤ input.rest.length := by
    have e : w * h * 2 = 2 * w * h := by ring
    exact le_trans (Nat.mod_le _ _) (by omega)
  refine ⟨d, ?_, ?_, ?_⟩
  · have hfull := fixedDecode_full (w * 2 % U32) (fun h => (w * h * 2) % U32) notEnoughData
      (fun inp h d => (wordRows rule inp w h 0 0 d).map (fun r => r.2)) input h mRaw htot
    unfold decodeUnpacked
    rw [hfull]
    simp only [hd, Option.map_some']
  · intro r c hrc
    exact hframe r c (by omega)
  · intro y x hy hx
    have := hwr y x hy hx
    have e2 : 0 + 2 * w * y + 2 * x = 2 * (y * w + x) := by ring
    rw [e2, Nat.zero_add] at this
    refine ⟨?_, this⟩
    have h1 : (y + 1) * w ≤ h * w := Nat.mul_le_mul_right _ hy
    have h2 : (y + 1) * w = y * w + w := by ring
    have h3 : 2 * w * h = 2 * (h * w) := by ring
    omega

theorem rule12BEunpacked_arith (g1 g2 : Nat) (h2 : g2 < 256) :
    ((g1 &&& 0x0f) <<< 8) ||| g2 = (g1 * 256 + g2) % 4096 := by
  show ((g1 &&& 15) <<< 8) ||| g2 = _
  rw [lor_shift8 _ _ h2, and15]
  omega

theorem rule14BEunpacked_arith (g1 g2 : Nat) (h2 : g2 < 256) :
    ((g1 &&& 0x3f) <<< 8) ||| g2 = (g1 * 256 + g2) % 16384 := by
  show ((g1 &&& 63) <<< 8) ||| g2 = _
  rw [lor_shift8 _ _ h2, and63]
  omega

theorem rule16BEunpacked_arith (g1 g2 : Nat) (h1 : g1 < 256) (h2 : g2 < 256) :
    (g1 <<< 8) ||| g2 = (g1 * 256 + g2) % 65536 := by
  rw [lor_shift8 _ _ h2]
  omega

/-- C4: for every `w`, `h` and input holding at least `2*w*h` bytes, the unpacked
big-endian decoders `Decode12BitRawBEunpacked`, `Decode14BitRawBEunpacked` and
`Decode16BitRawBEunpacked` do not fail and store in each pixel `(y, x)` the big-endian
word `G1*256 + G2` reduced modulo `2^N`, `N = 12, 14, 16` (so below `2^N`), where
`G1, G2` are the input bytes at offset `2*(y*w + x)` (which lie inside the input).
For `Decode14BitRawBEunpacked` with `w = 2`, `h = 1` and the input `3F FF 00 01` (hex)
the row is `3FFF 0001`. -/
theorem DecodeBEunpacked_words (input : ByteStream) (w h : Nat) (mRaw : RawImage)
    (hbytes : ∀ b ∈ input.rest, b < 256) (hlen : 2 * w * h ≤ input.getRemainSize) :
    ((Decode12BitRawBEunpacked input w h mRaw).exc = none ∧
      ∀ y x, y < h → x < w →
        2 * (y * w + x) + 1 < input.rest.length ∧
        (Decode12BitRawBEunpacked input w h mRaw).mRaw.data y x =
          (input.rest.getD (2 * (y * w + x)) 0 * 256
            + input.rest.getD (2 * (y * w + x) + 1) 0) % 2 ^ 12 ∧
        (Decode12BitRawBEunpacked input w h mRaw).mRaw.data y x < 2 ^ 12) ∧
    ((Decode14BitRawBEunpacked input w h mRaw).exc = none ∧
      ∀ y x, y < h → x < w →
        2 * (y * w + x) + 1 < input.rest.length ∧
        (Decode14BitRawBEunpacked input w h mRaw).mRaw.data y x =
          (input.rest.getD (2 * (y * w + x)) 0 * 256
            + input.rest.getD (2 * (y * w + x) + 1) 0) % 2 ^ 14 ∧
        (Decode14BitRawBEunpacked input w h mRaw).mRaw.data y x < 2 ^ 14) ∧
    ((Decode16BitRawBEunpacked input w h mRaw).exc = none ∧
      ∀ y x, y < h → x < w →
        2 * (y * w + x) + 1 < input.rest.length ∧
        (Decode16BitRawBEunpacked input w h mRaw).mRaw.data y x =
          (input.rest.getD (2 * (y * w + x)) 0 * 256
            + input.rest.getD (2 * (y * w + x) + 1) 0) % 2 ^ 16 ∧
        (Decode16BitRawBEunpacked input w h mRaw).mRaw.data y x < 2 ^ 16) ∧
    (∀ m : RawImage,
      List.map ((Decode14BitRawBEunpacked ⟨[0x3F, 0xFF, 0x00, 0x01]⟩ 2 1 m).mRaw.data 0) [0, 1]
        = [0x3FFF, 0x0001]) := by
  have hlen1 : 2 * w * h ≤ input.rest.length := hlen
  refine ⟨?_, ?_, ?_, fun m => rfl⟩
  · obtain ⟨d, hd, _, hwr⟩ := unpacked_full (fun g1 g2 => ((g1 &&& 0x0f) <<< 8) ||| g2)
      input w h mRaw hlen1
    unfold Decode12BitRawBEunpacked
    rw [hd]
    refine ⟨rfl, ?_⟩
    intro y x hy hx
    obtain ⟨hin, hv⟩ := hwr y x hy hx
    have b2 := getD_lt_of_bytes input.rest hbytes (2 * (y * w + x) + 1)
    simp only at hv ⊢
    rw [hv, rule12BEunpacked_arith _ _ b2]
    refine ⟨hin, ?_, ?_⟩ <;> omega
  · obtain ⟨d, hd, _, hwr⟩ := unpacked_full (fun g1 g2 => ((g1 &&& 0x3f) <<< 8) ||| g2)
      input w h mRaw hlen1
    unfold Decode14BitRawBEunpacked
    rw [hd]
    refine ⟨rfl, ?_⟩
    intro y x hy hx
    obtain ⟨hin, hv⟩ := hwr y x hy hx
    have b2 := getD_lt_of_bytes input.rest hbytes (2 * (y * w + x) + 1)
    simp only at hv ⊢
    rw [hv, rule14BEunpacked_arith _ _ b2]
    refine ⟨hin, ?_, ?_⟩ <;> omega
  · obtain ⟨d, hd, _, hwr⟩ := unpacked_full (fun g1 g2 => (g1 <<< 8) ||| g2)
      input w h mRaw hlen1
    unfold Decode16BitRawBEunpacked
    rw [hd]
    refine ⟨rfl, ?_⟩
    intro y x hy hx
    obtain ⟨hin, hv⟩ := hwr y x hy hx
    have b1 := getD_lt_of_bytes input.rest hbytes (2 * (y * w + x))
    have b2 := getD_lt_of_bytes input.rest hbytes (2 * (y * w + x) + 1)
    simp only at hv ⊢
    rw [hv, rule16BEunpacked_arith _ _ b1 b2]
    refine ⟨hin, ?_, ?_⟩ <;> omega

/-- Witness of C4 on the scenario of the spec. -/
theorem DecodeBEunpacked_words_witness :
    ((∀ b ∈ [0x3F, 0xFF, 0x00, 0x01], b < 256) ∧
      2 * 2 * 1 ≤ ByteStream.getRemainSize ⟨[0x3F, 0xFF, 0x00, 0x01]⟩) ∧
    (Decode14BitRawBEunpacked ⟨[0x3F, 0xFF, 0x00, 0x01]⟩ 2 1 blankImage).exc = none :=
  ⟨by decide,
   (DecodeBEunpacked_words ⟨[0x3F, 0xFF, 0x00, 0x01]⟩ 2 1 blankImage
      (by decide) (by decide)).2.1.1⟩

/-! ## Short inputs -/

theorem byteCols_lookup (lookUp : Nat → Nat → Nat × Nat) (inp : List Nat) (y : Nat) :
    ∀ (n x o : Nat) (d : Pixels), o + n ≤ inp.length →
      ∃ d1, byteCols false lookUp inp y n x o (randomAfter lookUp inp o) d
          = some (o + n, randomAfter lookUp inp (o + n), d1) ∧
        (∀ r c, (r ≠ y ∨ c < x ∨ x + n ≤ c) → d1 r c = d r c) ∧
        (∀ k, k < n → d1 y (x + k)
          = (lookUp (inp.getD (o + k) 0) (randomAfter lookUp inp (o + k))).1 % 65536) := by
  intro n
  induction n with
  | zero =>
    intro x o d _
    exact ⟨d, by simp [byteCols], fun _ _ _ => rfl, fun k hk => absurd hk (Nat.not_lt_zero k)⟩
  | succ n ih =>
    intro x o d hlen
    have h0 : inp[o]? = some (inp.getD o 0) := getElem?_getD_of_lt inp o (by omega)
    have hstep : (lookUp (inp.getD o 0) (randomAfter lookUp inp o)).2
        = randomAfter lookUp inp (o + 1) := rfl
    obtain ⟨d1, hd1, hframe, hwr⟩ := ih (x + 1) (o + 1)
      (store d y x (lookUp (inp.getD o 0) (randomAfter lookUp inp o)).1) (by omega)
    have e : o + 1 + n = o + (n + 1) := by omega
    refine ⟨d1, ?_, ?_, ?_⟩
    · simp only [byteCols, h0]
      simp only [Bool.false_eq_true, if_false]
      rw [hstep, hd1, e]
    · intro r c hrc
      rw [hframe r c (by omega), store_other _ _ _ _ _ _ (by omega)]
    · intro k hk
      cases k with
      | zero =>
        rw [hframe y (x + 0) (by omega)]
        exact store_same _ _ _ _
      | succ k =>
        have hk1 := hwr k (by omega)
        have e1 : x + (k + 1) = x + 1 + k := by omega
        have e2 : o + (k + 1) = o + 1 + k := by omega
        rw [e1, e2]
        exact hk1

theorem byteRows_lookup (lookUp : Nat → Nat → Nat × Nat) (inp : List Nat) (w : Nat) :
    ∀ (n y o : Nat) (d : Pixels), o + w * n ≤ inp.length →
      ∃ d1, byteRows false lookUp inp w n y o (randomAfter lookUp inp o) d
          = some (o + w * n, randomAfter lookUp inp (o + w * n), d1) ∧
        (∀ r c, (r < y ∨ y + n ≤ r ∨ w ≤ c) → d1 r c = d r c) ∧
        (∀ j k, j < n → k < w → d1 (y + j) k
          = (lookUp (inp.getD (o + w * j + k) 0)
              (randomAfter lookUp inp (o + w * j + k))).1 % 65536) := by
  intro n
  induction n with
  | zero =>
    intro y o d _
    exact ⟨d, by simp [byteRows], fun _ _ _ => rfl, fun j k hj => absurd hj (Nat.not_lt_zero j)⟩
  | succ n ih =>
    intro y o d hlen
    have hmul : w * (n + 1) = w + w * n := by ring
    obtain ⟨d1, hd1, hframe1, hwr1⟩ := byteCols_lookup lookUp inp y w 0 o d (by omega)
    obtain ⟨d2, hd2, hframe2, hwr2⟩ := ih (y + 1) (o + w) d1 (by omega)
    have e : o + w + w * n = o + w * (n + 1) := by omega
    refine ⟨d2, ?_, ?_, ?_⟩
    · simp only [byteRows, hd1]
      rw [hd2, e]
    · intro r c hrc
      rw [hframe2 r c (by omega), hframe1 r c (by omega)]
    · intro j k hj hk
      cases j with
      | zero =>
        have := hwr1 k hk
        simp only [Nat.zero_add, Nat.add_zero, Nat.mul_zero] at this ⊢
        rw [hframe2 y k (by omega)]
        exact this
      | succ j =>
        have := hwr2 j k (by omega) hk
        have e1 : y + (j + 1) = y + 1 + j := by omega
        have e2 : o + w * (j + 1) = o + w + w * j := by
          have : w * (j + 1) = w + w * j := by ring
          omega
        rw [e1, e2]
        exact this

theorem fixedDecode_rows (perline : Nat) (total : Nat → Nat) (what : String)
    (rows : List Nat → Nat → Pixels → Option Pixels) (p w : Nat)
    (pix : List Nat → Nat → Nat → Nat) (input : ByteStream)
    (h : Nat) (mRaw : RawImage) (hL : input.rest.length < U32)
    (hper : 0 < h → perline = p) (htot : ∀ k, p * k < U32 → total k = p * k)
    (hph : p * h < U32)
    (hrows : ∀ k d, p * k ≤ input.rest.length →
      ∃ d1, rows input.rest k d = some d1 ∧
        (∀ r c, (k ≤ r ∨ w ≤ c) → d1 r c = d r c) ∧
        (∀ y x, y < k → x < w → d1 y x = pix input.rest y x)) :
    RowPolicy (fixedDecode perline total what rows) p w pix input h mRaw := by
  have hrem : input.getRemainSize = input.rest.length := rfl
  refine ⟨?_, ?_, ?_⟩
  · intro hle
    rw [hrem] at hle
    obtain ⟨d1, hd1, hfr, hpx⟩ := hrows h mRaw.data hle
    have hfull := fixedDecode_full perline total what rows input h mRaw
      (by rw [htot h hph]; exact hle)
    rw [hfull, hd1, htot h hph]
    exact ⟨rfl, rfl, rfl, hpx, hfr⟩
  · intro hlt1 hlt2
    rw [hrem] at hlt1 hlt2 ⊢
    have hh : 0 < h := by
      rcases Nat.eq_zero_or_pos h with h0 | h0
      · rw [h0] at hlt2; omega
      · exact h0
    have hp : 0 < p := by
      rcases Nat.eq_zero_or_pos p with h0 | h0
      · rw [h0] at hlt2; omega
      · exact h0
    have hdiv1 : 1 ≤ input.rest.length / p := Nat.div_pos (by omega) hp
    have hdiv2 : input.rest.length / p ≤ input.rest.length := Nat.div_le_self _ _
    have hk : (input.rest.length / p + U32 - 1) % U32 = input.rest.length / p - 1 := by
      unfold U32 at *
      omega
    have hpk : p * (input.rest.length / p - 1) ≤ input.rest.length :=
      le_trans (Nat.mul_le_mul_left p (Nat.sub_le _ _)) (Nat.mul_div_le _ _)
    have htk : total (input.rest.length / p - 1) = p * (input.rest.length / p - 1) :=
      htot _ (by omega)
    obtain ⟨d1, hd1, hfr, hpx⟩ := hrows (input.rest.length / p - 1) mRaw.data hpk
    have hfull := fixedDecode_full perline total what rows input
      (input.rest.length / p - 1) mRaw (by rw [htk]; exact hpk)
    have hrun : fixedDecode perline total what rows input h mRaw =
        ⟨none, ⟨input.rest.drop (p * (input.rest.length / p - 1))⟩,
          { mRaw.setError imageTruncated with data := d1 }⟩ := by
      unfold fixedDecode checkLines ByteStream.getData
      rw [hrem, htot h hph, if_pos hlt2, hper hh, if_pos hlt1, if_neg (by omega), hk]
      simp only [htk, if_pos hpk]
      rw [show (mRaw.setError imageTruncated).data = mRaw.data from rfl, hd1]
    rw [hfull, hd1, hrun]
    exact ⟨rfl, rfl, rfl, hpx, rfl, hfr⟩
  · intro hlt1 hle
    rw [hrem] at hlt1 hle
    have hh : 0 < h := by
      rcases Nat.eq_zero_or_pos h with h0 | h0
      · rw [h0] at hlt1; omega
      · exact h0
    have hrun : fixedDecode perline total what rows input h mRaw =
        ⟨some (.IOException what), input, mRaw⟩ := by
      unfold fixedDecode checkLines
      rw [hrem, htot h hph, if_pos hlt1, hper hh, if_neg (by omega)]
    rw [hrun]
    exact ⟨⟨what, rfl⟩, rfl, rfl⟩

theorem unpacked_rows (rule : Nat → Nat → Nat) (input : ByteStream) (w h : Nat)
    (mRaw : RawImage) (hL : input.getRemainSize < U32) (hwh : 2 * w * h < U32) :
    RowPolicy (fun i k m => decodeUnpacked rule i w k m) (2 * w) w (unpackedPixel rule w)
      input h mRaw := by
  refine fixedDecode_rows (w * 2 % U32) (fun h => (w * h * 2) % U32) notEnoughData
    (fun inp h d => (wordRows rule inp w h 0 0 d).map (fun r => r.2)) (2 * w) w
    (unpackedPixel rule w) input h mRaw hL ?_ ?_ hwh ?_
  · intro hh
    have : 2 * w ≤ 2 * w * h := Nat.le_mul_of_pos_right _ hh
    rw [Nat.mul_comm w 2]
    exact Nat.mod_eq_of_lt (by omega)
  · intro k hk
    have e : w * k * 2 = 2 * w * k := by ring
    show (w * k * 2) % U32 = 2 * w * k
    rw [e]
    exact Nat.mod_eq_of_lt hk
  · intro k d hk
    obtain ⟨d1, hd1, hfr, hwr⟩ := wordRows_spec rule input.rest w k 0 0 d (by omega)
    refine ⟨d1, by simp only [hd1, Option.map_some'], fun r c hr => hfr r c (by omega), ?_⟩
    intro y x hy hx
    have := hwr y x hy hx
    have e2 : 0 + 2 * w * y + 2 * x = 2 * (y * w + x) := by ring
    rw [e2, Nat.zero_add] at this
    exact this

theorem packed_rows (rule : Nat → Nat → Nat → Nat × Nat) (input : ByteStream) (w h : Nat)
    (mRaw : RawImage) (hL : input.getRemainSize < U32) (hev : w % 2 = 0)
    (hw12 : w * 12 < U32) (hwh : w * 12 / 8 * h < U32) :
    RowPolicy (fixedDecode (w * 12 % U32 / 8) (fun h => (w * 12 % U32 / 8 * h) % U32)
      notEnoughData (fun inp h d => (pairRows rule inp w h 0 0 d).map (fun r => r.2)))
      (w * 12 / 8) w (packedPixel rule w) input h mRaw := by
  have hmod : w * 12 % U32 = w * 12 := Nat.mod_eq_of_lt hw12
  have hK := even_pairs w hev
  refine fixedDecode_rows _ _ notEnoughData _ (w * 12 / 8) w (packedPixel rule w) input h
    mRaw hL ?_ ?_ hwh ?_
  · intro _
    rw [hmod]
  · intro k hk
    show (w * 12 % U32 / 8 * k) % U32 = w * 12 / 8 * k
    rw [hmod]
    exact Nat.mod_eq_of_lt hk
  · intro k d hk
    obtain ⟨d1, hd1, hfr, hwr⟩ := pairRows_spec rule input.rest w k 0 0 d
      (by rw [hK]; omega)
    refine ⟨d1, by simp only [hd1, Option.map_some'], fun r c hr => hfr r c (by omega), ?_⟩
    intro y x hy hx
    have hpair := hwr y (x / 2) hy (by omega)
    rw [hK] at hpair
    simp only [Nat.zero_add] at hpair
    have eo : w * 12 / 8 * y = y * (w * 12 / 8) := Nat.mul_comm _ _
    rw [eo] at hpair
    unfold packedPixel
    split_ifs with hx2
    · have ex : 2 * (x / 2) = x := by omega
      rw [ex] at hpair
      exact hpair.1
    · have ex : 2 * (x / 2) + 1 = x := by omega
      rw [ex] at hpair
      exact hpair.2

theorem byte_rows (raw : Bool) (input : ByteStream) (w h : Nat) (mRaw : RawImage)
    (hL : input.getRemainSize < U32) (hwh : w * h < U32) :
    RowPolicy (fun i k m => Decode8BitRaw raw i w k m) w w (bytePixel raw mRaw.lookUp w)
      input h mRaw := by
  refine fixedDecode_rows w (fun h => (w * h) % U32)
    "Decode8BitRaw: Not enough data to decode a single line. Image file truncated."
    (fun inp h d => (byteRows raw mRaw.lookUp inp w h 0 0 0 d).map (fun r => r.2.2))
    w w (bytePixel raw mRaw.lookUp w) input h mRaw hL (fun _ => rfl)
    (fun k hk => Nat.mod_eq_of_lt hk) hwh ?_
  intro k d hk
  cases raw with
  | true =>
    obtain ⟨rnd1, d1, hd1, hfr, hwr⟩ := byteRows_spec true mRaw.lookUp input.rest w k 0 0 0 d
      (by omega)
    refine ⟨d1, by simp only [hd1, Option.map_some'], fun r c hr => hfr r c (by omega), ?_⟩
    intro y x hy hx
    have := hwr rfl y x hy hx
    simp only [Nat.zero_add] at this
    have e : w * y + x = y * w + x := by rw [Nat.mul_comm]
    rw [e] at this
    unfold bytePixel
    rw [if_pos rfl]
    exact this
  | false =>
    obtain ⟨d1, hd1, hfr, hwr⟩ := byteRows_lookup mRaw.lookUp input.rest w k 0 0 d (by omega)
    have h0 : randomAfter mRaw.lookUp input.rest 0 = 0 := rfl
    rw [h0] at hd1
    refine ⟨d1, by simp only [hd1, Option.map_some'], fun r c hr => hfr r c (by omega), ?_⟩
    intro y x hy hx
    have := hwr y x hy hx
    simp only [Nat.zero_add] at this
    have e : w * y + x = y * w + x := by rw [Nat.mul_comm]
    rw [e] at this
    unfold bytePixel
    rw [if_neg (by decide)]
    exact this

/-- C5, as stated, fails for the packed decoders at `w = 1`: with `p = 1*12/8 = 1`,
`h = 1` and one byte of input (`L = 1 >= p*h`) `Decode12BitRaw` decodes no row but
throws the `IOException` of its `w < 2` guard. -/
theorem Decode12BitRaw_narrow_fails :
    1 * 12 / 8 * 1 < 2 ^ 32 ∧ 1 * 12 / 8 * 1 ≤ ByteStream.getRemainSize ⟨[0]⟩ ∧
    (Decode12BitRaw ⟨[0]⟩ 1 1 blankImage).exc = some (.IOException tooNarrow) := by
  decide

/-- C5, amended: on an input of `L < 2^32` bytes, `RowPolicy` holds for `Decode8BitRaw`
with `p = w` and for the six unpacked decoders with `p = 2*w`, for every `w`, `h` with
`p*h < 2^32`; it holds for `Decode12BitRaw` and `Decode12BitRawBE` with `p = w*12/8`
for every even `w >= 2` with `w*12 < 2^32` and every `h` with `p*h < 2^32`, while for
`w < 2` these two throw an `IOException` and leave the image as it was, whatever the
input.  `RowPolicy` says: when `L >= p*h`, all `h` rows are decoded (every sample of
the rows `0 .. h-1` holds the value the decoder's expression gives on the bytes of
its place in the input, nothing else is written, `p*h` bytes are consumed) and no
error is recorded; when `p < L < p*h`, exactly the `L/p - 1` first rows are decoded
in that sense and exactly one error, which begins with "Image truncated", is
appended; when `L < p*h` and `L <= p`, an `IOException` leaves image and stream
untouched.  For `Decode16BitRawUnpacked` with `w = 100`, `h = 10` and `L = 1550` that
is 6 rows (1200 bytes consumed, the sample at row `y < 6`, column `x < 100` being
`(g2 << 8) | g1` for the bytes `g1`, `g2` at offset `2*(100*y + x)`, rows from 6 on
untouched) and one error. -/
theorem short_input_rows (input : ByteStream) (w h : Nat) (mRaw : RawImage)
    (hL : input.getRemainSize < U32) :
    (∀ raw, w * h < U32 →
      RowPolicy (fun i k m => Decode8BitRaw raw i w k m) w w (bytePixel raw mRaw.lookUp w)
        input h mRaw) ∧
    (2 * w * h < U32 →
      RowPolicy (fun i k m => Decode12BitRawBEunpacked i w k m) (2 * w) w
        (unpackedPixel (fun g1 g2 => ((g1 &&& 0x0f) <<< 8) ||| g2) w) input h mRaw ∧
      RowPolicy (fun i k m => Decode12BitRawBEunpackedLeftAligned i w k m) (2 * w) w
        (unpackedPixel (fun g1 g2 => ((g1 <<< 8) ||| (g2 &&& 0xf0)) >>> 4) w) input h mRaw ∧
      RowPolicy (fun i k m => Decode14BitRawBEunpacked i w k m) (2 * w) w
        (unpackedPixel (fun g1 g2 => ((g1 &&& 0x3f) <<< 8) ||| g2) w) input h mRaw ∧
      RowPolicy (fun i k m => Decode16BitRawUnpacked i w k m) (2 * w) w
        (unpackedPixel (fun g1 g2 => (g2 <<< 8) ||| g1) w) input h mRaw ∧
      RowPolicy (fun i k m => Decode16BitRawBEunpacked i w k m) (2 * w) w
        (unpackedPixel (fun g1 g2 => (g1 <<< 8) ||| g2) w) input h mRaw ∧
      RowPolicy (fun i k m => Decode12BitRawUnpacked i w k m) (2 * w) w
        (unpackedPixel (fun g1 g2 => ((g2 <<< 8) ||| g1) >>> 4) w) input h mRaw) ∧
    (2 ≤ w → w % 2 = 0 → w * 12 < U32 → w * 12 / 8 * h < U32 →
      RowPolicy (fun i k m => Decode12BitRaw i w k m) (w * 12 / 8) w
        (packedPixel rule12LE w) input h mRaw ∧
      RowPolicy (fun i k m => Decode12BitRawBE i w k m) (w * 12 / 8) w
        (packedPixel rule12BE w) input h mRaw) ∧
    (w < 2 →
      (Decode12BitRaw input w h mRaw).exc = some (.IOException tooNarrow) ∧
      (Decode12BitRaw input w h mRaw).mRaw = mRaw ∧
      (Decode12BitRawBE input w h mRaw).exc = some (.IOException tooNarrow) ∧
      (Decode12BitRawBE input w h mRaw).mRaw = mRaw) ∧
    (∃ tail, imageTruncated = "Image truncated" ++ tail) ∧
    (∀ (i : ByteStream) (m : RawImage), i.getRemainSize = 1550 →
      (Decode16BitRawUnpacked i 100 10 m).exc = none ∧
      (Decode16BitRawUnpacked i 100 10 m).input.rest = i.rest.drop 1200 ∧
      (Decode16BitRawUnpacked i 100 10 m).mRaw.errors = m.errors ++ [imageTruncated] ∧
      (∀ y x, y < 6 → x < 100 →
        (Decode16BitRawUnpacked i 100 10 m).mRaw.data y x
          = ((i.rest.getD (2 * (y * 100 + x) + 1) 0 <<< 8)
              ||| i.rest.getD (2 * (y * 100 + x)) 0) % 65536) ∧
      (Decode16BitRawUnpacked i 100 10 m).mRaw.data = (Decode16BitRawUnpacked i 100 6 m).mRaw.data ∧
      ∀ r c, (6 ≤ r ∨ 100 ≤ c) → (Decode16BitRawUnpacked i 100 10 m).mRaw.data r c = m.data r c) := by
  refine ⟨fun raw hwh => byte_rows raw input w h mRaw hL hwh, ?_, ?_, ?_,
    ⟨" (file is too short)", by decide⟩, ?_⟩
  · intro hwh
    exact ⟨unpacked_rows _ input w h mRaw hL hwh, unpacked_rows _ input w h mRaw hL hwh,
      unpacked_rows _ input w h mRaw hL hwh, unpacked_rows _ input w h mRaw hL hwh,
      unpacked_rows _ input w h mRaw hL hwh, unpacked_rows _ input w h mRaw hL hwh⟩
  · intro hw hev hw12 hwh
    have hLE := packed_rows rule12LE input w h mRaw hL hev hw12 hwh
    have hBE := packed_rows rule12BE input w h mRaw hL hev hw12 hwh
    have hnot : ¬ w < 2 := by omega
    constructor
    · unfold RowPolicy at hLE ⊢
      simp only [Decode12BitRaw, if_neg hnot]
      exact hLE
    · unfold RowPolicy at hBE ⊢
      simp only [Decode12BitRawBE, if_neg hnot]
      exact hBE
  · intro hw
    unfold Decode12BitRaw Decode12BitRawBE
    rw [if_pos hw, if_pos hw]
    exact ⟨rfl, rfl, rfl, rfl⟩
  · intro i m hi
    have hpol := unpacked_rows (fun g1 g2 => (g2 <<< 8) ||| g1) i 100 10 m
      (by rw [hi]; decide) (by decide)
    have h2 := hpol.2.1 (by rw [hi]; decide) (by rw [hi]; decide)
    rw [hi] at h2
    exact h2

/-- Witness of C5, amended: nine bytes offered to `Decode16BitRawUnpacked` for a
2 by 3 image give one row, the sample `0x0201` at its start, and one error. -/
theorem short_input_rows_witness :
    (ByteStream.getRemainSize ⟨[1, 2, 3, 4, 5, 6, 7, 8, 9]⟩ < U32 ∧ 2 * 2 * 3 < U32 ∧
      2 * 2 < ByteStream.getRemainSize ⟨[1, 2, 3, 4, 5, 6, 7, 8, 9]⟩ ∧
      ByteStream.getRemainSize ⟨[1, 2, 3, 4, 5, 6, 7, 8, 9]⟩ < 2 * 2 * 3) ∧
    (Decode16BitRawUnpacked ⟨[1, 2, 3, 4, 5, 6, 7, 8, 9]⟩ 2 3 blankImage).mRaw.errors
      = [] ++ [imageTruncated] ∧
    (Decode16BitRawUnpacked ⟨[1, 2, 3, 4, 5, 6, 7, 8, 9]⟩ 2 3 blankImage).mRaw.data 0 0
      = 0x0201 :=
  ⟨by decide,
   ((((short_input_rows ⟨[1, 2, 3, 4, 5, 6, 7, 8, 9]⟩ 2 3 blankImage
      (by decide)).2.1 (by decide)).2.2.2.1).2.1 (by decide) (by decide)).2.2.1,
   ((((short_input_rows ⟨[1, 2, 3, 4, 5, 6, 7, 8, 9]⟩ 2 3 blankImage
      (by decide)).2.1 (by decide)).2.2.2.1).2.1 (by decide) (by decide)).2.2.2.1
      0 0 (by decide) (by decide)⟩

/-! ## Exceptions and dimensions through `readUncompressedRaw` -/

theorem getData_error (input : ByteStream) (n : Nat) (e : Exc)
    (h : input.getData n = .error e) : ∃ w, e = .IOException w := by
  unfold ByteStream.getData at h
  split_ifs at h
  cases h
  exact ⟨_, rfl⟩

theorem checkLines_error (remain perline total h : Nat) (what : String) (mRaw : RawImage)
    (e : Exc) (hc : checkLines remain perline total h what mRaw = .error e) :
    ∀ msg, e ≠ .RawDecoderException msg := by
  intro msg he
  unfold checkLines at hc
  split_ifs at hc <;> cases hc <;> cases he

theorem checkLines_ok (remain perline total h : Nat) (what : String) (mRaw : RawImage)
    (h1 : Nat) (m1 : RawImage) (hc : checkLines remain perline total h what mRaw = .ok (h1, m1)) :
    m1.dimx = mRaw.dimx ∧ m1.dimy = mRaw.dimy := by
  unfold checkLines at hc
  split_ifs at hc
  · simp only [Except.ok.injEq, Prod.mk.injEq] at hc
    rw [← hc.2]
    exact ⟨rfl, rfl⟩
  · simp only [Except.ok.injEq, Prod.mk.injEq] at hc
    rw [← hc.2]
    exact ⟨rfl, rfl⟩

theorem pumpCols_exc (nbits y : Nat) :
    ∀ (n c : Nat) (bits : BitPump) (d : Pixels), NoRDE (pumpCols nbits y n c bits d).1 := by
  intro n
  induction n with
  | zero => intro c bits d what; simp [pumpCols]
  | succ n ih =>
    intro c bits d
    unfold pumpCols
    cases hg : bits.getBits nbits with
    | error e =>
      intro what
      unfold BitPump.getBits at hg
      split_ifs at hg
      cases hg
      simp
    | ok r => exact ih _ _ _

theorem pumpRows_exc (nbits skipBits cells base : Nat) :
    ∀ (n y : Nat) (bits : BitPump) (d : Pixels),
      NoRDE (pumpRows nbits skipBits cells base n y bits d).1 := by
  intro n
  induction n with
  | zero => intro y bits d what; simp [pumpRows]
  | succ n ih =>
    intro y bits d
    have hc := pumpCols_exc nbits y cells base bits d
    unfold pumpRows
    rcases hcols : pumpCols nbits y cells base bits d with ⟨e, bits1, d1⟩
    rw [hcols] at hc
    cases e with
    | some e => exact hc
    | none =>
      simp only
      cases hs : bits1.skipBits skipBits with
      | error e =>
        intro what
        unfold BitPump.skipBits at hs
        split_ifs at hs
        cases hs
        simp
      | ok r => exact ih _ _ _

theorem pumpBranch_exc (order : BitOrder) (input : ByteStream)
    (w cpp nbits skipBits base y h : Nat) (mRaw : RawImage) :
    NoRDE (pumpBranch order input w cpp nbits skipBits base y h mRaw).exc := by
  unfold pumpBranch
  split_ifs
  · exact pumpRows_exc _ _ _ _ _ _ _ _
  · intro what; simp

theorem pumpBranch_dim (order : BitOrder) (input : ByteStream)
    (w cpp nbits skipBits base y h : Nat) (mRaw : RawImage) :
    (pumpBranch order input w cpp nbits skipBits base y h mRaw).mRaw.dimx = mRaw.dimx ∧
    (pumpBranch order input w cpp nbits skipBits base y h mRaw).mRaw.dimy = mRaw.dimy := by
  unfold pumpBranch
  split_ifs <;> exact ⟨rfl, rfl⟩

theorem blitBranch_exc (input : ByteStream) (inputPitch : Int) (w bpp base y h : Nat)
    (mRaw : RawImage) : NoRDE (blitBranch input inputPitch w bpp base y h mRaw).exc := by
  intro what
  unfold blitBranch
  cases hg : input.getData ((toU64 inputPitch * ((h + U64 - y) % U64)) % U64 % U32) with
  | error e =>
    obtain ⟨w1, rfl⟩ := getData_error _ _ _ hg
    simp
  | ok r =>
    obtain ⟨src, input1⟩ := r
    simp only
    split_ifs
    · simp
    · cases BitBlt src inputPitch (toInt32 ((w * bpp) % U64)) base
          (toInt32 ((h + U64 - y) % U64)).toNat y 0 mRaw.data <;> simp

theorem blitBranch_dim (input : ByteStream) (inputPitch : Int) (w bpp base y h : Nat)
    (mRaw : RawImage) :
    (blitBranch input inputPitch w bpp base y h mRaw).mRaw.dimx = mRaw.dimx ∧
    (blitBranch input inputPitch w bpp base y h mRaw).mRaw.dimy = mRaw.dimy := by
  unfold blitBranch
  cases hg : input.getData ((toU64 inputPitch * ((h + U64 - y) % U64)) % U64 % U32) with
  | error e => exact ⟨rfl, rfl⟩
  | ok r =>
    obtain ⟨src, input1⟩ := r
    simp only
    split_ifs
    · exact ⟨rfl, rfl⟩
    · cases BitBlt src inputPitch (toInt32 ((w * bpp) % U64)) base
          (toInt32 ((h + U64 - y) % U64)).toNat y 0 mRaw.data <;> exact ⟨rfl, rfl⟩

theorem fixedDecode_exc (perline : Nat) (total : Nat → Nat) (what : String)
    (rows : List Nat → Nat → Pixels → Option Pixels) (input : ByteStream) (h : Nat)
    (mRaw : RawImage) : NoRDE (fixedDecode perline total what rows input h mRaw).exc := by
  intro msg
  unfold fixedDecode
  cases hc : checkLines input.getRemainSize perline (total h) h what mRaw with
  | error e =>
    have := checkLines_error _ _ _ _ _ _ _ hc msg
    simpa using this
  | ok r =>
    obtain ⟨h1, m1⟩ := r
    simp only
    cases hg : input.getData (total h1) with
    | error e =>
      obtain ⟨w1, rfl⟩ := getData_error _ _ _ hg
      simp
    | ok r2 =>
      obtain ⟨inp, input1⟩ := r2
      simp only
      cases rows inp h1 m1.data <;> simp

theorem fixedDecode_dim (perline : Nat) (total : Nat → Nat) (what : String)
    (rows : List Nat → Nat → Pixels → Option Pixels) (input : ByteStream) (h : Nat)
    (mRaw : RawImage) :
    (fixedDecode perline total what rows input h mRaw).mRaw.dimx = mRaw.dimx ∧
    (fixedDecode perline total what rows input h mRaw).mRaw.dimy = mRaw.dimy := by
  unfold fixedDecode
  cases hc : checkLines input.getRemainSize perline (total h) h what mRaw with
  | error e => exact ⟨rfl, rfl⟩
  | ok r =>
    obtain ⟨h1, m1⟩ := r
    have hd := checkLines_ok _ _ _ _ _ _ _ _ hc
    simp only
    cases hg : input.getData (total h1) with
    | error e => exact hd
    | ok r2 =>
      obtain ⟨inp, input1⟩ := r2
      simp only
      cases rows inp h1 m1.data <;> exact hd

theorem Decode12BitRaw_exc (input : ByteStream) (w h : Nat) (mRaw : RawImage) :
    NoRDE (Decode12BitRaw input w h mRaw).exc := by
  unfold Decode12BitRaw
  split_ifs
  · intro what; simp
  · exact fixedDecode_exc _ _ _ _ _ _ _

theorem Decode12BitRaw_dim (input : ByteStream) (w h : Nat) (mRaw : RawImage) :
    (Decode12BitRaw input w h mRaw).mRaw.dimx = mRaw.dimx ∧
    (Decode12BitRaw input w h mRaw).mRaw.dimy = mRaw.dimy := by
  unfold Decode12BitRaw
  split_ifs
  · exact ⟨rfl, rfl⟩
  · exact fixedDecode_dim _ _ _ _ _ _ _

theorem checkPitch_error (remain : Nat) (inputPitch : Int) (h : Nat) (mRaw : RawImage)
    (e : Exc) (hc : checkPitch remain inputPitch h mRaw = .error e) :
    ∀ msg, e ≠ .RawDecoderException msg := by
  intro msg he
  unfold checkPitch at hc
  split_ifs at hc <;> cases hc <;> cases he

theorem checkPitch_ok (remain : Nat) (inputPitch : Int) (h : Nat) (mRaw : RawImage)
    (h1 : Nat) (m1 : RawImage) (hc : checkPitch remain inputPitch h mRaw = .ok (h1, m1)) :
    m1.dimx = mRaw.dimx ∧ m1.dimy = mRaw.dimy := by
  unfold checkPitch at hc
  split_ifs at hc
  · simp only [Except.ok.injEq, Prod.mk.injEq] at hc
    rw [← hc.2]
    exact ⟨rfl, rfl⟩
  · simp only [Except.ok.injEq, Prod.mk.injEq] at hc
    rw [← hc.2]
    exact ⟨rfl, rfl⟩

/-- The messages of the decode errors `readUncompressedRaw` can throw. -/
theorem readUncompressedRaw_rde (hostLittle : Bool) (input : ByteStream)
    (size offset : Int × Int) (inputPitch bitPerPixel : Int) (order : BitOrder)
    (mRaw : RawImage) (what : String)
    (h : (readUncompressedRaw hostLittle input size offset inputPitch bitPerPixel order
      mRaw).exc = some (.RawDecoderException what)) :
    what = unsupportedBitDepth ∨ what = invalidYOffset ∨ what = invalidXOffset
      ∨ what = onlyFloat32 := by
  unfold readUncompressedRaw at h
  simp only at h
  cases hc : checkPitch input.getRemainSize inputPitch (toU64 size.2) mRaw with
  | error e =>
    rw [hc] at h
    simp only [Option.some.injEq] at h
    exact absurd h (checkPitch_error _ _ _ _ _ hc what)
  | ok r =>
    obtain ⟨h0, m1⟩ := r
    rw [hc] at h
    simp only at h
    split_ifs at h
    all_goals first
      | (injection h with h; injection h with h; subst h; simp)
      | exact absurd h (blitBranch_exc _ _ _ _ _ _ _ _ what)
      | (cases order <;> first
          | exact absurd h (pumpBranch_exc _ _ _ _ _ _ _ _ _ _ what)
          | exact absurd h (blitBranch_exc _ _ _ _ _ _ _ _ what)
          | exact absurd h (Decode12BitRaw_exc _ _ _ _ what))

/-- The function `readUncompressedRaw` leaves the dimensions of the image alone. -/
theorem readUncompressedRaw_dim (hostLittle : Bool) (input : ByteStream)
    (size offset : Int × Int) (inputPitch bitPerPixel : Int) (order : BitOrder)
    (mRaw : RawImage) :
    (readUncompressedRaw hostLittle input size offset inputPitch bitPerPixel order
      mRaw).mRaw.dimx = mRaw.dimx ∧
    (readUncompressedRaw hostLittle input size offset inputPitch bitPerPixel order
      mRaw).mRaw.dimy = mRaw.dimy := by
  unfold readUncompressedRaw
  simp only
  cases hc : checkPitch input.getRemainSize inputPitch (toU64 size.2) mRaw with
  | error e => exact ⟨rfl, rfl⟩
  | ok r =>
    obtain ⟨h0, m1⟩ := r
    obtain ⟨hx, hy⟩ := checkPitch_ok _ _ _ _ _ _ hc
    simp only
    split_ifs
    all_goals first
      | exact ⟨hx, hy⟩
      | exact ⟨(blitBranch_dim _ _ _ _ _ _ _ _).1.trans hx,
          (blitBranch_dim _ _ _ _ _ _ _ _).2.trans hy⟩
      | (cases order <;> first
          | exact ⟨(pumpBranch_dim _ _ _ _ _ _ _ _ _ _).1.trans hx,
              (pumpBranch_dim _ _ _ _ _ _ _ _ _ _).2.trans hy⟩
          | exact ⟨(blitBranch_dim _ _ _ _ _ _ _ _).1.trans hx,
              (blitBranch_dim _ _ _ _ _ _ _ _).2.trans hy⟩
          | exact ⟨(Decode12BitRaw_dim _ _ _ _).1.trans hx,
              (Decode12BitRaw_dim _ _ _ _).2.trans hy⟩)

/-! ## The two loops of `decodeUncompressed` -/

theorem collectSlices_fst (mFile : FileMap) (yPerSlice height : Nat) :
    ∀ (strips : List (Nat × Nat)) (offY : Nat) (acc : List RawSlice),
      (collectSlices mFile yPerSlice height strips offY acc).1.map (fun s => (s.offset, s.count))
        = acc.map (fun s => (s.offset, s.count))
          ++ strips.filter (fun p => mFile.isValid p.1 p.2) := by
  intro strips
  induction strips with
  | nil => intro offY acc; simp [collectSlices]
  | cons p rest ih =>
    intro offY acc
    obtain ⟨offset, count⟩ := p
    unfold collectSlices
    rw [ih]
    by_cases hv : mFile.isValid offset count = true
    · simp [hv]
    · simp [hv]

theorem collectSlices_snd (mFile : FileMap) (yPerSlice height : Nat) :
    ∀ (strips : List (Nat × Nat)) (offY : Nat) (acc : List RawSlice), offY < U32 →
      (collectSlices mFile yPerSlice height strips offY acc).2
        = (offY + strips.length * yPerSlice) % U32 := by
  intro strips
  induction strips with
  | nil =>
    intro offY acc h
    simp only [collectSlices, List.length_nil, Nat.zero_mul, Nat.add_zero]
    exact (Nat.mod_eq_of_lt h).symm
  | cons p rest ih =>
    intro offY acc h
    obtain ⟨offset, count⟩ := p
    unfold collectSlices
    rw [ih _ _ (Nat.mod_lt _ (by decide))]
    simp only [List.length_cons]
    have e : offY + (rest.length + 1) * yPerSlice = offY + yPerSlice + rest.length * yPerSlice := by
      ring
    rw [e, Nat.add_mod ((offY + yPerSlice) % U32), Nat.mod_mod, ← Nat.add_mod]

theorem collectSlices_valid (mFile : FileMap) (yPerSlice height : Nat) :
    ∀ (strips : List (Nat × Nat)) (offY : Nat) (acc : List RawSlice),
      (∀ s ∈ acc, mFile.isValid s.offset s.count = true) →
      ∀ s ∈ (collectSlices mFile yPerSlice height strips offY acc).1,
        mFile.isValid s.offset s.count = true := by
  intro strips
  induction strips with
  | nil => intro offY acc h; simpa [collectSlices] using h
  | cons p rest ih =>
    intro offY acc h
    obtain ⟨offset, count⟩ := p
    unfold collectSlices
    apply ih
    by_cases hv : mFile.isValid offset count = true
    · rw [if_pos hv]
      intro s hs
      rcases List.mem_append.mp hs with h1 | h1
      · exact h s h1
      · rw [List.mem_singleton] at h1
        rw [h1]
        exact hv
    · rw [if_neg hv]
      exact h

theorem collectSlices_empty_iff (mFile : FileMap) (yPerSlice height : Nat)
    (strips : List (Nat × Nat)) :
    (collectSlices mFile yPerSlice height strips 0 []).1.length = 0
      ↔ ∀ p ∈ strips, mFile.isValid p.1 p.2 = false := by
  have h := collectSlices_fst mFile yPerSlice height strips 0 []
  simp only [List.map_nil, List.nil_append] at h
  constructor
  · intro h0
    have h1 : (collectSlices mFile yPerSlice height strips 0 []).1 = [] :=
      List.length_eq_zero.mp h0
    rw [h1] at h
    have h2 : strips.filter (fun p => mFile.isValid p.1 p.2) = [] := by
      simpa using h.symm
    intro p hp
    have := (List.filter_eq_nil_iff.mp h2) p hp
    simpa using this
  · intro hall
    have h2 : strips.filter (fun p => mFile.isValid p.1 p.2) = [] := by
      apply List.filter_eq_nil_iff.mpr
      intro p hp
      simp [hall p hp]
    rw [h2] at h
    have := congrArg List.length h
    simpa using this

theorem decodeSlices_dim (hostLittle : Bool) (mFile : FileMap) (width : Nat)
    (order : BitOrder) :
    ∀ (l : List RawSlice) (i offY : Nat) (mRaw : RawImage),
      (decodeSlices hostLittle mFile width order l i offY mRaw).mRaw.dimx = mRaw.dimx ∧
      (decodeSlices hostLittle mFile width order l i offY mRaw).mRaw.dimy = mRaw.dimy := by
  intro l
  induction l with
  | nil => intro i offY mRaw; exact ⟨rfl, rfl⟩
  | cons slice rest ih =>
    intro i offY mRaw
    have hr : (readSlice hostLittle mFile width order slice offY mRaw).mRaw.dimx = mRaw.dimx ∧
        (readSlice hostLittle mFile width order slice offY mRaw).mRaw.dimy = mRaw.dimy :=
      readUncompressedRaw_dim _ _ _ _ _ _ _ _
    unfold decodeSlices
    split_ifs <;> try split
    all_goals first
      | exact ⟨rfl, rfl⟩
      | exact hr
      | exact ⟨(ih _ _ _).1.trans hr.1, (ih _ _ _).2.trans hr.2⟩

/-- A decode error leaves the second loop only from the first slice, and then it is
one of the four of `readUncompressedRaw` or the re-raised `IOException`. -/
theorem decodeSlices_rde (hostLittle : Bool) (mFile : FileMap) (width : Nat)
    (order : BitOrder) (what : String) :
    ∀ (l : List RawSlice) (i offY : Nat) (mRaw : RawImage),
      (decodeSlices hostLittle mFile width order l i offY mRaw).exc
        = some (.RawDecoderException what) →
      i = 0 ∧ (what = unsupportedBitDepth ∨ what = invalidYOffset ∨ what = invalidXOffset
        ∨ what = onlyFloat32 ∨ ∃ w, what = ioInFirstSlice ++ w) := by
  intro l
  induction l with
  | nil => intro i offY mRaw h; simp [decodeSlices] at h
  | cons slice rest ih =>
    intro i offY mRaw h
    unfold decodeSlices at h
    split_ifs at h <;> try split at h
    all_goals first
      | exact absurd (ih _ _ _ h).1 (by omega)
      | (exfalso; simp at h; done)
      | (rename_i msg hexc
         refine ⟨by omega, ?_⟩
         simp only [Option.some.injEq, Exc.RawDecoderException.injEq] at h
         first
           | exact Or.inr (Or.inr (Or.inr (Or.inr ⟨msg, h.symm⟩)))
           | (subst h
              rcases readUncompressedRaw_rde _ _ _ _ _ _ _ _ _ hexc with h4 | h4 | h4 | h4
              · exact Or.inl h4
              · exact Or.inr (Or.inl h4)
              · exact Or.inr (Or.inr (Or.inl h4))
              · exact Or.inr (Or.inr (Or.inr (Or.inl h4)))))

theorem noValidSlices_ne_ioInFirstSlice (w : String) : noValidSlices ≠ ioInFirstSlice ++ w := by
  intro h
  have h1 := congrArg (fun t => t.data.take 5) h
  simp only [String.data_append] at h1
  revert h1
  unfold noValidSlices ioInFirstSlice
  simp [List.take_append_eq_append_take]

/-- C6: the slices `decodeUncompressed` keeps are exactly the strips for which
`isValid(offset, count)` holds, in their original order; it fails with the decode
error `noValidSlices` (whose text contains "No valid slices found") if and only if no
strip is valid; when every strip is dropped, nothing is recorded in the image; and
when some strip is kept, the run is the second loop over the kept slices alone, the
dropped strips counting only in the height of the allocation. -/
theorem decodeUncompressed_keeps_valid (hostLittle : Bool) (mFile : FileMap)
    (strips : List (Nat × Nat)) (yPerSlice width height bitPerPixel : Nat)
    (order : BitOrder) (mRaw : RawImage) :
    (collectSlices mFile yPerSlice height strips 0 []).1.map (fun s => (s.offset, s.count))
      = strips.filter (fun p => mFile.isValid p.1 p.2) ∧
    ((decodeUncompressed hostLittle mFile strips yPerSlice width height bitPerPixel order
        mRaw).exc = some (.RawDecoderException noValidSlices)
      ↔ ∀ p ∈ strips, mFile.isValid p.1 p.2 = false) ∧
    ((∀ p ∈ strips, mFile.isValid p.1 p.2 = false) →
      (decodeUncompressed hostLittle mFile strips yPerSlice width height bitPerPixel order
        mRaw).mRaw = mRaw) ∧
    ((∃ p ∈ strips, mFile.isValid p.1 p.2 = true) → bitPerPixel < 31 →
      decodeUncompressed hostLittle mFile strips yPerSlice width height bitPerPixel order mRaw
        = decodeSlices hostLittle mFile width order
            (collectSlices mFile yPerSlice height strips 0 []).1 0 0
            (allocated mRaw width ((strips.length * yPerSlice) % U32) bitPerPixel)) ∧
    (∃ head tail, noValidSlices = head ++ "No valid slices found" ++ tail) := by
  have hemp := collectSlices_empty_iff mFile yPerSlice height strips
  refine ⟨by simpa using collectSlices_fst mFile yPerSlice height strips 0 [], ⟨?_, ?_⟩, ?_, ?_,
    ⟨"RAW Decoder: ", ". File probably truncated.", by decide⟩⟩
  · intro h
    by_contra hne
    have hlen : ¬ (collectSlices mFile yPerSlice height strips 0 []).1.length = 0 :=
      fun h0 => hne (hemp.mp h0)
    unfold decodeUncompressed at h
    simp only [if_neg hlen] at h
    split_ifs at h
    · simp at h
    · rcases (decodeSlices_rde _ _ _ _ _ _ _ _ _ h).2 with h1 | h1 | h1 | h1 | ⟨w, h1⟩
      · exact absurd h1 (by decide)
      · exact absurd h1 (by decide)
      · exact absurd h1 (by decide)
      · exact absurd h1 (by decide)
      · exact noValidSlices_ne_ioInFirstSlice w h1
  · intro hall
    unfold decodeUncompressed
    simp only [if_pos (hemp.mpr hall)]
  · intro hall
    unfold decodeUncompressed
    simp only [if_pos (hemp.mpr hall)]
  · intro hsome hbpp
    have hlen : ¬ (collectSlices mFile yPerSlice height strips 0 []).1.length = 0 := by
      intro h0
      obtain ⟨p, hp, hv⟩ := hsome
      have := hemp.mp h0 p hp
      rw [hv] at this
      cases this
    have hoff := collectSlices_snd mFile yPerSlice height strips 0 [] (by decide)
    rw [Nat.zero_add] at hoff
    unfold decodeUncompressed
    simp only [if_neg hlen, if_neg (Nat.not_le.mpr hbpp), hoff]

/-- C7, as stated, fails: for a two-byte file and the strip table `(0,2), (2,2)` with
`yPerSlice = 1`, `width = 1`, `height = 2`, only the first strip is valid and its row
count is 1, yet `decodeUncompressed` (which returns normally) has allocated the
image 2 rows high. -/
theorem decodeUncompressed_height_differs :
    ((collectSlices ⟨[0x34, 0x12]⟩ 1 2 [(0, 2), (2, 2)] 0 []).1.map (fun s => s.h)).sum = 1 ∧
    (decodeUncompressed true ⟨[0x34, 0x12]⟩ [(0, 2), (2, 2)] 1 1 2 16 .BitOrder_Plain
      blankImage).exc = none ∧
    (decodeUncompressed true ⟨[0x34, 0x12]⟩ [(0, 2), (2, 2)] 1 1 2 16 .BitOrder_Plain
      blankImage).mRaw.dimy = 2 := by
  decide

/-- The dimensions `decodeUncompressed` gives the image whenever at least one strip is
valid: the declared width and the running `offY` of the first loop,
`nslices * yPerSlice` in 32 bits; they stay so to the end, however the decoding of the
slices goes. -/
theorem decodeUncompressed_dim (hostLittle : Bool) (mFile : FileMap)
    (strips : List (Nat × Nat)) (yPerSlice width height bitPerPixel : Nat)
    (order : BitOrder) (mRaw : RawImage)
    (hvalid : ∃ p ∈ strips, mFile.isValid p.1 p.2 = true) :
    (decodeUncompressed hostLittle mFile strips yPerSlice width height bitPerPixel order
      mRaw).mRaw.dimx = toInt32 width ∧
    (decodeUncompressed hostLittle mFile strips yPerSlice width height bitPerPixel order
      mRaw).mRaw.dimy = toInt32 ((strips.length * yPerSlice) % U32) := by
  have hlen : ¬ (collectSlices mFile yPerSlice height strips 0 []).1.length = 0 := by
    intro h0
    obtain ⟨p, hp, hv⟩ := hvalid
    have := (collectSlices_empty_iff mFile yPerSlice height strips).mp h0 p hp
    rw [hv] at this
    cases this
  have hoff := collectSlices_snd mFile yPerSlice height strips 0 [] (by decide)
  rw [Nat.zero_add] at hoff
  unfold decodeUncompressed
  simp only [if_neg hlen]
  split_ifs
  · exact ⟨rfl, by rw [← hoff]; rfl⟩
  · refine ⟨(decodeSlices_dim _ _ _ _ _ _ _ _).1, ?_⟩
    rw [← hoff]
    exact (decodeSlices_dim _ _ _ _ _ _ _ _).2

theorem collectSlices_rows (mFile : FileMap) (yPerSlice height : Nat) (hheight : height < U32) :
    ∀ (strips : List (Nat × Nat)) (offY : Nat) (acc : List RawSlice),
      offY + strips.length * yPerSlice ≤ height →
      (∀ s ∈ acc, s.h = yPerSlice) →
      ∀ s ∈ (collectSlices mFile yPerSlice height strips offY acc).1, s.h = yPerSlice := by
  intro strips
  induction strips with
  | nil =>
    intro offY acc _ hacc
    exact hacc
  | cons p rest ih =>
    intro offY acc hfit hacc
    obtain ⟨offset, count⟩ := p
    have hlen : (((offset, count) :: rest).length) * yPerSlice
        = rest.length * yPerSlice + yPerSlice := by
      rw [List.length_cons, Nat.succ_mul]
    rw [hlen] at hfit
    have hmod : (offY + yPerSlice) % U32 = offY + yPerSlice := Nat.mod_eq_of_lt (by omega)
    unfold collectSlices
    rw [hmod, if_neg (show ¬ offY + yPerSlice > height by omega)]
    refine ih (offY + yPerSlice) _ (by omega) ?_
    split_ifs with hv
    · intro s hs
      rcases List.mem_append.mp hs with h1 | h1
      · exact hacc s h1
      · rw [List.mem_singleton] at h1
        rw [h1]
    · exact hacc

theorem sum_rows_const (l : List RawSlice) (q : Nat) (hl : ∀ s ∈ l, s.h = q) :
    (l.map (fun s => s.h)).sum = l.length * q := by
  induction l with
  | nil => simp
  | cons a t ih =>
    have ha : a.h = q := hl a (List.mem_cons_self _ _)
    have ht := ih (fun s hs => hl s (List.mem_cons_of_mem _ hs))
    simp only [List.map_cons, List.sum_cons, List.length_cons]
    rw [ht, ha, Nat.succ_mul, Nat.add_comm]

/-- C7, amended: for every strip table that stays within the declared height
(`nslices * yPerSlice <= height < 2^32`) and has at least one valid strip,
`decodeUncompressed` allocates the image with width equal to the declared image width
and height equal to the sum of the row counts `slice.h` of the valid slices plus
`yPerSlice` for every strip that is not valid (every strip, valid or not, counts for
its `yPerSlice` rows, `nslices * yPerSlice` in all); the dimensions stay so to the
end, however the decoding of the slices goes. -/
theorem decodeUncompressed_dim_counts_invalid (hostLittle : Bool) (mFile : FileMap)
    (strips : List (Nat × Nat)) (yPerSlice width height bitPerPixel : Nat)
    (order : BitOrder) (mRaw : RawImage)
    (hvalid : ∃ p ∈ strips, mFile.isValid p.1 p.2 = true)
    (hfit : strips.length * yPerSlice ≤ height) (hheight : height < U32) :
    (decodeUncompressed hostLittle mFile strips yPerSlice width height bitPerPixel order
      mRaw).mRaw.dimx = toInt32 width ∧
    (∀ s ∈ (collectSlices mFile yPerSlice height strips 0 []).1, s.h = yPerSlice) ∧
    (decodeUncompressed hostLittle mFile strips yPerSlice width height bitPerPixel order
      mRaw).mRaw.dimy
      = toInt32 (((collectSlices mFile yPerSlice height strips 0 []).1.map (fun s => s.h)).sum
          + (strips.filter (fun p => !mFile.isValid p.1 p.2)).length * yPerSlice) ∧
    (decodeUncompressed hostLittle mFile strips yPerSlice width height bitPerPixel order
      mRaw).mRaw.dimy = toInt32 (strips.length * yPerSlice) := by
  have hdim := decodeUncompressed_dim hostLittle mFile strips yPerSlice width height
    bitPerPixel order mRaw hvalid
  have hmod : (strips.length * yPerSlice) % U32 = strips.length * yPerSlice :=
    Nat.mod_eq_of_lt (by omega)
  rw [hmod] at hdim
  have hrows := collectSlices_rows mFile yPerSlice height hheight strips 0 []
    (by omega) (fun s hs => absurd hs (List.not_mem_nil s))
  have hsum := sum_rows_const _ yPerSlice hrows
  have hkept : (collectSlices mFile yPerSlice height strips 0 []).1.length
      = (strips.filter (fun p => mFile.isValid p.1 p.2)).length := by
    have h := congrArg List.length (collectSlices_fst mFile yPerSlice height strips 0 [])
    simpa using h
  have hpart := List.length_eq_length_filter_add (l := strips)
    (fun p => mFile.isValid p.1 p.2)
  refine ⟨hdim.1, hrows, ?_, hdim.2⟩
  rw [hdim.2, hsum, hkept, ← Nat.add_mul, ← hpart]

/-- Witness of C7, amended, on the strip table of the counterexample: one valid
strip of one row and one strip that is not valid give two rows. -/
theorem decodeUncompressed_dim_counts_invalid_witness :
    ((∃ p ∈ [(0, 2), (2, 2)], FileMap.isValid ⟨[0x34, 0x12]⟩ p.1 p.2 = true) ∧
      [(0, 2), (2, 2)].length * 1 ≤ 2 ∧ 2 < U32) ∧
    (decodeUncompressed true ⟨[0x34, 0x12]⟩ [(0, 2), (2, 2)] 1 1 2 16 .BitOrder_Plain
      blankImage).mRaw.dimy
      = toInt32 (((collectSlices ⟨[0x34, 0x12]⟩ 1 2 [(0, 2), (2, 2)] 0 []).1.map
            (fun s => s.h)).sum
          + ([(0, 2), (2, 2)].filter
              (fun p => !FileMap.isValid ⟨[0x34, 0x12]⟩ p.1 p.2)).length * 1) :=
  ⟨by decide,
   (decodeUncompressed_dim_counts_invalid true ⟨[0x34, 0x12]⟩ [(0, 2), (2, 2)] 1 1 2 16
      .BitOrder_Plain blankImage (by decide) (by decide) (by decide)).2.2.1⟩

theorem rowsOf_lt (l : List RawSlice) : rowsOf l < U32 := Nat.mod_lt _ (by decide)

theorem rowsOf_snoc (l : List RawSlice) (s : RawSlice) :
    rowsOf (l ++ [s]) = (rowsOf l + s.h) % U32 := by
  unfold rowsOf
  simp only [List.map_append, List.sum_append, List.map_cons, List.map_nil, List.sum_cons,
    List.sum_nil, Nat.add_zero]
  rw [Nat.add_mod ((l.map fun s => s.h).sum % U32), Nat.mod_mod, ← Nat.add_mod]

theorem rowsOf_cons_step (off : Nat) (s : RawSlice) (l : List RawSlice) :
    ((off + s.h) % U32 + (l.map fun t => t.h).sum) % U32
      = (off + ((s :: l).map fun t => t.h).sum) % U32 := by
  simp only [List.map_cons, List.sum_cons]
  rw [Nat.add_mod ((off + s.h) % U32), Nat.mod_mod, ← Nat.add_mod, Nat.add_assoc]

/-- The second loop over a list `a ++ b`, when no exception leaves it within `a`, goes
on over `b` with the index advanced by the length of `a` and the row offset by the
row counts of `a`. -/
theorem decodeSlices_append (hostLittle : Bool) (mFile : FileMap) (width : Nat)
    (order : BitOrder) (b : List RawSlice) :
    ∀ (a : List RawSlice) (i off : Nat) (m m1 : RawImage), off < U32 →
      decodeSlices hostLittle mFile width order a i off m = ⟨none, m1⟩ →
      decodeSlices hostLittle mFile width order (a ++ b) i off m
        = decodeSlices hostLittle mFile width order b (i + a.length)
            ((off + (a.map fun t => t.h).sum) % U32) m1 := by
  intro a
  induction a with
  | nil =>
    intro i off m m1 hoff h
    simp only [decodeSlices, Result.mk.injEq, true_and] at h
    simp only [List.nil_append, List.length_nil, Nat.add_zero, List.map_nil, List.sum_nil,
      Nat.mod_eq_of_lt hoff, h]
  | cons s a ih =>
    intro i off m m1 hoff h
    have hstep := ih (i + 1) ((off + s.h) % U32)
    have hidx : i + 1 + a.length = i + (s :: a).length := by
      simp only [List.length_cons]; omega
    rw [List.cons_append]
    rw [decodeSlices] at h ⊢
    by_cases h1 : mFile.isValid s.offset s.count = false
    · rw [if_pos h1] at h
      simp at h
    · rw [if_neg h1] at h ⊢
      by_cases h2 : (s.h * width) % U32 = 0
      · rw [if_pos h2] at h
        simp at h
      · rw [if_neg h2] at h ⊢
        cases hexc : (readSlice hostLittle mFile width order s off m).exc with
        | none =>
          rw [hexc] at h
          simp only at h ⊢
          rw [hstep _ _ (Nat.mod_lt _ (by decide)) h, hidx, rowsOf_cons_step]
        | some e =>
          rw [hexc] at h
          cases e with
          | IOException w =>
            simp only at h ⊢
            by_cases h3 : i > 0
            · rw [if_pos h3] at h ⊢
              rw [hstep _ _ (Nat.mod_lt _ (by decide)) h, hidx, rowsOf_cons_step]
            · rw [if_neg h3] at h
              simp at h
          | RawDecoderException w =>
            simp only at h ⊢
            by_cases h3 : i > 0
            · rw [if_pos h3] at h ⊢
              rw [hstep _ _ (Nat.mod_lt _ (by decide)) h, hidx, rowsOf_cons_step]
            · rw [if_neg h3] at h
              simp at h
          | Fault w =>
            simp at h

/-- From the second slice on, over slices that lie inside the file, no C++ exception
leaves the second loop. -/
theorem decodeSlices_later (hostLittle : Bool) (mFile : FileMap) (width : Nat)
    (order : BitOrder) :
    ∀ (l : List RawSlice) (i off : Nat) (m : RawImage), 0 < i →
      (∀ t ∈ l, mFile.isValid t.offset t.count = true) →
      (decodeSlices hostLittle mFile width order l i off m).exc = none ∨
      ∃ w, (decodeSlices hostLittle mFile width order l i off m).exc = some (.Fault w) := by
  intro l
  induction l with
  | nil => intro i off m _ _; exact Or.inl rfl
  | cons s l ih =>
    intro i off m hi hv
    have hs : mFile.isValid s.offset s.count = true := hv s (List.mem_cons_self _ _)
    have hl : ∀ t ∈ l, mFile.isValid t.offset t.count = true :=
      fun t ht => hv t (List.mem_cons_of_mem _ ht)
    rw [decodeSlices]
    rw [if_neg (by rw [hs]; decide)]
    by_cases h2 : (s.h * width) % U32 = 0
    · rw [if_pos h2]
      exact Or.inr ⟨_, rfl⟩
    · rw [if_neg h2]
      cases hexc : (readSlice hostLittle mFile width order s off m).exc with
      | none => exact ih _ _ _ (by omega) hl
      | some e =>
        cases e with
        | IOException w =>
          simp only
          rw [if_pos hi]
          exact ih _ _ _ (by omega) hl
        | RawDecoderException w =>
          simp only
          rw [if_pos hi]
          exact ih _ _ _ (by omega) hl
        | Fault w => exact Or.inr ⟨w, rfl⟩

theorem rowsOf_append (a b : List RawSlice) :
    rowsOf (a ++ b) = (rowsOf a + (b.map fun t => t.h).sum) % U32 := by
  unfold rowsOf
  simp only [List.map_append, List.sum_append]
  rw [Nat.add_mod ((a.map fun s => s.h).sum % U32), Nat.mod_mod, ← Nat.add_mod]

theorem result_eta (r : Result) (h : r.exc = none) : r = ⟨none, r.mRaw⟩ := by
  cases r
  simp only at h
  rw [h]

/-- The second loop after a failing slice, as far as the later slices stay within
defined behaviour: let `pre ++ s :: post` be the (valid) slices `decodeUncompressed` keeps, let
the loop over `pre` leave no exception and the image `m1`, and let
`readUncompressedRaw` on slice `s` (called at row offset `rowsOf pre`, the sum of the
row counts before it) fail with a decode error or an IO error of message `what`.
* If `s` is not the first slice, `decodeUncompressed` appends exactly the one message
  `what` to the error list left by that call and goes on with the later slices: the
  slice after `s` is decoded at row offset `rowsOf (pre ++ [s])`, and each later
  slice `t`, `post = post1 ++ t :: post2`, at `rowsOf (pre ++ s :: post1)` once the
  loop has passed `post1`; no C++ exception leaves `decodeUncompressed` (it returns
  normally unless a later slice leaves defined behaviour).
* If `s` is the first slice, `decodeUncompressed` fails with a decode error, `what`
  itself for a decode error and `ioInFirstSlice ++ what` for an IO error, and the image
  is the one that call left: no later slice is decoded. -/
theorem decodeUncompressed_slice_failure (hostLittle : Bool) (mFile : FileMap)
    (strips : List (Nat × Nat)) (yPerSlice width height bitPerPixel : Nat)
    (order : BitOrder) (mRaw : RawImage)
    (pre post : List RawSlice) (s : RawSlice) (m1 : RawImage) (what : String)
    (hbpp : bitPerPixel < 31)
    (hkept : (collectSlices mFile yPerSlice height strips 0 []).1 = pre ++ s :: post)
    (hpre : decodeSlices hostLittle mFile width order pre 0 0
        (allocated mRaw width (collectSlices mFile yPerSlice height strips 0 []).2 bitPerPixel)
      = ⟨none, m1⟩)
    (hdiv : (s.h * width) % U32 ≠ 0)
    (hfail : (readSlice hostLittle mFile width order s (rowsOf pre) m1).exc
        = some (.RawDecoderException what) ∨
      (readSlice hostLittle mFile width order s (rowsOf pre) m1).exc
        = some (.IOException what)) :
    (pre ≠ [] →
      decodeUncompressed hostLittle mFile strips yPerSlice width height bitPerPixel order mRaw
        = decodeSlices hostLittle mFile width order post (pre.length + 1) (rowsOf (pre ++ [s]))
            ((readSlice hostLittle mFile width order s (rowsOf pre) m1).mRaw.setError what) ∧
      ((readSlice hostLittle mFile width order s (rowsOf pre) m1).mRaw.setError what).errors
        = (readSlice hostLittle mFile width order s (rowsOf pre) m1).mRaw.errors ++ [what] ∧
      (∀ (post1 post2 : List RawSlice) (t : RawSlice) (m2 : RawImage),
        post = post1 ++ t :: post2 →
        decodeSlices hostLittle mFile width order post1 (pre.length + 1) (rowsOf (pre ++ [s]))
            ((readSlice hostLittle mFile width order s (rowsOf pre) m1).mRaw.setError what)
          = ⟨none, m2⟩ →
        decodeUncompressed hostLittle mFile strips yPerSlice width height bitPerPixel order mRaw
          = decodeSlices hostLittle mFile width order (t :: post2)
              (pre.length + 1 + post1.length) (rowsOf (pre ++ s :: post1)) m2) ∧
      ((decodeUncompressed hostLittle mFile strips yPerSlice width height bitPerPixel order
          mRaw).exc = none ∨
        ∃ w, (decodeUncompressed hostLittle mFile strips yPerSlice width height bitPerPixel
          order mRaw).exc = some (.Fault w))) ∧
    (pre = [] →
      (decodeUncompressed hostLittle mFile strips yPerSlice width height bitPerPixel order
        mRaw).mRaw = (readSlice hostLittle mFile width order s (rowsOf pre) m1).mRaw ∧
      ((readSlice hostLittle mFile width order s (rowsOf pre) m1).exc
          = some (.RawDecoderException what) →
        (decodeUncompressed hostLittle mFile strips yPerSlice width height bitPerPixel order
          mRaw).exc = some (.RawDecoderException what)) ∧
      ((readSlice hostLittle mFile width order s (rowsOf pre) m1).exc
          = some (.IOException what) →
        (decodeUncompressed hostLittle mFile strips yPerSlice width height bitPerPixel order
          mRaw).exc = some (.RawDecoderException (ioInFirstSlice ++ what)))) := by
  have hvalid := collectSlices_valid mFile yPerSlice height strips 0 []
    (fun t ht => absurd ht (List.not_mem_nil t))
  rw [hkept] at hvalid
  have hs : mFile.isValid s.offset s.count = true :=
    hvalid s (List.mem_append_right _ (List.mem_cons_self _ _))
  have hpost : ∀ t ∈ post, mFile.isValid t.offset t.count = true :=
    fun t ht => hvalid t (List.mem_append_right _ (List.mem_cons_of_mem _ ht))
  have hlen : ¬ (pre ++ s :: post).length = 0 := by simp
  have hrun : decodeUncompressed hostLittle mFile strips yPerSlice width height bitPerPixel
      order mRaw = decodeSlices hostLittle mFile width order (s :: post) pre.length
        (rowsOf pre) m1 := by
    unfold decodeUncompressed
    simp only [hkept, if_neg hlen, if_neg (Nat.not_le.mpr hbpp)]
    rw [decodeSlices_append _ _ _ _ _ _ _ _ _ _ (by decide) hpre]
    simp only [Nat.zero_add]
    rfl
  have hstep : decodeSlices hostLittle mFile width order (s :: post) pre.length
      (rowsOf pre) m1 =
      match (readSlice hostLittle mFile width order s (rowsOf pre) m1).exc with
      | none =>
        decodeSlices hostLittle mFile width order post (pre.length + 1)
          ((rowsOf pre + s.h) % U32)
          (readSlice hostLittle mFile width order s (rowsOf pre) m1).mRaw
      | some (.RawDecoderException what) =>
        if pre.length > 0 then
          decodeSlices hostLittle mFile width order post (pre.length + 1)
            ((rowsOf pre + s.h) % U32)
            ((readSlice hostLittle mFile width order s (rowsOf pre) m1).mRaw.setError what)
        else
          ⟨some (.RawDecoderException what),
            (readSlice hostLittle mFile width order s (rowsOf pre) m1).mRaw⟩
      | some (.IOException what) =>
        if pre.length > 0 then
          decodeSlices hostLittle mFile width order post (pre.length + 1)
            ((rowsOf pre + s.h) % U32)
            ((readSlice hostLittle mFile width order s (rowsOf pre) m1).mRaw.setError what)
        else
          ⟨some (.RawDecoderException (ioInFirstSlice ++ what)),
            (readSlice hostLittle mFile width order s (rowsOf pre) m1).mRaw⟩
      | some (.Fault what) =>
        ⟨some (.Fault what), (readSlice hostLittle mFile width order s (rowsOf pre) m1).mRaw⟩ := by
    rw [decodeSlices, if_neg (by rw [hs]; decide), if_neg hdiv]
  constructor
  · intro hne
    have hpos : pre.length > 0 := List.length_pos.mpr hne
    have hgo : decodeUncompressed hostLittle mFile strips yPerSlice width height bitPerPixel
        order mRaw = decodeSlices hostLittle mFile width order post (pre.length + 1)
          (rowsOf (pre ++ [s]))
          ((readSlice hostLittle mFile width order s (rowsOf pre) m1).mRaw.setError what) := by
      rw [hrun, hstep, rowsOf_snoc]
      rcases hfail with hf | hf
      · rw [hf]
        simp only [if_pos hpos]
      · rw [hf]
        simp only [if_pos hpos]
    refine ⟨hgo, rfl, ?_, ?_⟩
    · intro post1 post2 t m2 hsplit hrun1
      rw [hgo, hsplit, decodeSlices_append _ _ _ _ _ _ _ _ _ _ (rowsOf_lt _) hrun1]
      have e : pre ++ s :: post1 = (pre ++ [s]) ++ post1 := by simp
      rw [e, rowsOf_append (pre ++ [s]) post1]
    · rw [hgo]
      exact decodeSlices_later _ _ _ _ _ _ _ _ (by omega) hpost
  · intro hnil
    have hzero : ¬ pre.length > 0 := by rw [hnil]; simp
    rw [hrun, hstep]
    refine ⟨?_, ?_, ?_⟩
    · rcases hfail with hf | hf
      · rw [hf]
        simp only [if_neg hzero]
      · rw [hf]
        simp only [if_neg hzero]
    · intro hf
      rw [hf]
      simp only [if_neg hzero]
    · intro hf
      rw [hf]
      simp only [if_neg hzero]

/-- An instance of `decodeUncompressed_slice_failure`: on `twoStripFile` the second
slice fails with "Unsupported bit depth"; the failure is recorded and the loop ends
normally. -/
theorem decodeUncompressed_slice_failure_witness :
    (16 < 31 ∧
      (collectSlices twoStripFile 1 2 [(0, 2), (2, 4)] 0 []).1 = [⟨1, 0, 2⟩] ++ ⟨1, 2, 4⟩ :: [] ∧
      (decodeSlices false twoStripFile 1 .BitOrder_Jpeg [⟨1, 0, 2⟩] 0 0
        (allocated blankImage 1 (collectSlices twoStripFile 1 2 [(0, 2), (2, 4)] 0 []).2 16)).exc
        = none ∧
      (1 * 1) % U32 ≠ 0 ∧
      (readSlice false twoStripFile 1 .BitOrder_Jpeg ⟨1, 2, 4⟩ (rowsOf [⟨1, 0, 2⟩])
        afterFirstStrip).exc = some (.RawDecoderException unsupportedBitDepth) ∧
      [(⟨1, 0, 2⟩ : RawSlice)] ≠ []) ∧
    decodeUncompressed false twoStripFile [(0, 2), (2, 4)] 1 1 2 16 .BitOrder_Jpeg blankImage
      = decodeSlices false twoStripFile 1 .BitOrder_Jpeg [] ([(⟨1, 0, 2⟩ : RawSlice)].length + 1)
          (rowsOf ([⟨1, 0, 2⟩] ++ [⟨1, 2, 4⟩]))
          ((readSlice false twoStripFile 1 .BitOrder_Jpeg ⟨1, 2, 4⟩ (rowsOf [⟨1, 0, 2⟩])
            afterFirstStrip).mRaw.setError unsupportedBitDepth) :=
  ⟨by decide,
   ((decodeUncompressed_slice_failure false twoStripFile [(0, 2), (2, 4)] 1 1 2 16
      .BitOrder_Jpeg blankImage [⟨1, 0, 2⟩] [] ⟨1, 2, 4⟩ afterFirstStrip unsupportedBitDepth
      (by decide) (by decide) (result_eta _ (by decide)) (by decide)
      (Or.inl (by decide))).1 (by decide)).1⟩

/-- C8 on a concrete strip table.  The file holds the 7 bytes `34 12 01 02 03 04 56`
and the three valid strips `(0,2), (2,4), (6,1)`, with `yPerSlice = 1`, `width = 1`,
16 bits per sample declared.  The slice at index 1 comes out at 32 bits per pixel
and `readUncompressedRaw` fails on it with "Unsupported bit depth".
(1) With `height = 3` the message is appended (exactly one error), the slice at
index 2 is still decoded, at row offset 2 (the sample `56`), and
`decodeUncompressed` returns normally.
(2) With `height = 2` the slice at index 2 has `slice.h = 0`: the message is appended,
then the division `slice.count*8 / (slice.h*width)` for the later slice, which is
outside the `try` block, divides by zero; the slice is not decoded and
`decodeUncompressed` does not return normally. -/
theorem decodeUncompressed_later_slice_zero_rows :
    ([(0, 2), (2, 4), (6, 1)].map
        (fun p => FileMap.isValid ⟨[0x34, 0x12, 1, 2, 3, 4, 0x56]⟩ p.1 p.2)
      = [true, true, true]) ∧
    ((collectSlices ⟨[0x34, 0x12, 1, 2, 3, 4, 0x56]⟩ 1 3 [(0, 2), (2, 4), (6, 1)] 0 []).1
        = [⟨1, 0, 2⟩, ⟨1, 2, 4⟩, ⟨1, 6, 1⟩] ∧
      (readSlice false ⟨[0x34, 0x12, 1, 2, 3, 4, 0x56]⟩ 1 .BitOrder_Jpeg ⟨1, 2, 4⟩ 1
        (allocated blankImage 1 3 16)).exc = some (.RawDecoderException unsupportedBitDepth) ∧
      (decodeUncompressed false ⟨[0x34, 0x12, 1, 2, 3, 4, 0x56]⟩ [(0, 2), (2, 4), (6, 1)]
        1 1 3 16 .BitOrder_Jpeg blankImage).exc = none ∧
      (decodeUncompressed false ⟨[0x34, 0x12, 1, 2, 3, 4, 0x56]⟩ [(0, 2), (2, 4), (6, 1)]
        1 1 3 16 .BitOrder_Jpeg blankImage).mRaw.errors = [unsupportedBitDepth] ∧
      [0, 1, 2].map (fun r =>
        (decodeUncompressed false ⟨[0x34, 0x12, 1, 2, 3, 4, 0x56]⟩ [(0, 2), (2, 4), (6, 1)]
          1 1 3 16 .BitOrder_Jpeg blankImage).mRaw.data r 0) = [0x3412, 0, 0x56]) ∧
    ((collectSlices ⟨[0x34, 0x12, 1, 2, 3, 4, 0x56]⟩ 1 2 [(0, 2), (2, 4), (6, 1)] 0 []).1
        = [⟨1, 0, 2⟩, ⟨1, 2, 4⟩, ⟨0, 6, 1⟩] ∧
      (readSlice false ⟨[0x34, 0x12, 1, 2, 3, 4, 0x56]⟩ 1 .BitOrder_Jpeg ⟨1, 2, 4⟩ 1
        (allocated blankImage 1 3 16)).exc = some (.RawDecoderException unsupportedBitDepth) ∧
      (decodeUncompressed false ⟨[0x34, 0x12, 1, 2, 3, 4, 0x56]⟩ [(0, 2), (2, 4), (6, 1)]
        1 1 2 16 .BitOrder_Jpeg blankImage).exc = some (.Fault "division by zero") ∧
      (decodeUncompressed false ⟨[0x34, 0x12, 1, 2, 3, 4, 0x56]⟩ [(0, 2), (2, 4), (6, 1)]
        1 1 2 16 .BitOrder_Jpeg blankImage).mRaw.errors = [unsupportedBitDepth] ∧
      [0, 1, 2].map (fun r =>
        (decodeUncompressed false ⟨[0x34, 0x12, 1, 2, 3, 4, 0x56]⟩ [(0, 2), (2, 4), (6, 1)]
          1 1 2 16 .BitOrder_Jpeg blankImage).mRaw.data r 0) = [0x3412, 0, 0]) := by
  decide

/-! ## The bands of `startThreads` -/

theorem toU32_natCast (a : Nat) (h : a < 4294967296) : toU32 (a : Int) = a := by
  unfold toU32
  omega

theorem toInt32_small (a : Nat) (h : a < 2147483648) : toInt32 a = (a : Int) := by
  unfold toInt32 U32
  split_ifs <;> omega

theorem band_step (q h i : Nat) : min (min (i * q) h + q) h = min ((i + 1) * q) h := by
  have e : (i + 1) * q = i * q + q := by ring
  rw [e]
  omega

theorem spawnThreads_all (decodeThreaded : RawDecoderThread → RawImage → Result)
    (created : Nat → Bool) (hcr : ∀ i, created i = true) (h q T : Nat)
    (hh : h < 1073741824) (hq : q ≤ h) :
    ∀ (fuel i : Nat) (st : Spawned), fuel + i = T + 1 → st.threads = T →
      st.y_offset = ((min (i * q) h : Nat) : Int) →
      (spawnThreads decodeThreaded created (h : Int) (q : Int) T fuel i st).t
          = st.t ++ (List.range' i (T - i)).map (bandOf q h) ∧
      (spawnThreads decodeThreaded created (h : Int) (q : Int) T fuel i st).threads = T ∧
      (spawnThreads decodeThreaded created (h : Int) (q : Int) T fuel i st).fail = st.fail := by
  intro fuel
  induction fuel with
  | zero =>
    intro i st hi hT _
    have e : T - i = 0 := by omega
    simp [spawnThreads, e, hT]
  | succ fuel ih =>
    intro i st hi hT hy
    unfold spawnThreads
    by_cases hlt : i < T
    · have hend : toU32 (min (toInt32 (toU32 (st.y_offset + (q : Int)))) (h : Int))
          = min ((i + 1) * q) h := by
        rw [hy]
        have e1 : ((min (i * q) h : Nat) : Int) + (q : Int) = ((min (i * q) h + q : Nat) : Int) := by
          push_cast
          rfl
        rw [e1, toU32_natCast _ (by omega), toInt32_small _ (by omega)]
        have e2 : min ((min (i * q) h + q : Nat) : Int) (h : Int)
            = ((min (min (i * q) h + q) h : Nat) : Int) := by
          push_cast
          rfl
        rw [e2, toU32_natCast _ (by omega), band_step]
      have hstart : toU32 st.y_offset = min (i * q) h := by
        rw [hy, toU32_natCast _ (by omega)]
      rw [if_pos (by rw [hT]; exact hlt), if_neg (by omega), if_pos (hcr i)]
      have hrec := ih (i + 1)
        { st with
            t := st.t ++ [⟨toU32 st.y_offset,
              toU32 (min (toInt32 (toU32 (st.y_offset + (q : Int)))) (h : Int)), 4294967295⟩]
            y_offset := toInt32 (toU32 (min (toInt32 (toU32 (st.y_offset + (q : Int)))) (h : Int)))
            exc := if st.exc.isSome then st.exc else
              (RawDecoderDecodeThread decodeThreaded
                ⟨toU32 st.y_offset,
                  toU32 (min (toInt32 (toU32 (st.y_offset + (q : Int)))) (h : Int)), 4294967295⟩
                st.mRaw).exc
            mRaw := (RawDecoderDecodeThread decodeThreaded
                ⟨toU32 st.y_offset,
                  toU32 (min (toInt32 (toU32 (st.y_offset + (q : Int)))) (h : Int)), 4294967295⟩
                st.mRaw).mRaw }
        (by omega) hT (by
          show toInt32 (toU32 (min (toInt32 (toU32 (st.y_offset + (q : Int)))) (h : Int))) = _
          rw [hend, toInt32_small _ (by omega)])
      obtain ⟨r1, r2, r3⟩ := hrec
      refine ⟨?_, r2, r3⟩
      rw [r1]
      have e3 : T - i = (T - (i + 1)) + 1 := by omega
      rw [e3, List.range'_succ, List.map_cons, List.append_assoc]
      simp only [List.singleton_append, hstart, hend]
      rfl
    · have e : T - i = 0 := by omega
      rw [if_neg (by rw [hT]; exact hlt), e]
      simp [hT]

theorem ceil_div_le (h T : Nat) (hT : 1 ≤ T) (h1 : 1 ≤ h) : (h + T - 1) / T ≤ h := by
  apply Nat.div_le_of_le_mul
  obtain ⟨a, rfl⟩ := Nat.exists_eq_add_of_le hT
  obtain ⟨b, rfl⟩ := Nat.exists_eq_add_of_le h1
  have e : (1 + a) * (1 + b) = 1 + a + b + a * b := by ring
  rw [e]
  omega

theorem le_mul_ceil_div (h T : Nat) (hT : 1 ≤ T) : h ≤ T * ((h + T - 1) / T) := by
  have := Nat.lt_mul_div_succ (h + T - 1) (by omega : 0 < T)
  have e : T * ((h + T - 1) / T + 1) = T * ((h + T - 1) / T) + T := by ring
  omega

/-- With every thread created, the array `t` holds the bands
`[min(i*q, h), min((i+1)*q, h))`, `i < T`, where `T = min(h, n)` and
`q = (h + T - 1) / T`. -/
theorem startThreadsLoop_bands (decodeThreaded : RawDecoderThread → RawImage → Result)
    (created : Nat → Bool) (threadCount h : Nat) (mRaw : RawImage)
    (hdim : mRaw.dimy = (h : Int)) (h1 : 1 ≤ h) (hmax : h < 1073741824)
    (hn : 1 ≤ threadCount) (hcr : ∀ i, created i = true) :
    (startThreadsLoop decodeThreaded created threadCount mRaw).t
      = (List.range (min h threadCount)).map
          (bandOf ((h + min h threadCount - 1) / min h threadCount) h) ∧
    (startThreadsLoop decodeThreaded created threadCount mRaw).threads = min h threadCount ∧
    (startThreadsLoop decodeThreaded created threadCount mRaw).fail = false := by
  have hT : threadsOf mRaw threadCount = min h threadCount := by
    unfold threadsOf
    rw [hdim, toU32_natCast _ (by omega)]
  have hTpos : 1 ≤ min h threadCount := by omega
  have hqle : (h + min h threadCount - 1) / min h threadCount ≤ h :=
    ceil_div_le h (min h threadCount) hTpos h1
  have hq : toInt32 (((toU32 mRaw.dimy + threadsOf mRaw threadCount + U32 - 1) % U32)
      / threadsOf mRaw threadCount)
      = (((h + min h threadCount - 1) / min h threadCount : Nat) : Int) := by
    rw [hT, hdim, toU32_natCast _ (by omega)]
    have e : (h + min h threadCount + U32 - 1) % U32 = h + min h threadCount - 1 := by
      unfold U32
      omega
    rw [e, toInt32_small _ (by omega)]
  unfold startThreadsLoop
  rw [hq, hT, hdim]
  have hall := spawnThreads_all decodeThreaded created hcr h
    ((h + min h threadCount - 1) / min h threadCount) (min h threadCount) hmax hqle
    (min h threadCount + 1) 0 ⟨[], min h threadCount, 0, false, none, mRaw⟩ rfl rfl
    (by simp)
  obtain ⟨r1, r2, r3⟩ := hall
  refine ⟨?_, r2, r3⟩
  rw [r1, List.range_eq_range']
  simp

theorem bands_get (q h T i : Nat) (b : RawDecoderThread)
    (hb : ((List.range T).map (bandOf q h))[i]? = some b) : i < T ∧ b = bandOf q h i := by
  rw [List.getElem?_map] at hb
  by_cases hi : i < T
  · rw [List.getElem?_range hi] at hb
    simp only [Option.map_some', Option.some.injEq] at hb
    exact ⟨hi, hb.symm⟩
  · rw [List.getElem?_eq_none (by simp; omega)] at hb
    simp at hb

theorem bands_get_lt (q h T i : Nat) (hi : i < T) :
    ((List.range T).map (bandOf q h))[i]? = some (bandOf q h i) := by
  rw [List.getElem?_map, List.getElem?_range hi]
  rfl

/-- C9: for an image of `h >= 1` rows (`h < 2^30`, so that the `int` sums of the
source stay in range) and `n >= 1` workers, when every thread is created,
`startThreads` initialises exactly `min(h, n)` bands `[start_y, end_y)`: the first
starts at row 0, each later one starts at the `end_y` of the one before,
`start_y <= end_y <= h` in each, and the last ends at `h`; every row below `h` lies
in exactly one band. -/
theorem startThreads_bands (decodeThreaded : RawDecoderThread → RawImage → Result)
    (created : Nat → Bool) (threadCount h : Nat) (mRaw : RawImage)
    (hdim : mRaw.dimy = (h : Int)) (h1 : 1 ≤ h) (hmax : h < 1073741824)
    (hn : 1 ≤ threadCount) (hcr : ∀ i, created i = true) :
    ∀ t : List RawDecoderThread,
      t = (startThreadsLoop decodeThreaded created threadCount mRaw).t →
      t.length = min h threadCount ∧
      (∃ b : RawDecoderThread, t[0]? = some b ∧ b.start_y = 0) ∧
      (∀ (i : Nat) (b c : RawDecoderThread),
        t[i]? = some b → t[i + 1]? = some c → c.start_y = b.end_y) ∧
      (∀ b ∈ t, b.start_y ≤ b.end_y ∧ b.end_y ≤ h) ∧
      (∃ b : RawDecoderThread, t[t.length - 1]? = some b ∧ b.end_y = h) ∧
      (∀ y, y < h → ∃ (i : Nat) (b : RawDecoderThread),
        t[i]? = some b ∧ b.start_y ≤ y ∧ y < b.end_y ∧
        ∀ (j : Nat) (c : RawDecoderThread),
          t[j]? = some c → c.start_y ≤ y → y < c.end_y → j = i) := by
  intro t ht
  have hb := (startThreadsLoop_bands decodeThreaded created threadCount h mRaw hdim h1 hmax
    hn hcr).1
  rw [hb] at ht
  generalize hT : min h threadCount = T at ht
  generalize hq : (h + T - 1) / T = q at ht
  have hTpos : 1 ≤ T := by omega
  have hTq : h ≤ T * q := by rw [← hq]; exact le_mul_ceil_div h T hTpos
  have hqpos : 1 ≤ q := by
    rcases Nat.eq_zero_or_pos q with h0 | h0
    · rw [h0] at hTq; omega
    · exact h0
  have hlen : t.length = T := by rw [ht]; simp
  subst ht
  refine ⟨hlen, ⟨bandOf q h 0, bands_get_lt q h T 0 (by omega), by simp [bandOf]⟩, ?_, ?_,
    ⟨bandOf q h (T - 1), ?_, ?_⟩, ?_⟩
  · intro i b c hb1 hc1
    obtain ⟨_, rfl⟩ := bands_get q h T i b hb1
    obtain ⟨_, rfl⟩ := bands_get q h T (i + 1) c hc1
    rfl
  · intro b hb1
    obtain ⟨i, hi⟩ := List.getElem?_of_mem hb1
    obtain ⟨_, rfl⟩ := bands_get q h T i b hi
    show min (i * q) h ≤ min ((i + 1) * q) h ∧ min ((i + 1) * q) h ≤ h
    have e : (i + 1) * q = i * q + q := by ring
    rw [e]
    omega
  · rw [hlen]
    exact bands_get_lt q h T (T - 1) (by omega)
  · show min ((T - 1 + 1) * q) h = h
    have e : T - 1 + 1 = T := by omega
    rw [e]
    omega
  · intro y hy
    have hdm : q * (y / q) ≤ y := Nat.mul_div_le y q
    have hdl : y < q * (y / q + 1) := Nat.lt_mul_div_succ y (by omega)
    have e1 : q * (y / q + 1) = (y / q + 1) * q := by ring
    have e2 : q * (y / q) = y / q * q := by ring
    have hiT : y / q < T := by
      by_contra hge
      have : T * q ≤ y / q * q := Nat.mul_le_mul_right q (by omega)
      omega
    refine ⟨y / q, bandOf q h (y / q), bands_get_lt q h T _ hiT, ?_, ?_, ?_⟩
    · show min (y / q * q) h ≤ y
      omega
    · show y < min ((y / q + 1) * q) h
      omega
    · intro j c hc hs he
      obtain ⟨_, rfl⟩ := bands_get q h T j c hc
      have hs1 : min (j * q) h ≤ y := hs
      have he1 : y < min ((j + 1) * q) h := he
      have hjq : j * q ≤ y := by omega
      have hjq1 : y < (j + 1) * q := by omega
      apply le_antisymm
      · apply (Nat.le_div_iff_mul_le (by omega)).mpr
        exact hjq
      · by_contra hlt
        have : (j + 1) * q ≤ y / q * q := Nat.mul_le_mul_right q (by omega)
        omega

/-- Witness of C9: five rows and four workers give the bands `[0,2)`, `[2,4)`,
`[4,5)`, `[5,5)`. -/
theorem startThreads_bands_witness :
    ((({ blankImage with dimy := 5 } : RawImage).dimy = ((5 : Nat) : Int)) ∧ 1 ≤ 5 ∧
      5 < 1073741824 ∧ 1 ≤ 4 ∧ ∀ i : Nat, (fun _ => true) i = true) ∧
    (startThreadsLoop (fun _ m => ⟨none, m⟩) (fun _ => true) 4
      { blankImage with dimy := 5 }).t.length = min 5 4 :=
  ⟨⟨rfl, by decide, by decide, by decide, fun _ => rfl⟩,
   (startThreads_bands (fun _ m => ⟨none, m⟩) (fun _ => true) 4 5
      { blankImage with dimy := 5 } rfl (by decide) (by decide) (by decide) (fun _ => rfl)
      _ rfl).1⟩

/-! ## The final test of `startThreads` -/

/-- C10 on two concrete runs, every thread created.  (1) An image of two rows that
enters with one error already recorded, two workers, of which the first fails and the
second succeeds: `startThreads` throws "All threads reported errors".  (2) An image of
one row, one worker that records a truncation warning and returns normally: no
worker raised an error, and `startThreads` throws "All threads reported errors" all
the same. -/
theorem startThreads_counts_every_error :
    ((firstBandFails ⟨1, 2, 4294967295⟩ { blankImage with dimy := 2, errors := ["earlier"] }).exc
        = none ∧
      (startThreads firstBandFails (fun _ => true) 2
        { blankImage with dimy := 2, errors := ["earlier"] }).exc
        = some (.RawDecoderException allThreadsFailed) ∧
      (startThreadsLoop firstBandFails (fun _ => true) 2
        { blankImage with dimy := 2, errors := ["earlier"] }).t
        = [⟨0, 1, 4294967295⟩, ⟨1, 2, 4294967295⟩]) ∧
    ((truncatingWorker ⟨0, 1, 4294967295⟩ { blankImage with dimy := 1 }).exc = none ∧
      (startThreads truncatingWorker (fun _ => true) 1 { blankImage with dimy := 1 }).exc
        = some (.RawDecoderException allThreadsFailed)) := by
  decide

/-- What the final test of `startThreads` decides on: when every thread is created
and no worker leaves defined behaviour, the function throws "All threads reported
errors" exactly when the error list, as it stands after the workers (entries present on
entry and warnings included), has at least `min(h, n)` entries. -/
theorem startThreads_fatal_iff (decodeThreaded : RawDecoderThread → RawImage → Result)
    (created : Nat → Bool) (threadCount h : Nat) (mRaw : RawImage)
    (hdim : mRaw.dimy = (h : Int)) (h1 : 1 ≤ h) (hmax : h < 1073741824)
    (hn : 1 ≤ threadCount) (hcr : ∀ i, created i = true)
    (hdef : (startThreadsLoop decodeThreaded created threadCount mRaw).exc = none) :
    ((startThreads decodeThreaded created threadCount mRaw).exc
        = some (.RawDecoderException allThreadsFailed)
      ↔ min h threadCount
          ≤ (startThreadsLoop decodeThreaded created threadCount mRaw).mRaw.errors.length) ∧
    ((startThreads decodeThreaded created threadCount mRaw).exc = none
      ↔ (startThreadsLoop decodeThreaded created threadCount mRaw).mRaw.errors.length
          < min h threadCount) := by
  obtain ⟨_, hthreads, hfail⟩ := startThreadsLoop_bands decodeThreaded created threadCount h
    mRaw hdim h1 hmax hn hcr
  have hT : threadsOf mRaw threadCount = min h threadCount := by
    unfold threadsOf
    rw [hdim, toU32_natCast _ (by omega)]
  unfold startThreads
  rw [if_neg (by rw [hT]; omega), hdef]
  simp only [hfail, hthreads, Bool.false_eq_true, if_false, ge_iff_le]
  by_cases hc : min h threadCount
      ≤ (startThreadsLoop decodeThreaded created threadCount mRaw).mRaw.errors.length
  · rw [if_pos hc]
    refine ⟨⟨fun _ => hc, fun _ => rfl⟩, ⟨fun hx => ?_, fun hx => ?_⟩⟩
    · simp at hx
    · omega
  · rw [if_neg hc]
    refine ⟨⟨fun hx => ?_, fun hx => ?_⟩, ⟨fun _ => ?_, fun _ => rfl⟩⟩
    · simp at hx
    · exact absurd hx hc
    · omega

/-! ## The guard on the width -/

/-- C11, as stated, fails: `Decode12BitRawBEunpacked`, `Decode12BitRawBEunpackedLeftAligned`
and `Decode12BitRawUnpacked` called with `w = 1`, `h = 1` on two bytes do not fail and
write the pixel. -/
theorem unpacked12_narrow_decodes :
    ((Decode12BitRawBEunpacked ⟨[0x0A, 0xBC]⟩ 1 1 blankImage).exc = none ∧
      (Decode12BitRawBEunpacked ⟨[0x0A, 0xBC]⟩ 1 1 blankImage).mRaw.data 0 0 = 0xABC) ∧
    ((Decode12BitRawBEunpackedLeftAligned ⟨[0xAB, 0xC0]⟩ 1 1 blankImage).exc = none ∧
      (Decode12BitRawBEunpackedLeftAligned ⟨[0xAB, 0xC0]⟩ 1 1 blankImage).mRaw.data 0 0 = 0xABC) ∧
    ((Decode12BitRawUnpacked ⟨[0xC0, 0xAB]⟩ 1 1 blankImage).exc = none ∧
      (Decode12BitRawUnpacked ⟨[0xC0, 0xAB]⟩ 1 1 blankImage).mRaw.data 0 0 = 0xABC) := by
  decide

/-- C11, amended: each of the five 12-bit decoders that unpack pixels in pairs
(`Decode12BitRaw`, `Decode12BitRawWithControl`, `Decode12BitRawBE`,
`Decode12BitRawBEWithControl`, `Decode12BitRawBEInterlaced`), called with `w < 2`,
throws the `IOException` of its guard for every `h` and every input, leaving the
stream and the image (pixels and error list) as they were.  The three unpacked
12-bit decoders have no such guard: with `w = 1` and an input of at least `2*h`
bytes they decode the `h` rows of one pixel without exception, row `y` from the two
bytes at offset `2*y`. -/
theorem paired12_narrow_fails (input : ByteStream) (w h : Nat) (mRaw : RawImage)
    (hw : w < 2) :
    Decode12BitRaw input w h mRaw = ⟨some (.IOException tooNarrow), input, mRaw⟩ ∧
    Decode12BitRawWithControl input w h mRaw = ⟨some (.IOException tooNarrow), input, mRaw⟩ ∧
    Decode12BitRawBE input w h mRaw = ⟨some (.IOException tooNarrow), input, mRaw⟩ ∧
    Decode12BitRawBEWithControl input w h mRaw
      = ⟨some (.IOException tooNarrow), input, mRaw⟩ ∧
    Decode12BitRawBEInterlaced input w h mRaw
      = ⟨some (.IOException tooNarrow), input, mRaw⟩ ∧
    (2 * 1 * h ≤ input.rest.length →
      ((Decode12BitRawBEunpacked input 1 h mRaw).exc = none ∧
        ∀ y, y < h → (Decode12BitRawBEunpacked input 1 h mRaw).mRaw.data y 0
          = (((input.rest.getD (2 * y) 0 &&& 0x0f) <<< 8)
              ||| input.rest.getD (2 * y + 1) 0) % 65536) ∧
      ((Decode12BitRawBEunpackedLeftAligned input 1 h mRaw).exc = none ∧
        ∀ y, y < h → (Decode12BitRawBEunpackedLeftAligned input 1 h mRaw).mRaw.data y 0
          = (((input.rest.getD (2 * y) 0 <<< 8)
              ||| (input.rest.getD (2 * y + 1) 0 &&& 0xf0)) >>> 4) % 65536) ∧
      ((Decode12BitRawUnpacked input 1 h mRaw).exc = none ∧
        ∀ y, y < h → (Decode12BitRawUnpacked input 1 h mRaw).mRaw.data y 0
          = (((input.rest.getD (2 * y + 1) 0 <<< 8)
              ||| input.rest.getD (2 * y) 0) >>> 4) % 65536)) := by
  refine ⟨?_, ?_, ?_, ?_, ?_, ?_⟩
  · unfold Decode12BitRaw
    rw [if_pos hw]
  · unfold Decode12BitRawWithControl decodeWithControl
    rw [if_pos hw]
  · unfold Decode12BitRawBE
    rw [if_pos hw]
  · unfold Decode12BitRawBEWithControl decodeWithControl
    rw [if_pos hw]
  · unfold Decode12BitRawBEInterlaced
    rw [if_pos hw]
  · intro hlen
    refine ⟨?_, ?_, ?_⟩
    · obtain ⟨d, hd, _, hpx⟩ := unpacked_full (fun g1 g2 => ((g1 &&& 0x0f) <<< 8) ||| g2)
        input 1 h mRaw hlen
      unfold Decode12BitRawBEunpacked
      rw [hd]
      refine ⟨rfl, fun y hy => ?_⟩
      have h1 := (hpx y 0 hy (by decide)).2
      have e : 2 * (y * 1 + 0) = 2 * y := by omega
      rw [e] at h1
      exact h1
    · obtain ⟨d, hd, _, hpx⟩ := unpacked_full
        (fun g1 g2 => ((g1 <<< 8) ||| (g2 &&& 0xf0)) >>> 4) input 1 h mRaw hlen
      unfold Decode12BitRawBEunpackedLeftAligned
      rw [hd]
      refine ⟨rfl, fun y hy => ?_⟩
      have h1 := (hpx y 0 hy (by decide)).2
      have e : 2 * (y * 1 + 0) = 2 * y := by omega
      rw [e] at h1
      exact h1
    · obtain ⟨d, hd, _, hpx⟩ := unpacked_full (fun g1 g2 => ((g2 <<< 8) ||| g1) >>> 4)
        input 1 h mRaw hlen
      unfold Decode12BitRawUnpacked
      rw [hd]
      refine ⟨rfl, fun y hy => ?_⟩
      have h1 := (hpx y 0 hy (by decide)).2
      have e : 2 * (y * 1 + 0) = 2 * y := by omega
      rw [e] at h1
      exact h1

/-- Witness of C11, amended: a width of one pixel offered to `Decode12BitRawBE`. -/
theorem paired12_narrow_fails_witness :
    1 < 2 ∧
    Decode12BitRawBE ⟨[1, 2, 3]⟩ 1 1 blankImage
      = ⟨some (.IOException tooNarrow), ⟨[1, 2, 3]⟩, blankImage⟩ :=
  ⟨by decide, (paired12_narrow_fails ⟨[1, 2, 3]⟩ 1 1 blankImage (by decide)).2.2.1⟩

/-! ## The bit depth test of `readUncompressedRaw` -/

theorem checkPitch_cases (remain : Nat) (inputPitch : Int) (h : Nat) (mRaw : RawImage)
    (hlo : -2147483648 ≤ inputPitch) (hhi : inputPitch < 2147483648) :
    (¬ remain < (toU64 inputPitch * h) % U64 →
      checkPitch remain inputPitch h mRaw = .ok (h, mRaw)) ∧
    (remain < (toU64 inputPitch * h) % U64 → toInt32 remain > inputPitch →
      checkPitch remain inputPitch h mRaw
        = .ok ((remain / toU32 inputPitch + U32 - 1) % U32, mRaw.setError imageTruncated)) ∧
    (remain < (toU64 inputPitch * h) % U64 → ¬ toInt32 remain > inputPitch →
      checkPitch remain inputPitch h mRaw = .error (.IOException notEnoughData)) := by
  refine ⟨?_, ?_, ?_⟩
  · intro h1
    unfold checkPitch
    rw [if_neg h1]
  · intro h1 h2
    have hne : ¬ toU32 inputPitch = 0 := by
      intro h0
      have hz : inputPitch = 0 := by
        unfold toU32 at h0
        omega
      rw [hz] at h1
      have : toU64 0 = 0 := by decide
      rw [this, Nat.zero_mul] at h1
      exact absurd h1 (Nat.not_lt_zero _)
    unfold checkPitch
    rw [if_pos h1, if_pos h2, if_neg hne]
  · intro h1 h2
    unfold checkPitch
    rw [if_pos h1, if_neg h2]
    rfl

/-- C12, as stated, fails: with no input at all, `inputPitch = 4`, a 1 by 1 slice and
`bitPerPixel = 32` on a 16-bit image, `readUncompressedRaw` throws the `IOException`
of its truncation test, not the decode error. -/
theorem readUncompressedRaw_truncated_first :
    (32 : Int) > 16 ∧ ({ blankImage with dimx := 1, dimy := 1 } : RawImage).isFloat = false ∧
    (readUncompressedRaw false ⟨[]⟩ (1, 1) (0, 0) 4 32 .BitOrder_Plain
      { blankImage with dimx := 1, dimy := 1 }).exc = some (.IOException notEnoughData) := by
  decide

/-- C12, amended: `readUncompressedRaw` called with `bitPerPixel > 16` on a 16-bit
image (with `inputPitch` an `int`) always fails and never writes a pixel.  When the
input holds at least `inputPitch*h` bytes it fails with the decode error "Unsupported
bit depth", image and stream untouched; when it holds fewer but `(int)remain >
inputPitch`, it first records "Image truncated" and then fails with that decode
error; when it holds fewer and `(int)remain <= inputPitch`, it fails with the
`IOException` of the truncation test instead. -/
theorem readUncompressedRaw_bit_depth (hostLittle : Bool) (input : ByteStream)
    (size offset : Int × Int) (inputPitch bitPerPixel : Int) (order : BitOrder)
    (mRaw : RawImage) (hlo : -2147483648 ≤ inputPitch) (hhi : inputPitch < 2147483648)
    (hbpp : bitPerPixel > 16) (hu16 : mRaw.isFloat = false) :
    (¬ input.getRemainSize < (toU64 inputPitch * toU64 size.2) % U64 →
      readUncompressedRaw hostLittle input size offset inputPitch bitPerPixel order mRaw
        = ⟨some (.RawDecoderException unsupportedBitDepth), input, mRaw⟩) ∧
    (input.getRemainSize < (toU64 inputPitch * toU64 size.2) % U64 →
      toInt32 input.getRemainSize > inputPitch →
      readUncompressedRaw hostLittle input size offset inputPitch bitPerPixel order mRaw
        = ⟨some (.RawDecoderException unsupportedBitDepth), input,
            mRaw.setError imageTruncated⟩) ∧
    (input.getRemainSize < (toU64 inputPitch * toU64 size.2) % U64 →
      ¬ toInt32 input.getRemainSize > inputPitch →
      readUncompressedRaw hostLittle input size offset inputPitch bitPerPixel order mRaw
        = ⟨some (.IOException notEnoughData), input, mRaw⟩) ∧
    (readUncompressedRaw hostLittle input size offset inputPitch bitPerPixel order mRaw).exc
      ≠ none ∧
    (readUncompressedRaw hostLittle input size offset inputPitch bitPerPixel order
      mRaw).mRaw.data = mRaw.data := by
  obtain ⟨c1, c2, c3⟩ := checkPitch_cases input.getRemainSize inputPitch (toU64 size.2) mRaw
    hlo hhi
  have r1 : ¬ input.getRemainSize < (toU64 inputPitch * toU64 size.2) % U64 →
      readUncompressedRaw hostLittle input size offset inputPitch bitPerPixel order mRaw
        = ⟨some (.RawDecoderException unsupportedBitDepth), input, mRaw⟩ := by
    intro h1
    unfold readUncompressedRaw
    simp only [c1 h1]
    rw [if_pos ⟨hbpp, hu16⟩]
  have r2 : input.getRemainSize < (toU64 inputPitch * toU64 size.2) % U64 →
      toInt32 input.getRemainSize > inputPitch →
      readUncompressedRaw hostLittle input size offset inputPitch bitPerPixel order mRaw
        = ⟨some (.RawDecoderException unsupportedBitDepth), input,
            mRaw.setError imageTruncated⟩ := by
    intro h1 h2
    unfold readUncompressedRaw
    simp only [c2 h1 h2]
    rw [if_pos ⟨hbpp, hu16⟩]
  have r3 : input.getRemainSize < (toU64 inputPitch * toU64 size.2) % U64 →
      ¬ toInt32 input.getRemainSize > inputPitch →
      readUncompressedRaw hostLittle input size offset inputPitch bitPerPixel order mRaw
        = ⟨some (.IOException notEnoughData), input, mRaw⟩ := by
    intro h1 h2
    unfold readUncompressedRaw
    simp only [c3 h1 h2]
  refine ⟨r1, r2, r3, ?_, ?_⟩
  · by_cases h1 : input.getRemainSize < (toU64 inputPitch * toU64 size.2) % U64
    · by_cases h2 : toInt32 input.getRemainSize > inputPitch
      · rw [r2 h1 h2]; simp
      · rw [r3 h1 h2]; simp
    · rw [r1 h1]; simp
  · by_cases h1 : input.getRemainSize < (toU64 inputPitch * toU64 size.2) % U64
    · by_cases h2 : toInt32 input.getRemainSize > inputPitch
      · rw [r2 h1 h2]; rfl
      · rw [r3 h1 h2]
    · rw [r1 h1]

/-- Witness of C12, amended: three bytes for a 1 by 1 slice of 32 bits per pixel. -/
theorem readUncompressedRaw_bit_depth_witness :
    ((-2147483648 : Int) ≤ 2 ∧ (2 : Int) < 2147483648 ∧ (32 : Int) > 16 ∧
      ({ blankImage with dimx := 1, dimy := 1 } : RawImage).isFloat = false ∧
      ¬ ByteStream.getRemainSize ⟨[1, 2, 3]⟩ < (toU64 2 * toU64 ((1, 1) : Int × Int).2) % U64) ∧
    readUncompressedRaw false ⟨[1, 2, 3]⟩ (1, 1) (0, 0) 2 32 .BitOrder_Plain
        { blankImage with dimx := 1, dimy := 1 }
      = ⟨some (.RawDecoderException unsupportedBitDepth), ⟨[1, 2, 3]⟩,
          { blankImage with dimx := 1, dimy := 1 }⟩ :=
  ⟨by decide,
   (readUncompressedRaw_bit_depth false ⟨[1, 2, 3]⟩ (1, 1) (0, 0) 2 32 .BitOrder_Plain
      { blankImage with dimx := 1, dimy := 1 } (by decide) (by decide) (by decide) rfl).1
      (by decide)⟩

/-! ## The 12-bit shortcut and the skip after each row -/

/-- C13 on two concrete runs of `readUncompressedRaw` for a slice of one row of two
pixels at row offset `oy = 1` of a 2 by 2 image, with `bitPerPixel = 12`, plain bit
order, `cpp = 1` and `w = 2 = inputPitch*8/12`; the little-endian host takes the
`Decode12BitRaw` shortcut, the other host the `BitPumpPlain` loop.
(1) On the three bytes `21 43 65` the loop stores `321 654` in row 1 and returns,
while the shortcut throws an `IOException` and stores nothing.
(2) On six bytes the loop stores `321 654` in row 1 and leaves row 0 alone, while
the shortcut stores `321 654` in row 0 and `987 CBA` in row 1.
(3) Through `decodeUncompressed`, for a file of two strips of three bytes (one row of
two pixels each): with the loop both rows are decoded and no error is recorded; with
the shortcut the second strip fails, its error is recorded and row 1 stays blank. -/
theorem readUncompressedRaw_shortcut_ignores_offset :
    (({ blankImage with dimx := 2, dimy := 2 } : RawImage).cpp = 1 ∧
      toInt32 (toU64 2) = Int.tdiv (3 * 8) 12) ∧
    ((readUncompressedRaw false ⟨[0x21, 0x43, 0x65]⟩ (2, 1) (0, 1) 3 12 .BitOrder_Plain
        { blankImage with dimx := 2, dimy := 2 }).exc = none ∧
      List.map ((readUncompressedRaw false ⟨[0x21, 0x43, 0x65]⟩ (2, 1) (0, 1) 3 12
        .BitOrder_Plain { blankImage with dimx := 2, dimy := 2 }).mRaw.data 1) [0, 1]
        = [0x321, 0x654] ∧
      (readUncompressedRaw true ⟨[0x21, 0x43, 0x65]⟩ (2, 1) (0, 1) 3 12 .BitOrder_Plain
        { blankImage with dimx := 2, dimy := 2 }).exc = some (.IOException notEnoughData) ∧
      List.map ((readUncompressedRaw true ⟨[0x21, 0x43, 0x65]⟩ (2, 1) (0, 1) 3 12
        .BitOrder_Plain { blankImage with dimx := 2, dimy := 2 }).mRaw.data 1) [0, 1]
        = [0, 0]) ∧
    ((readUncompressedRaw false ⟨[0x21, 0x43, 0x65, 0x87, 0xA9, 0xCB]⟩ (2, 1) (0, 1) 3 12
        .BitOrder_Plain { blankImage with dimx := 2, dimy := 2 }).exc = none ∧
      List.map ((readUncompressedRaw false ⟨[0x21, 0x43, 0x65, 0x87, 0xA9, 0xCB]⟩ (2, 1) (0, 1)
        3 12 .BitOrder_Plain { blankImage with dimx := 2, dimy := 2 }).mRaw.data 0) [0, 1]
        = [0, 0] ∧
      List.map ((readUncompressedRaw false ⟨[0x21, 0x43, 0x65, 0x87, 0xA9, 0xCB]⟩ (2, 1) (0, 1)
        3 12 .BitOrder_Plain { blankImage with dimx := 2, dimy := 2 }).mRaw.data 1) [0, 1]
        = [0x321, 0x654] ∧
      (readUncompressedRaw true ⟨[0x21, 0x43, 0x65, 0x87, 0xA9, 0xCB]⟩ (2, 1) (0, 1) 3 12
        .BitOrder_Plain { blankImage with dimx := 2, dimy := 2 }).exc = none ∧
      List.map ((readUncompressedRaw true ⟨[0x21, 0x43, 0x65, 0x87, 0xA9, 0xCB]⟩ (2, 1) (0, 1)
        3 12 .BitOrder_Plain { blankImage with dimx := 2, dimy := 2 }).mRaw.data 0) [0, 1]
        = [0x321, 0x654] ∧
      List.map ((readUncompressedRaw true ⟨[0x21, 0x43, 0x65, 0x87, 0xA9, 0xCB]⟩ (2, 1) (0, 1)
        3 12 .BitOrder_Plain { blankImage with dimx := 2, dimy := 2 }).mRaw.data 1) [0, 1]
        = [0x987, 0xCBA]) ∧
    ((decodeUncompressed false ⟨[0x21, 0x43, 0x65, 0x87, 0xA9, 0xCB]⟩ [(0, 3), (3, 3)] 1 2 2 12
        .BitOrder_Plain blankImage).exc = none ∧
      (decodeUncompressed false ⟨[0x21, 0x43, 0x65, 0x87, 0xA9, 0xCB]⟩ [(0, 3), (3, 3)] 1 2 2 12
        .BitOrder_Plain blankImage).mRaw.errors = [] ∧
      List.map ((decodeUncompressed false ⟨[0x21, 0x43, 0x65, 0x87, 0xA9, 0xCB]⟩
        [(0, 3), (3, 3)] 1 2 2 12 .BitOrder_Plain blankImage).mRaw.data 1) [0, 1]
        = [0x987, 0xCBA] ∧
      (decodeUncompressed true ⟨[0x21, 0x43, 0x65, 0x87, 0xA9, 0xCB]⟩ [(0, 3), (3, 3)] 1 2 2 12
        .BitOrder_Plain blankImage).exc = none ∧
      (decodeUncompressed true ⟨[0x21, 0x43, 0x65, 0x87, 0xA9, 0xCB]⟩ [(0, 3), (3, 3)] 1 2 2 12
        .BitOrder_Plain blankImage).mRaw.errors = [notEnoughData] ∧
      List.map ((decodeUncompressed true ⟨[0x21, 0x43, 0x65, 0x87, 0xA9, 0xCB]⟩
        [(0, 3), (3, 3)] 1 2 2 12 .BitOrder_Plain blankImage).mRaw.data 1) [0, 1]
        = [0, 0]) := by
  decide

/-- C14 on a concrete run: `inputPitch = 4`, `w = 1`, `cpp = 1`, `bitPerPixel = 16`
(so `inputPitch*8 = 32 >= 16 = w*cpp*bitPerPixel`), two rows, the eight input bytes
`01 02 .. 08`.  The call is the pump loop with a skip of 2 (the two padding bytes of
a row, passed to `skipBits` as a number of bits), and row 1 holds the 16 bits found at
bit offset 18, `0C10`, not the sample `0506` found at bit offset `inputPitch*8 = 32`. -/
theorem readUncompressedRaw_skips_bytes_as_bits :
    (4 : Int) * 8 ≥ 1 * 1 * 16 ∧
    readUncompressedRaw false ⟨[1, 2, 3, 4, 5, 6, 7, 8]⟩ (1, 2) (0, 0) 4 16 .BitOrder_Jpeg
        { blankImage with dimx := 1, dimy := 2 }
      = pumpBranch .BitOrder_Jpeg ⟨[1, 2, 3, 4, 5, 6, 7, 8]⟩ 1 1 16 2 0 0 2
          { blankImage with dimx := 1, dimy := 2 } ∧
    (readUncompressedRaw false ⟨[1, 2, 3, 4, 5, 6, 7, 8]⟩ (1, 2) (0, 0) 4 16 .BitOrder_Jpeg
      { blankImage with dimx := 1, dimy := 2 }).exc = none ∧
    (readUncompressedRaw false ⟨[1, 2, 3, 4, 5, 6, 7, 8]⟩ (1, 2) (0, 0) 4 16 .BitOrder_Jpeg
      { blankImage with dimx := 1, dimy := 2 }).mRaw.data 0 0 = 0x0102 ∧
    (readUncompressedRaw false ⟨[1, 2, 3, 4, 5, 6, 7, 8]⟩ (1, 2) (0, 0) 4 16 .BitOrder_Jpeg
      { blankImage with dimx := 1, dimy := 2 }).mRaw.data 1 0 = 0x0C10 ∧
    (readUncompressedRaw false ⟨[1, 2, 3, 4, 5, 6, 7, 8]⟩ (1, 2) (0, 0) 4 16 .BitOrder_Jpeg
      { blankImage with dimx := 1, dimy := 2 }).mRaw.data 1 0 ≠ 0x0506 :=
  ⟨by decide, rfl, by decide, by decide, by decide, by decide⟩

/-! ## Reads and writes of the packed decoders on an odd width -/

/-- C15 on concrete runs with the odd width `w = 3`, `h = 1`, where the decoders
obtain `(3*12/8)*1 = 4` bytes from the cursor.  On a stream of exactly four bytes the
second pair is read at indices 3, 4, 5, outside the stream.  On a stream of six
bytes the decoders do not fail, the sample `dest[3]` is written although `w - 1 = 2`,
and its value changes with the byte at index 5, which is beyond the four bytes
obtained. -/
theorem packed12_odd_width_overruns :
    ((3 * 12 % U32 / 8 * 1) % U32 = 4) ∧
    ((Decode12BitRaw ⟨[1, 2, 3, 4]⟩ 3 1 blankImage).exc
        = some (.Fault "read outside the input stream") ∧
      (Decode12BitRawBE ⟨[1, 2, 3, 4]⟩ 3 1 blankImage).exc
        = some (.Fault "read outside the input stream")) ∧
    ((Decode12BitRaw ⟨[1, 2, 3, 4, 5, 6]⟩ 3 1 blankImage).exc = none ∧
      (Decode12BitRaw ⟨[1, 2, 3, 4, 5, 6]⟩ 3 1 blankImage).input.rest = [5, 6] ∧
      blankImage.data 0 3 = 0 ∧
      (Decode12BitRaw ⟨[1, 2, 3, 4, 5, 6]⟩ 3 1 blankImage).mRaw.data 0 3 = 0x060 ∧
      (Decode12BitRaw ⟨[1, 2, 3, 4, 5, 7]⟩ 3 1 blankImage).mRaw.data 0 3 = 0x070) ∧
    ((Decode12BitRawBE ⟨[1, 2, 3, 4, 5, 6]⟩ 3 1 blankImage).exc = none ∧
      (Decode12BitRawBE ⟨[1, 2, 3, 4, 5, 6]⟩ 3 1 blankImage).input.rest = [5, 6] ∧
      (Decode12BitRawBE ⟨[1, 2, 3, 4, 5, 6]⟩ 3 1 blankImage).mRaw.data 0 3 = 0x506 ∧
      (Decode12BitRawBE ⟨[1, 2, 3, 4, 5, 7]⟩ 3 1 blankImage).mRaw.data 0 3 = 0x507) := by
  decide

/-! ## The interlaced decoder: row order and second field -/

theorem halfOf_eq (h : Nat) (hmax : h + 1 < U32) : halfOf h = (h + 1) / 2 := by
  unfold halfOf
  rw [Nat.mod_eq_of_lt hmax, Nat.shiftRight_eq_div_pow]

theorem interlacedRow_low (k row : Nat) (hk : 2 * k < U32) (hrow : row < k) :
    interlacedRow k row = 2 * row := by
  unfold interlacedRow
  rw [Nat.mod_eq_of_lt hrow, Nat.div_eq_of_lt hrow]
  unfold U32 at *
  omega

theorem interlacedRow_high (k row : Nat) (hk : 2 * k < U32) (h1 : k ≤ row) (h2 : row < 2 * k) :
    interlacedRow k row = 2 * (row - k) + 1 := by
  have hkpos : 0 < k := by omega
  have hdiv : row / k = 1 := Nat.div_eq_of_lt_le (by omega) (by omega)
  have hmod : row % k = row - k := by
    have := Nat.mod_add_div row k
    rw [hdiv] at this
    omega
  unfold interlacedRow
  rw [hmod, hdiv]
  unfold U32 at *
  omega

/-- C16: for every `h >= 1` (with `h + 1` below `2^32`, so that `half = (h+1) >> 1`
is `(h+1) div 2`), the row map of `Decode12BitRawBEInterlaced`,
`row -> (row mod half)*2 + row div half`, takes `{0, .., h-1}` into itself, and
`y -> (y div 2) + (y mod 2)*half` is its inverse on both sides: the map is a bijection
and output row `y` is decoded from stored row `(y div 2) + (y mod 2)*half`; for
`h >= 2` the value 1 is taken exactly at `row = half`. -/
theorem interlacedRow_bijection (h : Nat) (h1 : 1 ≤ h) (hmax : h + 1 < U32) :
    halfOf h = (h + 1) / 2 ∧
    (∀ row, row < h →
      interlacedRow (halfOf h) row = row % ((h + 1) / 2) * 2 + row / ((h + 1) / 2) ∧
      interlacedRow (halfOf h) row < h ∧
      interlacedRow (halfOf h) row / 2 + interlacedRow (halfOf h) row % 2 * halfOf h = row) ∧
    (∀ y, y < h →
      y / 2 + y % 2 * halfOf h < h ∧
      interlacedRow (halfOf h) (y / 2 + y % 2 * halfOf h) = y) ∧
    (2 ≤ h → halfOf h < h ∧
      ∀ row, row < h → (interlacedRow (halfOf h) row = 1 ↔ row = halfOf h)) := by
  have hk := halfOf_eq h hmax
  rw [hk]
  generalize hkd : (h + 1) / 2 = k
  have hk2 : 2 * k < U32 := by unfold U32 at *; omega
  have hkpos : 0 < k := by omega
  refine ⟨rfl, ?_, ?_, ?_⟩
  · intro row hrow
    by_cases hlow : row < k
    · rw [interlacedRow_low k row hk2 hlow, Nat.mod_eq_of_lt hlow, Nat.div_eq_of_lt hlow]
      refine ⟨by omega, by omega, ?_⟩
      have e1 : 2 * row / 2 = row := by omega
      have e2 : 2 * row % 2 = 0 := by omega
      rw [e1, e2]
      omega
    · have hdiv : row / k = 1 := Nat.div_eq_of_lt_le (by omega) (by omega)
      have hmod : row % k = row - k := by
        have := Nat.mod_add_div row k
        rw [hdiv] at this
        omega
      rw [interlacedRow_high k row hk2 (by omega) (by omega), hmod, hdiv]
      refine ⟨by omega, by omega, ?_⟩
      have e1 : (2 * (row - k) + 1) / 2 = row - k := by omega
      have e2 : (2 * (row - k) + 1) % 2 = 1 := by omega
      rw [e1, e2]
      omega
  · intro y hy
    rcases Nat.mod_two_eq_zero_or_one y with hpar | hpar
    · rw [hpar]
      simp only [Nat.zero_mul, Nat.add_zero]
      refine ⟨by omega, ?_⟩
      rw [interlacedRow_low k (y / 2) hk2 (by omega)]
      omega
    · rw [hpar]
      simp only [Nat.one_mul]
      refine ⟨by omega, ?_⟩
      rw [interlacedRow_high k (y / 2 + k) hk2 (by omega) (by omega)]
      omega
  · intro h2
    refine ⟨by omega, ?_⟩
    intro row hrow
    by_cases hlow : row < k
    · rw [interlacedRow_low k row hk2 hlow]
      omega
    · rw [interlacedRow_high k row hk2 (by omega) (by omega)]
      omega

/-- Witness of C16: five rows are stored in the order 0, 2, 4, 1, 3. -/
theorem interlacedRow_bijection_witness :
    (1 ≤ 5 ∧ 5 + 1 < U32) ∧ halfOf 5 = (5 + 1) / 2 :=
  ⟨by decide, (interlacedRow_bijection 5 (by decide) (by decide)).1⟩

theorem secondFieldOffset_eq (k w : Nat) (hsmall : k * w * 3 < U32) :
    secondFieldOffset k w = 2048 * (k * w * 3 / 2 / 2048 + 1) := by
  have h1 : k * w < U32 := by
    have : k * w ≤ k * w * 3 := Nat.le_mul_of_pos_right _ (by decide)
    omega
  unfold secondFieldOffset
  rw [Nat.mod_eq_of_lt h1, Nat.mod_eq_of_lt hsmall, Nat.shiftRight_eq_div_pow,
    Nat.shiftLeft_eq]
  have h2 : k * w * 3 / 2 / 2 ^ 11 + 1 < U32 := by
    unfold U32 at *
    omega
  rw [Nat.mod_eq_of_lt h2]
  have h3 : (k * w * 3 / 2 / 2 ^ 11 + 1) * 2 ^ 11 < U32 := by
    unfold U32 at *
    omega
  rw [Nat.mod_eq_of_lt h3]
  omega

/-- C17, as stated, fails: for `w = 4096`, `h = 2` (`half = 1`, `half*w*3 < 2^32`)
the first field is 6144 bytes long, 6144 is itself a multiple of 2048 not smaller
than that length, and the second field is read from offset 8192. -/
theorem secondFieldOffset_exact_multiple :
    (2 ≤ 4096 ∧ 2 ≤ 2 ∧ halfOf 2 * 4096 * 3 < 2 ^ 32) ∧
    halfOf 2 * 4096 * 3 / 2 = 6144 ∧ 2048 ∣ 6144 ∧
    secondFieldOffset (halfOf 2) 4096 = 8192 := by
  decide

/-- C17, amended: for `w >= 2` and every `h` (in particular `h >= 2`, where a second
field exists) with `half*w*3 < 2^32` (`half = (h+1) div 2`), the byte offset at which
`Decode12BitRawBEInterlaced` starts reading the second field is
`2048 * (floor(half*w*3/2) div 2048 + 1)`: the least multiple of 2048 strictly greater
than the first field's byte length `floor(half*w*3/2)`, hence at most 2048 above it;
for `w = 8`, `h = 4` it is 2048. -/
theorem secondFieldOffset_spec (w h : Nat) (hw : 2 ≤ w)
    (hsmall : (h + 1) / 2 * w * 3 < U32) :
    halfOf h = (h + 1) / 2 ∧
    secondFieldOffset (halfOf h) w = 2048 * ((h + 1) / 2 * w * 3 / 2 / 2048 + 1) ∧
    2048 ∣ secondFieldOffset (halfOf h) w ∧
    (h + 1) / 2 * w * 3 / 2 < secondFieldOffset (halfOf h) w ∧
    secondFieldOffset (halfOf h) w ≤ (h + 1) / 2 * w * 3 / 2 + 2048 ∧
    (∀ m, 2048 ∣ m → (h + 1) / 2 * w * 3 / 2 < m → secondFieldOffset (halfOf h) w ≤ m) ∧
    secondFieldOffset (halfOf 4) 8 = 2048 := by
  have hmax : h + 1 < U32 := by
    have h6 : (h + 1) / 2 * 2 * 3 ≤ (h + 1) / 2 * w * 3 :=
      Nat.mul_le_mul_right 3 (Nat.mul_le_mul_left _ hw)
    unfold U32 at *
    omega
  have hk := halfOf_eq h hmax
  rw [hk]
  have hoff := secondFieldOffset_eq ((h + 1) / 2) w hsmall
  rw [hoff]
  generalize (h + 1) / 2 * w * 3 / 2 = x
  refine ⟨rfl, rfl, ⟨x / 2048 + 1, rfl⟩, by omega, by omega, ?_, by decide⟩
  intro m hm hx
  obtain ⟨c, rfl⟩ := hm
  omega

/-- Witness of C17, amended, on the scenario of the spec. -/
theorem secondFieldOffset_spec_witness :
    (2 ≤ 8 ∧ (4 + 1) / 2 * 8 * 3 < U32) ∧
    secondFieldOffset (halfOf 4) 8 = 2048 * ((4 + 1) / 2 * 8 * 3 / 2 / 2048 + 1) :=
  ⟨by decide, (secondFieldOffset_spec 8 4 (by decide) (by decide)).2.1⟩

/-! ## The decoders with control bytes: bytes per row and the preamble -/

theorem perlineCtrl_eq (w : Nat) (hw : w * 12 < U32) :
    perlineCtrl w = w * 12 / 8 + (w + 2) / 10 := by
  unfold perlineCtrl
  have h1 : (w + 2) % U32 = w + 2 := Nat.mod_eq_of_lt (by unfold U32 at *; omega)
  rw [Nat.mod_eq_of_lt hw, h1]
  exact Nat.mod_eq_of_lt (by unfold U32 at *; omega)

/-- What the decoders with control bytes do on an input of at most `perline` bytes. -/
theorem decodeWithControl_short (rule : Nat → Nat → Nat → Nat × Nat) (input : ByteStream)
    (w h : Nat) (mRaw : RawImage) (hw : 2 ≤ w)
    (hshort : input.getRemainSize ≤ perlineCtrl w) :
    decodeWithControl rule input w h mRaw
      = ⟨some (.IOException notEnoughDataCtrl), input, mRaw⟩ := by
  unfold decodeWithControl checkLinesCtrl
  rw [if_neg (by omega), if_pos hshort]

/-- What the decoders with control bytes obtain from the stream when they return
without exception on an input that holds all rows. -/
theorem decodeWithControl_consumes (rule : Nat → Nat → Nat → Nat × Nat) (input : ByteStream)
    (w h : Nat) (mRaw : RawImage) (hw : 2 ≤ w) (hfit : perlineCtrl w * h < U32)
    (hlen : perlineCtrl w * h ≤ input.getRemainSize)
    (hok : (decodeWithControl rule input w h mRaw).exc = none) :
    (decodeWithControl rule input w h mRaw).input.rest
        = input.rest.drop (perlineCtrl w * h) ∧
    (decodeWithControl rule input w h mRaw).mRaw.errors = mRaw.errors := by
  have hrem : input.getRemainSize = input.rest.length := rfl
  have htot : (perlineCtrl w * h) % U32 = perlineCtrl w * h := Nat.mod_eq_of_lt hfit
  unfold decodeWithControl checkLinesCtrl ByteStream.getData at hok ⊢
  rw [if_neg (by omega)] at hok ⊢
  by_cases hshort : input.getRemainSize ≤ perlineCtrl w
  · rw [if_pos hshort] at hok
    simp at hok
  · rw [if_neg hshort] at hok ⊢
    rw [htot, if_neg (by omega)] at hok ⊢
    simp only [htot] at hok ⊢
    rw [if_pos (by omega)] at hok ⊢
    simp only at hok ⊢
    cases hrows : ctrlRows rule input.rest w h 0 0 mRaw.data with
    | none =>
      rw [hrows] at hok
      simp at hok
    | some r => exact ⟨rfl, rfl⟩

/-- C18, as stated, fails: for `w = 12` the decoders with control bytes compute
`perline = 19`, while `ceil(12*12/8) + ceil(14/10) = 18 + 2 = 20`. -/
theorem perlineCtrl_twelve :
    perlineCtrl 12 = 19 ∧ (12 * 12 + 7) / 8 + (12 + 2 + 9) / 10 = 20 := by
  decide

/-- C18, amended: for every `w >= 2` with `w*12 < 2^32`, the expected number of input
bytes per row computed by `Decode12BitRawWithControl` and
`Decode12BitRawBEWithControl` is `floor(w*12/8) + floor((w+2)/10)`; for `w = 12` it is
`18 + 1 = 19`.  It is the number the preamble tests against (an input of at most that
many bytes is refused) and `h` times the number of bytes obtained from the stream by
a run that returns without exception on an input holding `perline*h < 2^32` bytes. -/
theorem perlineCtrl_spec (w : Nat) (hw : 2 ≤ w) (hw12 : w * 12 < U32) :
    perlineCtrl w = w * 12 / 8 + (w + 2) / 10 ∧
    perlineCtrl 12 = 18 + 1 ∧
    (∀ (input : ByteStream) (h : Nat) (mRaw : RawImage),
      input.getRemainSize ≤ perlineCtrl w →
      Decode12BitRawWithControl input w h mRaw
        = ⟨some (.IOException notEnoughDataCtrl), input, mRaw⟩ ∧
      Decode12BitRawBEWithControl input w h mRaw
        = ⟨some (.IOException notEnoughDataCtrl), input, mRaw⟩) ∧
    (∀ (input : ByteStream) (h : Nat) (mRaw : RawImage),
      perlineCtrl w * h < U32 → perlineCtrl w * h ≤ input.getRemainSize →
      ((Decode12BitRawWithControl input w h mRaw).exc = none →
        (Decode12BitRawWithControl input w h mRaw).input.rest
          = input.rest.drop (perlineCtrl w * h)) ∧
      ((Decode12BitRawBEWithControl input w h mRaw).exc = none →
        (Decode12BitRawBEWithControl input w h mRaw).input.rest
          = input.rest.drop (perlineCtrl w * h))) := by
  refine ⟨perlineCtrl_eq w hw12, by decide, ?_, ?_⟩
  · intro input h mRaw hshort
    exact ⟨decodeWithControl_short rule12LE input w h mRaw hw hshort,
      decodeWithControl_short rule12BE input w h mRaw hw hshort⟩
  · intro input h mRaw hfit hlen
    exact ⟨fun hok => (decodeWithControl_consumes rule12LE input w h mRaw hw hfit hlen hok).1,
      fun hok => (decodeWithControl_consumes rule12BE input w h mRaw hw hfit hlen hok).1⟩

/-- Witness of C18, amended, at the width of the scenario of the spec. -/
theorem perlineCtrl_spec_witness :
    (2 ≤ 12 ∧ 12 * 12 < U32) ∧ perlineCtrl 12 = 12 * 12 / 8 + (12 + 2) / 10 :=
  ⟨by decide, (perlineCtrl_spec 12 (by decide) (by decide)).1⟩

/-- C19: the preamble of the decoders with control bytes refuses an input that holds
exactly one whole row.  With `w = 2`, `h = 1` the row is `perline = 3` bytes, so the
input `12 34 56` holds `perline*h` bytes; both decoders throw "Not enough data to
decode a single line" and write nothing, while the decoder without control bytes
decodes the same input to `0x123 0x456`, as the decoders with control bytes do once a
fourth byte follows.  The same happens at `w = 12`, `h = 1` with the 19 bytes of one
row. -/
theorem decodeWithControl_refuses_one_row :
    perlineCtrl 2 * 1 = 3 ∧
    (⟨[0x12, 0x34, 0x56]⟩ : ByteStream).getRemainSize = 3 ∧
    Decode12BitRawBEWithControl ⟨[0x12, 0x34, 0x56]⟩ 2 1 blankImage
      = ⟨some (.IOException notEnoughDataCtrl), ⟨[0x12, 0x34, 0x56]⟩, blankImage⟩ ∧
    Decode12BitRawWithControl ⟨[0x21, 0x43, 0x65]⟩ 2 1 blankImage
      = ⟨some (.IOException notEnoughDataCtrl), ⟨[0x21, 0x43, 0x65]⟩, blankImage⟩ ∧
    (Decode12BitRawBE ⟨[0x12, 0x34, 0x56]⟩ 2 1 blankImage).exc = none ∧
    (Decode12BitRawBE ⟨[0x12, 0x34, 0x56]⟩ 2 1 blankImage).mRaw.errors = [] ∧
    (List.range 2).map ((Decode12BitRawBE ⟨[0x12, 0x34, 0x56]⟩ 2 1 blankImage).mRaw.data 0)
      = [0x123, 0x456] ∧
    (Decode12BitRawBEWithControl ⟨[0x12, 0x34, 0x56, 0]⟩ 2 1 blankImage).exc = none ∧
    (Decode12BitRawBEWithControl ⟨[0x12, 0x34, 0x56, 0]⟩ 2 1 blankImage).mRaw.errors = [] ∧
    (List.range 2).map
        ((Decode12BitRawBEWithControl ⟨[0x12, 0x34, 0x56, 0]⟩ 2 1 blankImage).mRaw.data 0)
      = [0x123, 0x456] ∧
    perlineCtrl 12 * 1 = 19 ∧
    (Decode12BitRawBEWithControl ⟨List.range 19⟩ 12 1 blankImage).exc
      = some (.IOException notEnoughDataCtrl) ∧
    (Decode12BitRawWithControl ⟨List.range 19⟩ 12 1 blankImage).exc
      = some (.IOException notEnoughDataCtrl) := by
  refine ⟨by decide, by decide, ?_, ?_, by decide, by decide, by decide, by decide,
    by decide, by decide, by decide, by decide, by decide⟩
  · exact decodeWithControl_short rule12BE ⟨[0x12, 0x34, 0x56]⟩ 2 1 blankImage
      (by decide) (by decide)
  · exact decodeWithControl_short rule12LE ⟨[0x21, 0x43, 0x65]⟩ 2 1 blankImage
      (by decide) (by decide)

/-- C20: the row count of a strip that starts below the declared height wraps
around.  With three valid strips, `yPerSlice = 1` and `height = 1` the first loop of
`decodeUncompressed` assigns `slice.h = 1, 0, 4294967295`: the third is
`height - offY = 1 - 2` in `uint32`, larger than `yPerSlice`, and the sum exceeds the
declared height.  The image is then allocated with `3` rows, not `1`. -/
theorem collectSlices_row_count_wraps :
    (collectSlices ⟨[1, 2, 3]⟩ 1 1 [(0, 1), (1, 1), (2, 1)] 0 []).1.map (fun s => s.h)
      = [1, 0, 4294967295] ∧
    ((collectSlices ⟨[1, 2, 3]⟩ 1 1 [(0, 1), (1, 1), (2, 1)] 0 []).1.map (fun s => s.h)).sum
      = 4294967296 ∧
    (collectSlices ⟨[1, 2, 3]⟩ 1 1 [(0, 1), (1, 1), (2, 1)] 0 []).2 = 3 ∧
    (decodeUncompressed false ⟨[1, 2, 3]⟩ [(0, 1), (1, 1), (2, 1)] 1 1 1 8
      .BitOrder_Plain blankImage).mRaw.dimy = 3 := by
  decide

/-! ## `startTasks`: the path without threads -/

theorem RawDecoderDecodeThread_exc (decodeThreaded : RawDecoderThread → RawImage → Result)
    (me : RawDecoderThread) (mRaw : RawImage) :
    (RawDecoderDecodeThread decodeThreaded me mRaw).exc = none ∨
    ∃ what, (RawDecoderDecodeThread decodeThreaded me mRaw).exc = some (.Fault what) := by
  unfold RawDecoderDecodeThread
  split
  · exact Or.inl rfl
  · exact Or.inl rfl
  · exact Or.inl rfl
  · exact Or.inr ⟨_, rfl⟩

theorem tasksInline_exc (decodeThreaded : RawDecoderThread → RawImage → Result) (tasks : Nat) :
    ∀ (fuel ctask : Nat) (mRaw : RawImage),
      (tasksInline decodeThreaded tasks fuel ctask mRaw).exc = none ∨
      ∃ what, (tasksInline decodeThreaded tasks fuel ctask mRaw).exc = some (.Fault what) := by
  intro fuel
  induction fuel with
  | zero => intro ctask mRaw; exact Or.inl rfl
  | succ n ih =>
    intro ctask mRaw
    unfold tasksInline
    split_ifs with hc
    · rcases RawDecoderDecodeThread_exc decodeThreaded ⟨0, 0, ctask % U32⟩ mRaw with h | ⟨what, h⟩
      · rw [h]
        exact ih _ _
      · rw [h]
        exact Or.inr ⟨what, rfl⟩
    · exact Or.inl rfl

/-- C21: with one thread, `startTasks` returns before the error list is looked at.
For every worker, every `getThreadCount()` result 1 and every task count `n + 1`, no
decode error leaves `startTasks`.  With two tasks that both raise a decode error and
one available thread, both errors are caught and appended (each task is run once)
and `startTasks` returns normally; the same for one failing task and four available
threads.  With two available threads the same two failing tasks end in the decode
error "All threads reported errors". -/
theorem startTasks_single_thread_returns :
    (∀ (decodeThreaded : RawDecoderThread → RawImage → Result) (created : Nat → Bool)
        (n : Nat) (mRaw : RawImage),
      (startTasks decodeThreaded created 1 (n + 1) mRaw).exc = none ∨
      ∃ what, (startTasks decodeThreaded created 1 (n + 1) mRaw).exc = some (.Fault what)) ∧
    ((startTasks everyTaskFails (fun _ => true) 1 2 blankImage).exc = none ∧
      (startTasks everyTaskFails (fun _ => true) 1 2 blankImage).mRaw.errors
        = ["task 0 failed", "task 1 failed"]) ∧
    ((startTasks everyTaskFails (fun _ => true) 4 1 blankImage).exc = none ∧
      (startTasks everyTaskFails (fun _ => true) 4 1 blankImage).mRaw.errors
        = ["task 0 failed"]) ∧
    ((startTasks everyTaskFails (fun _ => true) 2 2 blankImage).exc
        = some (.RawDecoderException allThreadsFailed) ∧
      (startTasks everyTaskFails (fun _ => true) 2 2 blankImage).mRaw.errors
        = ["task 0 failed", "task 1 failed"]) ∧
    ((startTasks everyTaskFails (fun _ => true) 2 3 blankImage).exc
        = some (.RawDecoderException allThreadsFailed) ∧
      (startTasks everyTaskFails (fun _ => true) 2 3 blankImage).mRaw.errors
        = ["task 0 failed", "task 1 failed", "task 2 failed"]) := by
  refine ⟨?_, by decide, by decide, by decide, by decide⟩
  intro decodeThreaded created n mRaw
  have h1 : min (n + 1) 1 = 1 := by omega
  unfold startTasks
  rw [if_pos h1]
  exact tasksInline_exc decodeThreaded (n + 1) _ _ _

/-! ## The decoders with control bytes: what a row consumes -/

theorem ctrlCols_offset (rule : Nat → Nat → Nat → Nat × Nat) (inp : List Nat) (y : Nat) :
    ∀ (n x o : Nat) (d : Pixels) (r : Nat × Pixels), x % 2 = 0 →
      ctrlCols rule inp y n x o d = some r →
      r.1 + (3 * (x / 2) + (x + 1) / 10)
        = o + (3 * ((x + 2 * n) / 2) + (x + 2 * n + 1) / 10) := by
  intro n
  induction n with
  | zero =>
    intro x o d r _ h
    unfold ctrlCols at h
    cases h
    rfl
  | succ n ih =>
    intro x o d r hx h
    unfold ctrlCols at h
    split at h
    · have := ih _ _ _ _ (by omega) h
      split_ifs at this <;> omega
    · cases h

theorem ctrlRows_offset (rule : Nat → Nat → Nat → Nat × Nat) (inp : List Nat) (w : Nat)
    (hw : w % 2 = 0) :
    ∀ (n y o : Nat) (d : Pixels) (r : Nat × Pixels),
      ctrlRows rule inp w n y o d = some r →
      r.1 = o + n * (3 * (w / 2) + (w + 1) / 10) := by
  intro n
  induction n with
  | zero =>
    intro y o d r h
    unfold ctrlRows at h
    cases h
    simp
  | succ n ih =>
    intro y o d r h
    unfold ctrlRows at h
    split at h
    · cases h
    · rename_i o1 d1 hc
      have h1 := ctrlCols_offset rule inp y _ _ _ _ _ (by decide) hc
      have h2 := ih _ _ _ _ h
      have e : 0 + 2 * ((w + 1) / 2) = w := by omega
      rw [e] at h1
      simp only at h1
      have e2 : (n + 1) * (3 * (w / 2) + (w + 1) / 10)
          = n * (3 * (w / 2) + (w + 1) / 10) + (3 * (w / 2) + (w + 1) / 10) :=
        Nat.succ_mul _ _
      rw [h2, e2]
      generalize n * (3 * (w / 2) + (w + 1) / 10) = q
      omega

/-- C22 on a concrete run with `w = 8`, `h = 2`, where `perline = 12 + 1 = 13`, on the
26 input bytes `0, 1, .., 25` (enough input: `perline*h = 26`).  Both decoders return
without exception and take the 26 bytes from the cursor.  Row 0 is decoded from the
offsets 0, 3, 6, 9.  The pair at column 0 of row 1 is decoded from the bytes at
offsets 12, 13, 14, not from those at `1*perline = 13`, 14, 15: the row loop
consumes 12 bytes per row, the control byte at offset 12 is read as data. -/
theorem decodeWithControl_row_start :
    (perlineCtrl 8 = 13 ∧ perlineCtrl 8 * 2 = (List.range 26).length) ∧
    ((Decode12BitRawWithControl ⟨List.range 26⟩ 8 2 blankImage).exc = none ∧
      (Decode12BitRawWithControl ⟨List.range 26⟩ 8 2 blankImage).input.rest = [] ∧
      (Decode12BitRawWithControl ⟨List.range 26⟩ 8 2 blankImage).mRaw.errors = [] ∧
      (Decode12BitRawWithControl ⟨List.range 26⟩ 8 2 blankImage).mRaw.data 0 0
        = (rule12LE 0 1 2).1 ∧
      (Decode12BitRawWithControl ⟨List.range 26⟩ 8 2 blankImage).mRaw.data 0 6
        = (rule12LE 9 10 11).1 ∧
      (Decode12BitRawWithControl ⟨List.range 26⟩ 8 2 blankImage).mRaw.data 1 0
        = (rule12LE 12 13 14).1 ∧
      (Decode12BitRawWithControl ⟨List.range 26⟩ 8 2 blankImage).mRaw.data 1 1
        = (rule12LE 12 13 14).2 ∧
      (Decode12BitRawWithControl ⟨List.range 26⟩ 8 2 blankImage).mRaw.data 1 0
        ≠ (rule12LE 13 14 15).1 % 65536) ∧
    ((Decode12BitRawBEWithControl ⟨List.range 26⟩ 8 2 blankImage).exc = none ∧
      (Decode12BitRawBEWithControl ⟨List.range 26⟩ 8 2 blankImage).input.rest = [] ∧
      (Decode12BitRawBEWithControl ⟨List.range 26⟩ 8 2 blankImage).mRaw.data 0 0
        = (rule12BE 0 1 2).1 ∧
      (Decode12BitRawBEWithControl ⟨List.range 26⟩ 8 2 blankImage).mRaw.data 1 0
        = (rule12BE 12 13 14).1 ∧
      (Decode12BitRawBEWithControl ⟨List.range 26⟩ 8 2 blankImage).mRaw.data 1 1
        = (rule12BE 12 13 14).2 ∧
      (Decode12BitRawBEWithControl ⟨List.range 26⟩ 8 2 blankImage).mRaw.data 1 0
        ≠ (rule12BE 13 14 15).1 % 65536) := by
  decide

/-! ## The row pointer of the bit pump loops, the divisor of a slice, the second field -/

/-- C23 on a concrete run: a slice of one row of one pixel with two components
(`cpp = 2`) at column origin `offset.x = 1` of a 2 by 1 image, 16 bits per sample,
input `AA BB CC DD`, on a host that is not little-endian.  The loops of
`BitOrder_Jpeg`, `BitOrder_Jpeg16` and `BitOrder_Jpeg32` start at cell
`offset.x*cpp = 2` (byte offset `offset.x*2*cpp = 4`) and store the two samples in
cells 2 and 3.  The loop of the plain order starts at cell `offset.x = 1` (byte offset
`offset.x*2 = 2`) and stores them in cells 1 and 2, inside the pixel at column 0.
On a little-endian host the plain order takes the `BitBlt` exit, which starts at
cell 2 like the other orders. -/
theorem readUncompressedRaw_plain_row_start :
    (readUncompressedRaw false ⟨[0xAA, 0xBB, 0xCC, 0xDD]⟩ (1, 1) (1, 0) 4 16 .BitOrder_Jpeg
        { blankImage with dimx := 2, dimy := 1, cpp := 2 }
      = pumpBranch .BitOrder_Jpeg ⟨[0xAA, 0xBB, 0xCC, 0xDD]⟩ 1 2 16 0 (1 * 2) 0 1
          { blankImage with dimx := 2, dimy := 1, cpp := 2 } ∧
     readUncompressedRaw false ⟨[0xAA, 0xBB, 0xCC, 0xDD]⟩ (1, 1) (1, 0) 4 16 .BitOrder_Plain
        { blankImage with dimx := 2, dimy := 1, cpp := 2 }
      = pumpBranch .BitOrder_Plain ⟨[0xAA, 0xBB, 0xCC, 0xDD]⟩ 1 2 16 0 1 0 1
          { blankImage with dimx := 2, dimy := 1, cpp := 2 }) ∧
    [BitOrder.BitOrder_Jpeg, .BitOrder_Jpeg16, .BitOrder_Jpeg32, .BitOrder_Plain].map
        (fun o => (readUncompressedRaw false ⟨[0xAA, 0xBB, 0xCC, 0xDD]⟩ (1, 1) (1, 0) 4 16 o
          { blankImage with dimx := 2, dimy := 1, cpp := 2 }).exc)
      = [none, none, none, none] ∧
    [BitOrder.BitOrder_Jpeg, .BitOrder_Jpeg16, .BitOrder_Jpeg32].map
        (fun o => (List.range 4).map
          ((readUncompressedRaw false ⟨[0xAA, 0xBB, 0xCC, 0xDD]⟩ (1, 1) (1, 0) 4 16 o
            { blankImage with dimx := 2, dimy := 1, cpp := 2 }).mRaw.data 0))
      = [[0, 0, 0xAABB, 0xCCDD], [0, 0, 0xAABB, 0xCCDD], [0, 0, 0xAABB, 0xCCDD]] ∧
    (List.range 4).map
        ((readUncompressedRaw false ⟨[0xAA, 0xBB, 0xCC, 0xDD]⟩ (1, 1) (1, 0) 4 16
          .BitOrder_Plain { blankImage with dimx := 2, dimy := 1, cpp := 2 }).mRaw.data 0)
      = [0, 0xBBAA, 0xDDCC, 0] ∧
    (List.range 4).map
        ((readUncompressedRaw true ⟨[0xAA, 0xBB, 0xCC, 0xDD]⟩ (1, 1) (1, 0) 4 16
          .BitOrder_Plain { blankImage with dimx := 2, dimy := 1, cpp := 2 }).mRaw.data 0)
      = [0, 0, 0xBBAA, 0xDDCC] := by
  refine ⟨⟨rfl, rfl⟩, by decide, by decide, by decide, by decide⟩

/-- C24 on two concrete strip tables with `width = 1` and every strip valid.
(1) Two strips of one byte, `yPerSlice = 1`, `height = 1`: the kept slices have
`slice.h = 1, 0`, the divisor `slice.h * width` of the second one is 0.
(2) Two strips of two bytes, `yPerSlice = 2`, `height = 2`: again `slice.h = 2, 0`.
In both `decodeUncompressed` reaches the division `slice.count*8 / (slice.h*width)`
with a divisor 0 after the first strip is decoded. -/
theorem decodeUncompressed_zero_divisor :
    ([(0, 1), (1, 1)].map (fun p => FileMap.isValid ⟨[1, 2]⟩ p.1 p.2) = [true, true] ∧
      (collectSlices ⟨[1, 2]⟩ 1 1 [(0, 1), (1, 1)] 0 []).1 = [⟨1, 0, 1⟩, ⟨0, 1, 1⟩] ∧
      (collectSlices ⟨[1, 2]⟩ 1 1 [(0, 1), (1, 1)] 0 []).1.map (fun s => (s.h * 1) % U32)
        = [1, 0] ∧
      (decodeUncompressed false ⟨[1, 2]⟩ [(0, 1), (1, 1)] 1 1 1 8 .BitOrder_Plain
        blankImage).exc = some (.Fault "division by zero") ∧
      (decodeUncompressed false ⟨[1, 2]⟩ [(0, 1), (1, 1)] 1 1 1 8 .BitOrder_Plain
        blankImage).mRaw.data 0 0 = 1) ∧
    ([(0, 2), (2, 2)].map (fun p => FileMap.isValid ⟨[1, 2, 3, 4]⟩ p.1 p.2) = [true, true] ∧
      (collectSlices ⟨[1, 2, 3, 4]⟩ 2 2 [(0, 2), (2, 2)] 0 []).1.map (fun s => (s.h * 1) % U32)
        = [2, 0] ∧
      (decodeUncompressed false ⟨[1, 2, 3, 4]⟩ [(0, 2), (2, 2)] 2 1 2 8 .BitOrder_Plain
        blankImage).exc = some (.Fault "division by zero")) := by
  decide

theorem pairCols_short (rule : Nat → Nat → Nat → Nat × Nat) (inp : List Nat)
    (y n x o : Nat) (d : Pixels) (h : inp.length ≤ o + 2) :
    pairCols rule inp y (n + 1) x o d = none := by
  have h2 : inp[o + 2]? = none := List.getElem?_eq_none h
  unfold pairCols
  rw [h2]
  split
  · rename_i heq
    cases heq
  · rfl

/-- The run of `Decode12BitRawBEInterlaced` with `w = 2`, `h = 2` on an input of
2048, 2049 or 2050 bytes. -/
theorem interlaced_overrun (input : ByteStream) (mRaw : RawImage)
    (h1 : 2048 ≤ input.rest.length) (h2 : input.rest.length < 2051) :
    (Decode12BitRawBEInterlaced input 2 2 mRaw).exc
      = some (.Fault "read outside the input stream") := by
  have hrem : input.getRemainSize = input.rest.length := rfl
  have hp : 2 * 12 % U32 / 8 = 3 := by decide
  have ht : (3 * 2) % U32 = 6 := by decide
  have hhalf : halfOf 2 = 1 := by decide
  have hr0 : interlacedRow 1 0 = 0 := by decide
  have hr1 : interlacedRow 1 1 = 1 := by decide
  have hoff : secondFieldOffset 1 2 = 2048 := by decide
  obtain ⟨d1, hd1, -, -⟩ := pairCols_spec rule12BE input.rest 0 1 0 0 mRaw.data (by omega)
  have hd2 : ∀ d, pairCols rule12BE input.rest 1 1 0 2048 d = none :=
    fun d => pairCols_short rule12BE input.rest 1 0 0 2048 d (by omega)
  unfold Decode12BitRawBEInterlaced checkLines ByteStream.peekData
  rw [if_neg (by decide), hp, ht, hrem, if_neg (by omega)]
  simp only
  rw [if_pos (by omega)]
  simp only [hhalf]
  unfold interlacedRows
  rw [if_neg (by decide), hr0, if_neg (by decide)]
  simp only [show (2 + 1) / 2 = 1 from rfl, hd1]
  unfold interlacedRows
  rw [if_neg (by decide), hr1, if_pos rfl, hoff, if_neg (by omega)]
  simp only [show (2 + 1) / 2 = 1 from rfl, hd2]

/-- C25 on a concrete run with `w = 2`, `h = 2` (`half = 1`, rows of 3 bytes, second
field at offset 2048) on an input of 2048 zero bytes: the test `offset > remain`
passes because `2048 > 2048` is false, and the second field is read at indices 2048,
2049, 2050, outside the input.  The same happens with 2050 bytes, where the field
lies only in part inside the input. -/
theorem Decode12BitRawBEInterlaced_second_field_overrun :
    secondFieldOffset (halfOf 2) 2 = 2048 ∧
    (List.replicate 2048 0).length = 2048 ∧
    (Decode12BitRawBEInterlaced ⟨List.replicate 2048 0⟩ 2 2 blankImage).exc
      = some (.Fault "read outside the input stream") ∧
    (Decode12BitRawBEInterlaced ⟨List.replicate 2050 0⟩ 2 2 blankImage).exc
      = some (.Fault "read outside the input stream") := by
  refine ⟨by decide, List.length_replicate _ _, ?_, ?_⟩
  · exact interlaced_overrun ⟨List.replicate 2048 0⟩ blankImage
      (by simp only [List.length_replicate]; omega) (by simp only [List.length_replicate]; omega)
  · exact interlaced_overrun ⟨List.replicate 2050 0⟩ blankImage
      (by simp only [List.length_replicate]; omega) (by simp only [List.length_replicate]; omega)

end RawSpeed
